import Mathlib

/-!
Verification of the provider-adapter layer (pydantic_ai/models/gemini.py,
pydantic_ai/models/openai.py, pydantic_ai/messages.py) against its
natural-language specification.

The Python source is shallowly embedded: JSON documents become the `JVal`
inductive, Python dicts become ordered association lists, Python exceptions
become the `Err` inductive returned through `Except`, and stateful
accumulators become explicit state records threaded through functions.
Machine integers are modelled as `Int`/`Nat` (no overflow is relevant:
values are token counts and list lengths). Impure inputs (environment
variables, wall-clock timestamps) are passed as explicit parameters.
-/

/-- JSON values as parsed or produced on the wire. Python dicts preserve
insertion order, so objects are ordered association lists; duplicate keys
cannot occur in values that come from Python dicts. JSON numbers are
modelled as integers (all numeric fields the adapters read are token
counts). -/
inductive JVal where
  | null : JVal
  | bool : Bool → JVal
  | num : Int → JVal
  | str : String → JVal
  | arr : List JVal → JVal
  | obj : List (String × JVal) → JVal
deriving Repr

/-- Python truthiness of a JSON value (`if value:`). -/
def jTruthy : JVal → Bool
  | .null => false
  | .bool b => b
  | .num n => n ≠ 0
  | .str s => s ≠ ""
  | .arr l => !l.isEmpty
  | .obj l => !l.isEmpty

/-- Dict lookup, `d.get(k)`. -/
def objGet (k : String) : List (String × JVal) → Option JVal
  | [] => none
  | (k', v) :: rest => if k' = k then some v else objGet k rest

/-- Dict membership, `k in d`. -/
def objHasKey (k : String) (l : List (String × JVal)) : Bool :=
  (objGet k l).isSome

/-- Dict removal, the removal part of `d.pop(k, None)`. Removes every
binding of `k`; on duplicate-free inputs (all dicts originating from
Python) this is exactly Python `pop`. -/
def objRemove (k : String) (l : List (String × JVal)) : List (String × JVal) :=
  l.filter (fun kv => kv.1 ≠ k)

/-- Dict pop: `d.pop(k, None)` returning the popped value and remaining dict. -/
def objPop (k : String) (l : List (String × JVal)) : Option JVal × List (String × JVal) :=
  (objGet k l, objRemove k l)

/-- Dict update of a single key, `d[k] = v`: existing keys keep their
position, a new key is appended — Python dict assignment semantics. -/
def objSet (k : String) (v : JVal) (l : List (String × JVal)) : List (String × JVal) :=
  if objHasKey k l then l.map (fun kv => if kv.1 = k then (k, v) else kv)
  else l ++ [(k, v)]

/-- Dict merge, `d.update(other)`: for each key of `other` in order,
assign it into `d` with Python assignment semantics. -/
def objUpdate (l other : List (String × JVal)) : List (String × JVal) :=
  other.foldl (fun acc kv => objSet kv.1 kv.2 acc) l

/-- Python exceptions raised by the adapter layer, one constructor per
exception class appearing in the source (plus built-in exceptions the code
can hit, and a fuel marker for the termination fuel of the embedded
recursions, which no real execution reaches). -/
inductive Err where
  | userError : String → Err
  | unexpectedModelBehavior : String → Err
  | validationError : String → Err
  | indexError : Err
  | keyError : String → Err
  | typeError : String → Err
  | attributeError : String → Err
  | assertionError : String → Err
  | fuelExhausted : Err
deriving Repr, DecidableEq

/-- Exception class name of an error, used to compare error kinds the way
a caller catching exceptions by class would. -/
def Err.kindOf : Err → String
  | .userError _ => "UserError"
  | .unexpectedModelBehavior _ => "UnexpectedModelBehavior"
  | .validationError _ => "ValidationError"
  | .indexError => "IndexError"
  | .keyError _ => "KeyError"
  | .typeError _ => "TypeError"
  | .attributeError _ => "AttributeError"
  | .assertionError _ => "AssertionError"
  | .fuelExhausted => "FuelExhausted"

/-- Python slice index normalisation against a list length:
negative indices count from the end, all indices clamp to `[0, n]`. -/
def pyNormIndex (n : Nat) (i : Int) : Nat :=
  if i < 0 then (max 0 ((n : Int) + i)).toNat else min i.toNat n

/-- Python slice `l[a:b]` (with already-explicit bounds). -/
def pySlice (l : List α) (a b : Int) : List α :=
  (l.take (pyNormIndex l.length b)).drop (pyNormIndex l.length a)

/-- Python slice `l[a:]`. -/
def pySliceFrom (l : List α) (a : Int) : List α :=
  l.drop (pyNormIndex l.length a)

/-- Modelled from the spec: `result.Cost` (result.py is not under src/).
Per §3: `{request_tokens, response_tokens, total_tokens, details: mapping
string→integer}` supporting accumulation `a + b`, absent fields default to
zero. `details` is an ordered string→integer mapping merged additively. -/
structure Cost where
  requestTokens : Int := 0
  responseTokens : Int := 0
  totalTokens : Int := 0
  details : List (String × Int) := []
deriving Repr, DecidableEq

/-- Add one detail entry into a details mapping. -/
def detailsAddOne (l : List (String × Int)) (kv : String × Int) : List (String × Int) :=
  match l with
  | [] => [kv]
  | (k, v) :: rest =>
    if k = kv.1 then (k, v + kv.2) :: rest else (k, v) :: detailsAddOne rest kv

/-- Cost accumulation `a + b` (spec §3: field-wise sums, details merged
additively). -/
def Cost.add (a b : Cost) : Cost :=
  { requestTokens := a.requestTokens + b.requestTokens
    responseTokens := a.responseTokens + b.responseTokens
    totalTokens := a.totalTokens + b.totalTokens
    details := b.details.foldl detailsAddOne a.details }

/-- The zero cost, `result.Cost()`. -/
def Cost.zero : Cost := {}

/-- Tool call arguments: `ArgsJson{raw_json_string}` or
`ArgsDict{key→value mapping}` (messages.py). -/
inductive ToolCallArgs where
  | argsJson : String → ToolCallArgs
  | argsDict : List (String × JVal) → ToolCallArgs
deriving Repr

/-- Response parts (messages.py): `TextPart{content}` or
`ToolCallPart{tool_name, args, tool_call_id}`. -/
inductive ModelResponsePart where
  | text : String → ModelResponsePart
  | toolCall : String → ToolCallArgs → Option String → ModelResponsePart
deriving Repr

/-- `ToolCallPart.from_json` (messages.py). -/
def toolCallFromJson (toolName : String) (argsJson : String) (toolCallId : Option String := none) : ModelResponsePart :=
  .toolCall toolName (.argsJson argsJson) toolCallId

/-- `ToolCallPart.from_dict` (messages.py). -/
def toolCallFromDict (toolName : String) (argsDict : List (String × JVal)) (toolCallId : Option String := none) : ModelResponsePart :=
  .toolCall toolName (.argsDict argsDict) toolCallId

/-- `ModelResponse` (messages.py): ordered parts plus a timestamp
(timestamps are opaque integers here; `now_utc()` is passed in explicitly
wherever the source calls it). -/
structure ModelResponse where
  parts : List ModelResponsePart
  timestamp : Int
deriving Repr

/-- Validation error details carried by `RetryPrompt.content`
(pydantic_core.ErrorDetails, reduced to the fields the source
serialises; `ctx` is the context field excluded on dump). -/
structure ErrorDetails where
  ty : String
  loc : List String
  msg : String
  input : JVal
  ctx : Option JVal := none
deriving Repr

/-- Content of a `RetryPrompt`: free text or structured validation errors. -/
inductive RetryContent where
  | text : String → RetryContent
  | errors : List ErrorDetails → RetryContent
deriving Repr

/-- The canonical message union (messages.py): SystemPrompt, UserPrompt,
ToolReturn, RetryPrompt, ModelResponse. Role/kind tags are determined by
the constructor. -/
inductive Message where
  | systemPrompt : String → Message
  | userPrompt : String → Int → Message
  | toolReturn : String → JVal → Option String → Int → Message
  | retryPrompt : RetryContent → Option String → Option String → Int → Message
  | modelResponse : ModelResponse → Message
deriving Repr

/-- Opening brace character (written via its code point; braces inside
string literals are escaped as hex below). -/
def lbraceChar : Char := Char.ofNat 123

/-- Closing brace character. -/
def rbraceChar : Char := Char.ofNat 125

/-- Escape one character for a JSON string literal. -/
def jsonEscapeChar (c : Char) : String :=
  if c = '"' then "\\\""
  else if c = '\\' then "\\\\"
  else if c = '\n' then "\\n"
  else if c = '\t' then "\\t"
  else if c = '\r' then "\\r"
  else String.singleton c

/-- Render a JSON string literal. -/
def jsonRenderString (s : String) : String :=
  "\"" ++ String.join (s.data.map jsonEscapeChar) ++ "\""

mutual

/-- Compact JSON serialisation, modelling the serialisation performed by
pydantic TypeAdapter dump (whitespace/indentation is not reproduced; no
claim depends on it). -/
def jsonRender : JVal → String
  | .null => "null"
  | .bool b => if b then "true" else "false"
  | .num n => toString n
  | .str s => jsonRenderString s
  | .arr l => "[" ++ jsonRenderList l ++ "]"
  | .obj l => String.singleton lbraceChar ++ jsonRenderMembers l ++ String.singleton rbraceChar

/-- Render array elements, comma separated. -/
def jsonRenderList : List JVal → String
  | [] => ""
  | [v] => jsonRender v
  | v :: rest => jsonRender v ++ "," ++ jsonRenderList rest

/-- Render object members, comma separated. -/
def jsonRenderMembers : List (String × JVal) → String
  | [] => ""
  | [(k, v)] => jsonRenderString k ++ ":" ++ jsonRender v
  | (k, v) :: rest => jsonRenderString k ++ ":" ++ jsonRender v ++ "," ++ jsonRenderMembers rest

end

/-- `ToolReturn.model_response_str` (messages.py): a string content passes
through, anything else is JSON-serialised. -/
def toolReturnModelResponseStr (content : JVal) : String :=
  match content with
  | .str s => s
  | v => jsonRender v

/-- `ToolReturn.model_response_object` (messages.py): a dict content passes
through, anything else is wrapped as `return_value`. -/
def toolReturnModelResponseObject (content : JVal) : List (String × JVal) :=
  match content with
  | .obj l => l
  | v => [("return_value", v)]

/-- Serialisation of one validation-error record with the `ctx` field
excluded (`exclude={'__all__': {'ctx'}}` in messages.py). -/
def errorDetailsToJVal (e : ErrorDetails) : JVal :=
  .obj [("type", .str e.ty), ("loc", .arr (e.loc.map .str)), ("msg", .str e.msg), ("input", e.input)]

/-- `RetryPrompt.model_response` (messages.py). -/
def retryPromptModelResponse (content : RetryContent) : String :=
  match content with
  | .text s => s ++ "\n\nFix the errors and try again."
  | .errors es =>
    toString es.length ++ " validation errors: "
      ++ jsonRender (.arr (es.map errorDetailsToJVal))
      ++ "\n\nFix the errors and try again."

/-- Result of parsing a syntactic fragment: a value plus remaining input,
or a diagnosis that the input is a prefix of valid JSON (`incomplete`) or
not valid JSON at all (`malformed`). Models the distinction pydantic_core
partial parsing draws between truncated and invalid documents. -/
inductive PRes (α : Type) where
  | ok : α → List Char → PRes α
  | incomplete : PRes α
  | malformed : PRes α
deriving Repr

/-- Skip JSON whitespace. -/
def skipWs : List Char → List Char
  | [] => []
  | c :: rest =>
    if c = ' ' || c = '\n' || c = '\t' || c = '\r' then skipWs rest else c :: rest

/-- Match a fixed literal (`true`, `false`, `null`). -/
def matchLit : List Char → List Char → PRes Unit
  | [], rest => .ok () rest
  | _ :: _, [] => .incomplete
  | l :: ls, c :: cs => if c = l then matchLit ls cs else .malformed

/-- Decode one hex digit. -/
def hexDigitVal (c : Char) : Option Nat :=
  if '0' ≤ c ∧ c ≤ '9' then some (c.toNat - '0'.toNat)
  else if 'a' ≤ c ∧ c ≤ 'f' then some (c.toNat - 'a'.toNat + 10)
  else if 'A' ≤ c ∧ c ≤ 'F' then some (c.toNat - 'A'.toNat + 10)
  else none

/-- Parse the body of a JSON string after the opening quote, handling
escapes; fuelled recursion (the fuel bounds used below always exceed the
input length). -/
def parseStringBody : Nat → List Char → String → PRes String
  | 0, _, _ => .malformed
  | _ + 1, [], _ => .incomplete
  | fuel + 1, c :: rest, acc =>
    if c = '"' then .ok acc rest
    else if c = '\\' then
      match rest with
      | [] => .incomplete
      | e :: rest2 =>
        if e = '"' then parseStringBody fuel rest2 (acc ++ "\"")
        else if e = '\\' then parseStringBody fuel rest2 (acc ++ "\\")
        else if e = '/' then parseStringBody fuel rest2 (acc ++ "/")
        else if e = 'n' then parseStringBody fuel rest2 (acc ++ "\n")
        else if e = 't' then parseStringBody fuel rest2 (acc ++ "\t")
        else if e = 'r' then parseStringBody fuel rest2 (acc ++ "\r")
        else if e = 'b' then parseStringBody fuel rest2 (acc.push (Char.ofNat 8))
        else if e = 'f' then parseStringBody fuel rest2 (acc.push (Char.ofNat 12))
        else if e = 'u' then
          match rest2 with
          | h1 :: h2 :: h3 :: h4 :: rest3 =>
            match hexDigitVal h1, hexDigitVal h2, hexDigitVal h3, hexDigitVal h4 with
            | some a, some b, some cc, some d =>
              parseStringBody fuel rest3 (acc.push (Char.ofNat (((a * 16 + b) * 16 + cc) * 16 + d)))
            | _, _, _, _ => .malformed
          | _ => .incomplete
        else .malformed
    else parseStringBody fuel rest (acc.push c)

/-- Take a run of decimal digits. -/
def takeDigits : List Char → List Char × List Char
  | [] => ([], [])
  | c :: rest =>
    if c.isDigit then
      let (ds, r) := takeDigits rest
      (c :: ds, r)
    else ([], c :: rest)

/-- Numeric value of a digit run. -/
def digitsToNat : List Char → Nat
  | [] => 0
  | ds => ds.foldl (fun acc c => acc * 10 + (c.toNat - '0'.toNat)) 0

/-- Parse a JSON number starting at the first character (`-` or digit).
The syntactic grammar (sign, integer part, optional fraction, optional
exponent) is checked fully; the numeric value keeps the signed integer
part, since every number the adapters consume is a token count. -/
def parseNumber (cs : List Char) : PRes JVal :=
  let (neg, cs1) := match cs with
    | '-' :: rest => (true, rest)
    | rest => (false, rest)
  let (intDigits, cs2) := takeDigits cs1
  if intDigits.isEmpty then
    (if cs1.isEmpty then .incomplete else .malformed)
  else
    let n : Int := if neg then -(digitsToNat intDigits : Int) else (digitsToNat intDigits : Int)
    match cs2 with
    | '.' :: cs3 =>
      let (fracDigits, cs4) := takeDigits cs3
      if fracDigits.isEmpty then
        (if cs3.isEmpty then .incomplete else .malformed)
      else
        match cs4 with
        | 'e' :: cs5 => parseExponentTail n cs5
        | 'E' :: cs5 => parseExponentTail n cs5
        | rest => .ok (.num n) rest
    | 'e' :: cs3 => parseExponentTail n cs3
    | 'E' :: cs3 => parseExponentTail n cs3
    | rest => .ok (.num n) rest
where
  parseExponentTail (n : Int) (cs : List Char) : PRes JVal :=
    let cs1 := match cs with
      | '+' :: rest => rest
      | '-' :: rest => rest
      | rest => rest
    let (expDigits, cs2) := takeDigits cs1
    if expDigits.isEmpty then
      (if cs1.isEmpty then .incomplete else .malformed)
    else .ok (.num n) cs2

/-- Outcome of consuming the elements of a top-level JSON array: the array
was closed by `]` (with trailing input), or the input ran out mid-array,
or the input is not valid JSON. -/
inductive ElemsEnd where
  | closed : List Char → ElemsEnd
  | incomplete : ElemsEnd
  | malformed : ElemsEnd
deriving Repr

mutual

/-- Recursive-descent parse of one JSON value (after leading whitespace).
Fuel strictly decreases on every recursive call; the top-level wrappers
supply fuel exceeding any possible recursion depth. -/
def parseValue : Nat → List Char → PRes JVal
  | 0, _ => .malformed
  | fuel + 1, cs =>
    match skipWs cs with
    | [] => .incomplete
    | c :: rest =>
      if c = '"' then
        match parseStringBody (rest.length + 1) rest "" with
        | .ok s r => .ok (.str s) r
        | .incomplete => .incomplete
        | .malformed => .malformed
      else if c = '[' then
        match skipWs rest with
        | [] => .incomplete
        | c2 :: rest2 =>
          if c2 = ']' then .ok (.arr []) rest2
          else
            match parseElemsCore fuel (c2 :: rest2) [] with
            | (elems, .closed rest3) => .ok (.arr elems) rest3
            | (_, .incomplete) => .incomplete
            | (_, .malformed) => .malformed
      else if c = lbraceChar then
        match skipWs rest with
        | [] => .incomplete
        | c2 :: rest2 =>
          if c2 = rbraceChar then .ok (.obj []) rest2
          else
            match parseMembersCore fuel (c2 :: rest2) [] with
            | .ok mems rest3 => .ok (.obj mems) rest3
            | .incomplete => .incomplete
            | .malformed => .malformed
      else if c = 't' then
        match matchLit ['t', 'r', 'u', 'e'] (c :: rest) with
        | .ok _ r => .ok (.bool true) r
        | .incomplete => .incomplete
        | .malformed => .malformed
      else if c = 'f' then
        match matchLit ['f', 'a', 'l', 's', 'e'] (c :: rest) with
        | .ok _ r => .ok (.bool false) r
        | .incomplete => .incomplete
        | .malformed => .malformed
      else if c = 'n' then
        match matchLit ['n', 'u', 'l', 'l'] (c :: rest) with
        | .ok _ r => .ok (.null) r
        | .incomplete => .incomplete
        | .malformed => .malformed
      else if c = '-' || c.isDigit then parseNumber (c :: rest)
      else .malformed

/-- Consume array elements (input positioned at the first element).
Returns the complete elements parsed so far together with how the array
ended — the partial ("best-effort") top-level parse keeps those elements
when the tail is incomplete, the strict parse requires a proper close. -/
def parseElemsCore : Nat → List Char → List JVal → List JVal × ElemsEnd
  | 0, _, acc => (acc, .malformed)
  | fuel + 1, cs, acc =>
    match parseValue fuel cs with
    | .incomplete => (acc, .incomplete)
    | .malformed => (acc, .malformed)
    | .ok v rest =>
      match skipWs rest with
      | [] => (acc ++ [v], .incomplete)
      | c :: rest2 =>
        if c = ',' then parseElemsCore fuel rest2 (acc ++ [v])
        else if c = ']' then (acc ++ [v], .closed rest2)
        else (acc ++ [v], .malformed)

/-- Consume object members (input positioned at the first key). -/
def parseMembersCore : Nat → List Char → List (String × JVal) → PRes (List (String × JVal))
  | 0, _, _ => .malformed
  | fuel + 1, cs, acc =>
    match cs with
    | [] => .incomplete
    | c :: rest =>
      if c = '"' then
        match parseStringBody (rest.length + 1) rest "" with
        | .incomplete => .incomplete
        | .malformed => .malformed
        | .ok key rest2 =>
          match skipWs rest2 with
          | [] => .incomplete
          | c2 :: rest3 =>
            if c2 = ':' then
              match parseValue fuel rest3 with
              | .incomplete => .incomplete
              | .malformed => .malformed
              | .ok v rest4 =>
                match skipWs rest4 with
                | [] => .incomplete
                | c3 :: rest5 =>
                  if c3 = ',' then
                    match skipWs rest5 with
                    | [] => .incomplete
                    | cs6 => parseMembersCore fuel cs6 (acc ++ [(key, v)])
                  else if c3 = rbraceChar then .ok (acc ++ [(key, v)]) rest5
                  else .malformed
            else .malformed
      else .incomplete

end

/-- Fuel bound for the JSON parser: each unit of nesting consumes at least
one input character, so this always suffices. -/
def jsonFuel (s : String) : Nat := 2 * s.length + 16

/-- Strict JSON document parse: `pydantic_core.from_json(buf)` /
`TypeAdapter.validate_json` with partial validation off. The whole input
must be one complete JSON document. A top-level array goes through the
same element parser as the best-effort mode, but truncated input is an
error here. -/
def fromJsonStrict (s : String) : Except Err JVal :=
  match skipWs s.data with
  | [] => .error (.validationError "Incomplete JSON document")
  | c :: rest =>
    if c = '[' then
      match skipWs rest with
      | [] => .error (.validationError "Incomplete JSON document")
      | c2 :: rest2 =>
        if c2 = ']' then
          if (skipWs rest2).isEmpty then .ok (.arr [])
          else .error (.validationError "Extra data after JSON document")
        else
          match parseElemsCore (jsonFuel s - 1) (c2 :: rest2) [] with
          | (elems, .closed rest3) =>
            if (skipWs rest3).isEmpty then .ok (.arr elems)
            else .error (.validationError "Extra data after JSON document")
          | (_, .incomplete) => .error (.validationError "Incomplete JSON document")
          | (_, .malformed) => .error (.validationError "Invalid JSON document")
    else
      match parseValue (jsonFuel s) s.data with
      | .ok v rest =>
        if (skipWs rest).isEmpty then .ok v
        else .error (.validationError "Extra data after JSON document")
      | .incomplete => .error (.validationError "Incomplete JSON document")
      | .malformed => .error (.validationError "Invalid JSON document")

/-- Best-effort JSON parse of a possibly-truncated buffer:
`pydantic_core.from_json(buf, allow_partial=True)` and the
`experimental_allow_partial` validation modes. For a top-level array the
complete leading elements are returned even when the tail of the buffer is
cut off mid-element; invalid (rather than truncated) input is still an
error. Partial parsing is modelled at element granularity: the
`trailing-strings` refinement (recovering a final half-delivered string)
is not distinguished, and no claim below depends on that refinement. -/
def fromJsonPartial (s : String) : Except Err JVal :=
  match skipWs s.data with
  | [] => .error (.validationError "Incomplete JSON document")
  | c :: rest =>
    if c = '[' then
      match skipWs rest with
      | [] => .ok (.arr [])
      | c2 :: rest2 =>
        if c2 = ']' then
          if (skipWs rest2).isEmpty then .ok (.arr [])
          else .error (.validationError "Extra data after JSON document")
        else
          match parseElemsCore (jsonFuel s - 1) (c2 :: rest2) [] with
          | (elems, .closed rest3) =>
            if (skipWs rest3).isEmpty then .ok (.arr elems)
            else .error (.validationError "Extra data after JSON document")
          | (elems, .incomplete) => .ok (.arr elems)
          | (_, .malformed) => .error (.validationError "Invalid JSON document")
    else
      match parseValue (jsonFuel s) s.data with
      | .ok v rest =>
        if (skipWs rest).isEmpty then .ok v
        else .error (.validationError "Extra data after JSON document")
      | .incomplete => .error (.validationError "Incomplete JSON document")
      | .malformed => .error (.validationError "Invalid JSON document")

/-- Gemini wire response parts (`_GeminiPartUnion` in gemini.py):
text, functionCall, or functionResponse. -/
inductive GeminiPart where
  | text : String → GeminiPart
  | functionCall : String → List (String × JVal) → GeminiPart
  | functionResponse : String → List (String × JVal) → GeminiPart
deriving Repr

/-- `_GeminiContent`: a role (`user` or `model`) plus parts. -/
structure GeminiContent where
  role : String
  parts : List GeminiPart
deriving Repr

/-- `_GeminiCandidates` (unused optional metadata fields — finish reason,
safety ratings, index — are not consumed by any adapter code path and are
omitted from the embedding). -/
structure GeminiCandidate where
  content : GeminiContent
deriving Repr

/-- `_GeminiUsageMetaData`: all token-count fields optional. -/
structure GeminiUsageMetaData where
  promptTokenCount : Option Int := none
  candidatesTokenCount : Option Int := none
  totalTokenCount : Option Int := none
  cachedContentTokenCount : Option Int := none
deriving Repr

/-- `_GeminiResponse`: candidates plus optional usage metadata
(prompt feedback is not consumed by any code path and is omitted). -/
structure GeminiResponse where
  candidates : List GeminiCandidate
  usageMetadata : Option GeminiUsageMetaData := none
deriving Repr

/-- Validate a required string field. -/
def expectJStr (v : JVal) : Except Err String :=
  match v with
  | .str s => .ok s
  | _ => .error (.validationError "Input should be a valid string")

/-- Validate a required object field. -/
def expectJObj (v : JVal) : Except Err (List (String × JVal)) :=
  match v with
  | .obj l => .ok l
  | _ => .error (.validationError "Input should be a valid dictionary")

/-- Validate a required integer field. -/
def expectJInt (v : JVal) : Except Err Int :=
  match v with
  | .num n => .ok n
  | _ => .error (.validationError "Input should be a valid integer")

/-- Validate an optional integer field (by its wire alias). -/
def validateOptInt (aliasName : String) (kvs : List (String × JVal)) : Except Err (Option Int) :=
  match objGet aliasName kvs with
  | none => .ok none
  | some v => (expectJInt v).map some

/-- Validate `_GeminiFunctionCall`: `{name: str, args: dict}`. -/
def validateGeminiFunctionCall (v : JVal) : Except Err (String × List (String × JVal)) := do
  let kvs ← expectJObj v
  let name ← match objGet "name" kvs with
    | some nv => expectJStr nv
    | none => .error (.validationError "Field required: name")
  let args ← match objGet "args" kvs with
    | some av => expectJObj av
    | none => .error (.validationError "Field required: args")
  .ok (name, args)

/-- Validate one wire part using `_part_discriminator` (gemini.py): a
`text` key tags a text part, `functionCall`/`function_call` a function
call, `functionResponse`/`function_response` a function response, and
anything else falls back to the `text` tag (whose validation then fails on
the missing field). Field lookup is by wire alias, as pydantic validates
aliased TypedDict fields. -/
def validateGeminiPart (v : JVal) : Except Err GeminiPart := do
  let kvs ← expectJObj v
  if objHasKey "text" kvs then
    match objGet "text" kvs with
    | some tv => (expectJStr tv).map .text
    | none => .error (.validationError "Field required: text")
  else if objHasKey "functionCall" kvs || objHasKey "function_call" kvs then
    match objGet "functionCall" kvs with
    | some fv => (validateGeminiFunctionCall fv).map fun nv => .functionCall nv.1 nv.2
    | none => .error (.validationError "Field required: functionCall")
  else if objHasKey "functionResponse" kvs || objHasKey "function_response" kvs then
    match objGet "functionResponse" kvs with
    | some fv => do
      let fkvs ← expectJObj fv
      let name ← match objGet "name" fkvs with
        | some nv => expectJStr nv
        | none => .error (.validationError "Field required: name")
      let response ← match objGet "response" fkvs with
        | some rv => expectJObj rv
        | none => .error (.validationError "Field required: response")
      .ok (.functionResponse name response)
    | none => .error (.validationError "Field required: functionResponse")
  else .error (.validationError "Field required: text")

/-- Validate `_GeminiContent`: role restricted to `user`/`model`, parts a
list of wire parts. -/
def validateGeminiContent (v : JVal) : Except Err GeminiContent := do
  let kvs ← expectJObj v
  let role ← match objGet "role" kvs with
    | some rv => expectJStr rv
    | none => .error (.validationError "Field required: role")
  if role = "user" || role = "model" then
    match objGet "parts" kvs with
    | some (.arr pvs) => do
      let parts ← pvs.mapM validateGeminiPart
      .ok { role := role, parts := parts }
    | some _ => .error (.validationError "Input should be a valid list")
    | none => .error (.validationError "Field required: parts")
  else .error (.validationError "Input should be user or model")

/-- Validate `_GeminiCandidates`. -/
def validateGeminiCandidate (v : JVal) : Except Err GeminiCandidate := do
  let kvs ← expectJObj v
  match objGet "content" kvs with
  | some cv => (validateGeminiContent cv).map GeminiCandidate.mk
  | none => .error (.validationError "Field required: content")

/-- Validate `_GeminiUsageMetaData` (all fields optional, wire aliases). -/
def validateGeminiUsage (v : JVal) : Except Err GeminiUsageMetaData := do
  let kvs ← expectJObj v
  let p ← validateOptInt "promptTokenCount" kvs
  let c ← validateOptInt "candidatesTokenCount" kvs
  let t ← validateOptInt "totalTokenCount" kvs
  let cc ← validateOptInt "cachedContentTokenCount" kvs
  .ok { promptTokenCount := p, candidatesTokenCount := c, totalTokenCount := t, cachedContentTokenCount := cc }

/-- Validate `_GeminiResponse`: required candidates list, optional usage
metadata (alias `usageMetadata`). -/
def validateGeminiResponse (v : JVal) : Except Err GeminiResponse := do
  let kvs ← expectJObj v
  let cands ← match objGet "candidates" kvs with
    | some (.arr cvs) => cvs.mapM validateGeminiCandidate
    | some _ => .error (.validationError "Input should be a valid list")
    | none => .error (.validationError "Field required: candidates")
  let usage ← match objGet "usageMetadata" kvs with
    | none => pure none
    | some uv => (validateGeminiUsage uv).map some
  .ok { candidates := cands, usageMetadata := usage }

/-- `_gemini_streamed_response_ta.validate_json`: parse the buffer
(strictly, or best-effort when a partial mode is given) and validate it as
a list of Gemini responses. -/
def geminiStreamedValidateJson (partialMode : Bool) (s : String) : Except Err (List GeminiResponse) := do
  let v ← (if partialMode then fromJsonPartial s else fromJsonStrict s)
  match v with
  | .arr items => items.mapM validateGeminiResponse
  | _ => .error (.validationError "Input should be a valid list")

/-- `_metadata_as_cost` (gemini.py): zero cost when usage metadata is
absent; the cached-content count enters `details` only when truthy
(non-zero). -/
def metadataAsCost (r : GeminiResponse) : Cost :=
  match r.usageMetadata with
  | none => Cost.zero
  | some md =>
    { requestTokens := md.promptTokenCount.getD 0
      responseTokens := md.candidatesTokenCount.getD 0
      totalTokens := md.totalTokenCount.getD 0
      details :=
        match md.cachedContentTokenCount with
        | some n => if n ≠ 0 then [("cached_content_token_count", n)] else []
        | none => [] }

/-- Wire rendering of a validated part, used only inside error messages
(standing in for Python `repr`). -/
def geminiPartToJVal : GeminiPart → JVal
  | .text s => .obj [("text", .str s)]
  | .functionCall n a => .obj [("function_call", .obj [("name", .str n), ("args", .obj a)])]
  | .functionResponse n r => .obj [("function_response", .obj [("name", .str n), ("response", .obj r)])]

/-- Worker for `_process_response_from_parts` (gemini.py): text parts map
to `TextPart`, function calls to `ToolCallPart.from_dict`, and a
function-response part is a hard `UnexpectedModelBehavior` failure. -/
def partsToItems : List GeminiPart → List ModelResponsePart → Except Err (List ModelResponsePart)
  | [], acc => .ok acc
  | .text s :: rest, acc => partsToItems rest (acc ++ [.text s])
  | .functionCall n a :: rest, acc => partsToItems rest (acc ++ [toolCallFromDict n a])
  | p@(.functionResponse _ _) :: _, _ =>
    .error (.unexpectedModelBehavior
      ("Unsupported response from Gemini, expected all parts to be function calls or text, got: "
        ++ jsonRender (geminiPartToJVal p)))

/-- `_process_response_from_parts` (gemini.py): builds the canonical
`ModelResponse`; the timestamp defaults to capture time (`now`) when the
caller supplies none. -/
def processResponseFromParts (parts : List GeminiPart) (timestamp : Option Int) (now : Int) : Except Err ModelResponse := do
  let items ← partsToItems parts []
  .ok { parts := items, timestamp := timestamp.getD now }

/-- `GeminiAgentModel._process_response`: requires exactly one candidate,
then reconstructs from that candidate's parts. -/
def geminiProcessResponse (r : GeminiResponse) (now : Int) : Except Err ModelResponse :=
  if r.candidates.length ≠ 1 then
    .error (.unexpectedModelBehavior "Expected exactly one candidate in Gemini response")
  else
    match r.candidates with
    | cand :: _ => processResponseFromParts cand.content.parts none now
    | [] => .error (.unexpectedModelBehavior "Expected exactly one candidate in Gemini response")

/-- `_all_text_parts` (gemini.py). -/
def allTextParts (parts : List GeminiPart) : Bool :=
  parts.all fun p => match p with | .text _ => true | _ => false

/-- `_all_function_call_parts` (gemini.py). -/
def allFunctionCallParts (parts : List GeminiPart) : Bool :=
  parts.all fun p => match p with | .functionCall _ _ => true | _ => false

/-- State of `GeminiStreamTextResponse`: the accumulated JSON buffer, the
count of top-level array items already reported, and the running cost. -/
structure GeminiStreamTextState where
  jsonContent : String
  position : Int := 0
  timestamp : Int
  cost : Cost := Cost.zero
deriving Repr

/-- `GeminiStreamTextResponse.__anext__`: extend the buffer with the next
raw chunk. -/
def geminiTextAdvance (st : GeminiStreamTextState) (chunk : String) : GeminiStreamTextState :=
  { st with jsonContent := st.jsonContent ++ chunk }

/-- Per-item loop of `GeminiStreamTextResponse.get`: accumulate each
item's usage into the cost and emit its candidate parts as text,
failing on a non-text part or an item with no candidates. -/
def geminiTextEmit : List GeminiResponse → Cost → List String → Except Err (Cost × List String)
  | [], cost, acc => .ok (cost, acc)
  | r :: rest, cost, acc =>
    let cost := cost.add (metadataAsCost r)
    match r.candidates with
    | [] => .error .indexError
    | cand :: _ =>
      let parts := cand.content.parts
      if allTextParts parts then
        geminiTextEmit rest cost
          (acc ++ parts.filterMap fun p => match p with | .text s => some s | _ => none)
      else .error (.unexpectedModelBehavior "Streamed response with unexpected content, expected all parts to be text")

/-- `GeminiStreamTextResponse.get`: parse the whole buffer (strictly when
final, best-effort otherwise), slice off the items already reported (the
non-final mode additionally holds back the trailing item), validate the
new items and emit their text. The generator is modelled as fully
consumed: the returned state reflects a caller that exhausted the yielded
fragments. -/
def geminiTextGet (final : Bool) (st : GeminiStreamTextState) : Except Err (List String × GeminiStreamTextState) := do
  let v ← (if final then fromJsonStrict st.jsonContent else fromJsonPartial st.jsonContent)
  let allItems ← match v with
    | .arr l => pure l
    | _ => .error (.typeError "value is not subscriptable")
  let newItems := if final then pySliceFrom allItems st.position else pySlice allItems st.position (-1)
  let newPos : Int := if final then (allItems.length : Int) else (allItems.length : Int) - 1
  let newResponses ← newItems.mapM validateGeminiResponse
  let (cost, texts) ← geminiTextEmit newResponses st.cost []
  .ok (texts, { st with position := newPos, cost := cost })

/-- State of `GeminiStreamStructuredResponse`. -/
structure GeminiStreamStructuredState where
  content : String
  timestamp : Int
  cost : Cost := Cost.zero
deriving Repr

/-- `GeminiStreamStructuredResponse.__anext__`. -/
def geminiStructuredAdvance (st : GeminiStreamStructuredState) (chunk : String) : GeminiStreamStructuredState :=
  { st with content := st.content ++ chunk }

/-- Accumulation loop of `GeminiStreamStructuredResponse.get`: recompute
the cost as the sum over all elements and concatenate every element's
first-candidate parts; an element with no candidates is an index failure. -/
def geminiCombine : List GeminiResponse → Cost → List GeminiPart → Except Err (Cost × List GeminiPart)
  | [], cost, acc => .ok (cost, acc)
  | r :: rest, cost, acc =>
    let cost := cost.add (metadataAsCost r)
    match r.candidates with
    | [] => .error .indexError
    | cand :: _ => geminiCombine rest cost (acc ++ cand.content.parts)

/-- `GeminiStreamStructuredResponse.get`: strict parse when final
(best-effort otherwise), then combine all elements into one
`ModelResponse`, resetting and recomputing the cost from scratch. -/
def geminiStructuredGet (final : Bool) (st : GeminiStreamStructuredState) : Except Err (ModelResponse × GeminiStreamStructuredState) := do
  let responses ← geminiStreamedValidateJson (!final) st.content
  let (cost, combined) ← geminiCombine responses Cost.zero []
  let resp ← processResponseFromParts combined (some st.timestamp) st.timestamp
  .ok (resp, { st with cost := cost })

/-- The two possible streamed-response classifications for Gemini
(`EitherStreamedResponse`). -/
inductive GeminiEitherStreamed where
  | structured : GeminiStreamStructuredState → GeminiEitherStreamed
  | text : GeminiStreamTextState → GeminiEitherStreamed
deriving Repr

/-- `_extract_response_parts` (gemini.py) reduced to its classification
bit (`is_left()`): `true` for a function-call response, `false` for a
text response, failing on a wrong candidate count or mixed parts. -/
def geminiClassifyStart (r : GeminiResponse) : Except Err Bool :=
  if r.candidates.length ≠ 1 then
    .error (.unexpectedModelBehavior "Expected exactly one candidate in Gemini response")
  else
    match r.candidates with
    | cand :: _ =>
      let parts := cand.content.parts
      if allFunctionCallParts parts then .ok true
      else if allTextParts parts then .ok false
      else .error (.unexpectedModelBehavior
        ("Unsupported response from Gemini, expected all parts to be function calls or text, got: "
          ++ jsonRender (.arr (parts.map geminiPartToJVal))))
    | [] => .error (.unexpectedModelBehavior "Expected exactly one candidate in Gemini response")

/-- Priming loop of `GeminiAgentModel._process_streamed_response`: consume
chunks, best-effort parse the accumulated buffer after each one, and stop
at the first parse whose last element has a candidate with non-empty
parts; a stream that ends first is an `UnexpectedModelBehavior` failure.
Returns the classified accumulator state and the unconsumed chunks. -/
def geminiPrimeGo (timestamp : Int) (acc : String) : List String → Except Err (GeminiEitherStreamed × List String)
  | [] => .error (.unexpectedModelBehavior "Streamed response ended without content or tool calls")
  | chunk :: rest =>
    let acc2 := acc ++ chunk
    match geminiStreamedValidateJson true acc2 with
    | .error e => .error e
    | .ok responses =>
      match responses.getLast? with
      | some last =>
        match last.candidates with
        | cand :: _ =>
          if !cand.content.parts.isEmpty then
            match geminiClassifyStart last with
            | .error e => .error e
            | .ok true => .ok (.structured { content := acc2, timestamp := timestamp }, rest)
            | .ok false => .ok (.text { jsonContent := acc2, timestamp := timestamp }, rest)
          else geminiPrimeGo timestamp acc2 rest
        | [] => geminiPrimeGo timestamp acc2 rest
      | none => geminiPrimeGo timestamp acc2 rest

/-- `GeminiAgentModel._process_streamed_response` over a finite chunk
stream. -/
def geminiProcessStreamedResponse (timestamp : Int) (chunks : List String) : Except Err (GeminiEitherStreamed × List String) :=
  geminiPrimeGo timestamp "" chunks

/-- Strip the leading `#/$defs/` from a `$ref` target
(`re.sub(r'^#/\$defs/', '', ref)` in gemini.py). -/
def stripDefsRef (s : String) : String :=
  match s.data with
  | '#' :: '/' :: '$' :: 'd' :: 'e' :: 'f' :: 's' :: '/' :: rest => String.mk rest
  | _ => s

/-- Look up a definition body, `self.defs[key]`: a missing key is a
`KeyError`, a non-dict definitions table a `TypeError`. -/
def defsLookup (defs : JVal) (key : String) : Except Err JVal :=
  match defs with
  | .obj kvs =>
    match objGet key kvs with
    | some v => .ok v
    | none => .error (.keyError key)
  | _ => .error (.typeError "definitions table is not subscriptable")

/-- Store back a definition body. In Python the body is mutated in place;
in the functional embedding the updated body is written back to the table
after its simplification completes (any access to the entry during its
own simplification is excluded by the cycle check). -/
def defsStore (defs : JVal) (key : String) (v : JVal) : JVal :=
  match defs with
  | .obj kvs => .obj (objSet key v kvs)
  | other => other

mutual

/-- `_GeminiJsonSchema._simplify` (gemini.py), with the mutable
`self.defs` table threaded explicitly. Pops `title`, `default` and `$ref`
from the node; a truthy `$ref` is inlined (with the cycle check against
the refs stack) and the node then returns; otherwise control falls
through to the `anyOf` loop and type dispatch. Every function of this
block consumes one unit of fuel per call; real runs never exhaust it. -/
def simplifyAux : Nat → JVal → List String → JVal → Except Err (JVal × JVal)
  | 0, _, _, _ => .error .fuelExhausted
  | fuel + 1, defs, stack, schema =>
    match schema with
    | .obj kvs0 =>
      let kvs1 := objRemove "title" kvs0
      let kvs2 := objRemove "default" kvs1
      let (refOpt, kvs3) := objPop "$ref" kvs2
      match refOpt with
      | some rv =>
        if jTruthy rv then
          match rv with
          | .str ref =>
            let key := stripDefsRef ref
            if stack.contains key then
              .error (.userError "Recursive `$ref`s in JSON Schema are not supported by Gemini")
            else
              match defsLookup defs key with
              | .error e => .error e
              | .ok schemaDef =>
                match simplifyAux fuel defs (stack ++ [key]) schemaDef with
                | .error e => .error e
                | .ok (schemaDef2, defs2) =>
                  let defs3 := defsStore defs2 key schemaDef2
                  match schemaDef2 with
                  | .obj dkvs => .ok (.obj (objUpdate kvs3 dkvs), defs3)
                  | _ => .error (.typeError "update argument must be a mapping")
          | _ => .error (.typeError "expected a string reference")
        else simplifyNoRef fuel defs stack kvs3
      | none => simplifyNoRef fuel defs stack kvs3
    | _ => .error (.attributeError "schema node is not a dict")

/-- Continuation of `_simplify` after the `$ref` handling: the `anyOf`
loop, then the type dispatch. Python's `for schema in any_of` rebinds the
name `schema`, so with a non-empty `anyOf` the subsequent
`schema.get('type')` dispatch applies to the last `anyOf` branch, not to
the original node — reproduced here. -/
def simplifyNoRef : Nat → JVal → List String → List (String × JVal) → Except Err (JVal × JVal)
  | 0, _, _, _ => .error .fuelExhausted
  | fuel + 1, defs, stack, kvs =>
    match objGet "anyOf" kvs with
    | some av =>
      if jTruthy av then
        match av with
        | .arr branches =>
          match simplifyListAux fuel defs stack branches [] with
          | .error e => .error e
          | .ok (branches2, defs2) =>
            match branches2.getLast? with
            | some lastBranch =>
              match dispatchType fuel defs2 stack lastBranch with
              | .error e => .error e
              | .ok (lastBranch2, defs3) =>
                .ok (.obj (objSet "anyOf" (.arr (branches2.dropLast ++ [lastBranch2])) kvs), defs3)
            | none => .ok (.obj (objSet "anyOf" (.arr branches2) kvs), defs2)
        | _ => .error (.typeError "anyOf is not iterable")
      else dispatchTypeNode fuel defs stack kvs
    | none => dispatchTypeNode fuel defs stack kvs

/-- Type dispatch on an arbitrary schema value (used for the last `anyOf`
branch). -/
def dispatchType : Nat → JVal → List String → JVal → Except Err (JVal × JVal)
  | 0, _, _, _ => .error .fuelExhausted
  | fuel + 1, defs, stack, v =>
    match v with
    | .obj kvs => dispatchTypeNode fuel defs stack kvs
    | _ => .error (.attributeError "schema node is not a dict")

/-- The `type_ == 'object' / 'array'` dispatch of `_simplify`. -/
def dispatchTypeNode : Nat → JVal → List String → List (String × JVal) → Except Err (JVal × JVal)
  | 0, _, _, _ => .error .fuelExhausted
  | fuel + 1, defs, stack, kvs =>
    match objGet "type" kvs with
    | some (.str t) =>
      if t = "object" then objectAux fuel defs stack kvs
      else if t = "array" then arrayAux fuel defs stack kvs
      else .ok (.obj kvs, defs)
    | _ => .ok (.obj kvs, defs)

/-- `_GeminiJsonSchema._object`: pop `additionalProperties` (truthy is a
`UserError`), then simplify each property value. -/
def objectAux : Nat → JVal → List String → List (String × JVal) → Except Err (JVal × JVal)
  | 0, _, _, _ => .error .fuelExhausted
  | fuel + 1, defs, stack, kvs =>
    let (adOpt, kvs1) := objPop "additionalProperties" kvs
    match adOpt with
    | some ad =>
      if jTruthy ad then
        .error (.userError "Additional properties in JSON Schema are not supported by Gemini")
      else objectProps fuel defs stack kvs1
    | none => objectProps fuel defs stack kvs1

/-- Property loop of `_object`: only a truthy `properties` mapping is
visited. -/
def objectProps : Nat → JVal → List String → List (String × JVal) → Except Err (JVal × JVal)
  | 0, _, _, _ => .error .fuelExhausted
  | fuel + 1, defs, stack, kvs =>
    match objGet "properties" kvs with
    | some pv =>
      if jTruthy pv then
        match pv with
        | .obj props =>
          match simplifyMembersAux fuel defs stack props [] with
          | .error e => .error e
          | .ok (props2, defs2) => .ok (.obj (objSet "properties" (.obj props2) kvs), defs2)
        | _ => .error (.attributeError "properties is not a dict")
      else .ok (.obj kvs, defs)
    | none => .ok (.obj kvs, defs)

/-- `_GeminiJsonSchema._array`: recurse into `prefixItems` elements and a
truthy `items` schema. -/
def arrayAux : Nat → JVal → List String → List (String × JVal) → Except Err (JVal × JVal)
  | 0, _, _, _ => .error .fuelExhausted
  | fuel + 1, defs, stack, kvs =>
    match objGet "prefixItems" kvs with
    | some pv =>
      if jTruthy pv then
        match pv with
        | .arr items =>
          match simplifyListAux fuel defs stack items [] with
          | .error e => .error e
          | .ok (items2, defs2) => arrayItems fuel defs2 stack (objSet "prefixItems" (.arr items2) kvs)
        | _ => .error (.typeError "prefixItems is not iterable")
      else arrayItems fuel defs stack kvs
    | none => arrayItems fuel defs stack kvs

/-- The `items` recursion of `_array`. -/
def arrayItems : Nat → JVal → List String → List (String × JVal) → Except Err (JVal × JVal)
  | 0, _, _, _ => .error .fuelExhausted
  | fuel + 1, defs, stack, kvs =>
    match objGet "items" kvs with
    | some iv =>
      if jTruthy iv then
        match simplifyAux fuel defs stack iv with
        | .error e => .error e
        | .ok (iv2, defs2) => .ok (.obj (objSet "items" iv2 kvs), defs2)
      else .ok (.obj kvs, defs)
    | none => .ok (.obj kvs, defs)

/-- Simplify each element of a list of schemas in order (the `anyOf` and
`prefixItems` loops). -/
def simplifyListAux : Nat → JVal → List String → List JVal → List JVal → Except Err (List JVal × JVal)
  | 0, _, _, _, _ => .error .fuelExhausted
  | _ + 1, defs, _, [], acc => .ok (acc, defs)
  | fuel + 1, defs, stack, v :: rest, acc =>
    match simplifyAux fuel defs stack v with
    | .error e => .error e
    | .ok (v2, defs2) => simplifyListAux fuel defs2 stack rest (acc ++ [v2])

/-- Simplify each value of a properties mapping in order (the
`properties.values()` loop). -/
def simplifyMembersAux : Nat → JVal → List String → List (String × JVal) → List (String × JVal) → Except Err (List (String × JVal) × JVal)
  | 0, _, _, _, _ => .error .fuelExhausted
  | _ + 1, defs, _, [], acc => .ok (acc, defs)
  | fuel + 1, defs, stack, (k, v) :: rest, acc =>
    match simplifyAux fuel defs stack v with
    | .error e => .error e
    | .ok (v2, defs2) => simplifyMembersAux fuel defs2 stack rest (acc ++ [(k, v2)])

end

mutual

/-- Total size of a JSON value (used only to compute fuel bounds). -/
def jsize : JVal → Nat
  | .null => 1
  | .bool _ => 1
  | .num _ => 1
  | .str _ => 1
  | .arr l => 1 + jsizeList l
  | .obj l => 1 + jsizeMembers l

/-- Total size of a list of JSON values. -/
def jsizeList : List JVal → Nat
  | [] => 0
  | v :: rest => 1 + jsize v + jsizeList rest

/-- Total size of an object member list. -/
def jsizeMembers : List (String × JVal) → Nat
  | [] => 0
  | (_, v) :: rest => 1 + jsize v + jsizeMembers rest

end

/-- Fuel bound for a simplifier run: generously exceeds the recursion
depth of any run (depth is bounded by schema size times the number of
definitions). -/
def simplifyFuel (schema : JVal) : Nat := 16 * (jsize schema + 16) * (jsize schema + 16)

/-- `_GeminiJsonSchema(schema).simplify()` (gemini.py): the constructor
deep-copies the schema (value semantics here) and pops its `$defs` table
(defaulting to an empty dict), then `_simplify` runs on the copy with an
empty refs stack and the mutated copy is returned. -/
def geminiJsonSchemaSimplify (schema : JVal) : Except Err JVal :=
  match schema with
  | .obj kvs =>
    let (defsOpt, kvs1) := objPop "$defs" kvs
    let defs := defsOpt.getD (.obj [])
    (simplifyAux (simplifyFuel schema) defs [] (.obj kvs1)).map (·.1)
  | _ => .error (.attributeError "schema is not a dict")

/-- Modelled from the spec: `ToolDefinition` (tools.py is not under
src/), per §3: `{name, description, parameters_json_schema}`, an opaque
input to the Request Builder. -/
structure ToolDefinition where
  name : String
  description : String
  parametersJsonSchema : JVal
deriving Repr

/-- Modelled from the spec: `ModelSettings` (settings.py is not under
src/), per §4.3: optional `max_tokens`, `temperature`, `top_p`, `timeout`
pass-throughs, absent settings omitted from the wire payload. Numeric
settings are modelled as integers (their values are passed through
opaquely and no claim depends on fractional values). -/
structure ModelSettings where
  maxTokens : Option Int := none
  temperature : Option Int := none
  topP : Option Int := none
  timeout : Option Int := none
deriving Repr

/-- `_GeminiFunction` (gemini.py): a tool declaration, `parameters`
present only when the simplified schema has truthy `properties`. -/
structure GeminiFunction where
  name : String
  description : String
  parameters : Option JVal := none
deriving Repr

/-- `_function_from_abstract_tool` (gemini.py). -/
def functionFromAbstractTool (t : ToolDefinition) : Except Err GeminiFunction := do
  let js ← geminiJsonSchemaSimplify t.parametersJsonSchema
  let hasProps :=
    match js with
    | .obj kvs =>
      match objGet "properties" kvs with
      | some pv => jTruthy pv
      | none => false
    | _ => false
  .ok { name := t.name, description := t.description, parameters := if hasProps then some js else none }

/-- `_GeminiToolConfig`/`_GeminiFunctionCallingConfig` flattened: the
function-calling mode plus allowed names. -/
structure GeminiToolConfig where
  mode : String
  allowedFunctionNames : List String
deriving Repr

/-- `_tool_config` (gemini.py): always mode `ANY` over the given names. -/
def toolConfigOf (functionNames : List String) : GeminiToolConfig :=
  { mode := "ANY", allowedFunctionNames := functionNames }

/-- State built by `GeminiAgentModel.__init__`. -/
structure GeminiAgentModelState where
  modelName : String
  tools : Option (List GeminiFunction)
  toolConfig : Option GeminiToolConfig
  url : String
deriving Repr

/-- `GeminiAgentModel.__init__` (gemini.py): function tools followed by
result tools; `tool_config` is `None` exactly when free-text results are
allowed, else mode `ANY` over every declared tool name. -/
def geminiAgentModelInit (modelName : String) (url : String) (functionTools : List ToolDefinition)
    (allowTextResult : Bool) (resultTools : List ToolDefinition) : Except Err GeminiAgentModelState := do
  let tools ← (functionTools ++ resultTools).mapM functionFromAbstractTool
  let toolConfig := if allowTextResult then none else some (toolConfigOf (tools.map (·.name)))
  .ok { modelName := modelName
        tools := if tools.isEmpty then none else some tools
        toolConfig := toolConfig
        url := url }

/-- `_GeminiTextContent` reduced to its text parts. -/
structure GeminiTextContent where
  role : String
  parts : List String
deriving Repr

/-- `_GeminiGenerationConfig`. -/
structure GeminiGenerationConfig where
  maxOutputTokens : Option Int := none
  temperature : Option Int := none
  topP : Option Int := none
deriving Repr

/-- `_GeminiRequest`: the wire request payload. -/
structure GeminiRequest where
  contents : List GeminiContent
  tools : Option (List GeminiFunction) := none
  toolConfig : Option GeminiToolConfig := none
  systemInstruction : Option GeminiTextContent := none
  generationConfig : Option GeminiGenerationConfig := none
deriving Repr

/-- `_content_user_prompt` (gemini.py). -/
def contentUserPrompt (content : String) : GeminiContent :=
  { role := "user", parts := [.text content] }

/-- `_response_part_from_response` (gemini.py). -/
def responsePartFromResponse (name : String) (response : List (String × JVal)) : GeminiPart :=
  .functionResponse name response

/-- `_content_tool_return` (gemini.py). -/
def contentToolReturn (toolName : String) (content : JVal) : GeminiContent :=
  { role := "user", parts := [responsePartFromResponse toolName (toolReturnModelResponseObject content)] }

/-- `_content_retry_prompt` (gemini.py). -/
def contentRetryPrompt (content : RetryContent) (toolName : Option String) : GeminiContent :=
  match toolName with
  | none => { role := "user", parts := [.text (retryPromptModelResponse content)] }
  | some tn =>
    { role := "user", parts := [responsePartFromResponse tn [("call_error", .str (retryPromptModelResponse content))]] }

/-- `_function_call_part_from_call` (gemini.py): asserts the args are the
dict representation. -/
def functionCallPartFromCall (toolName : String) (args : ToolCallArgs) : Except Err GeminiPart :=
  match args with
  | .argsDict d => .ok (.functionCall toolName d)
  | .argsJson _ => .error (.assertionError "Expected ArgsObject")

/-- `_content_model_response` (gemini.py). -/
def contentModelResponse (m : ModelResponse) : Except Err GeminiContent := do
  let parts ← m.parts.mapM fun item =>
    match item with
    | .toolCall n a _ => functionCallPartFromCall n a
    | .text c => .ok (.text c : GeminiPart)
  .ok { role := "model", parts := parts }

/-- `GeminiAgentModel._message_to_gemini_system_prompt`. -/
def messageToGeminiSystemPrompt : Message → Option String
  | .systemPrompt c => some c
  | _ => none

/-- `GeminiAgentModel._message_to_gemini_content`. -/
def messageToGeminiContent : Message → Except Err (Option GeminiContent)
  | .systemPrompt _ => .ok none
  | .userPrompt c _ => .ok (some (contentUserPrompt c))
  | .toolReturn tn content _ _ => .ok (some (contentToolReturn tn content))
  | .retryPrompt content tn _ _ => .ok (some (contentRetryPrompt content tn))
  | .modelResponse m => (contentModelResponse m).map some

/-- Generation-config assembly of `_make_request`: present settings only,
the whole config omitted when empty. -/
def buildGeminiGenerationConfig (settings : Option ModelSettings) : Option GeminiGenerationConfig :=
  match settings with
  | none => none
  | some ms =>
    if ms.maxTokens.isNone && ms.temperature.isNone && ms.topP.isNone then none
    else some { maxOutputTokens := ms.maxTokens, temperature := ms.temperature, topP := ms.topP }

/-- Request assembly of `GeminiAgentModel._make_request` (gemini.py),
up to the transport call: contents, optional system instruction, tools
and tool config when configured, generation config when non-empty. -/
def geminiMakeRequest (st : GeminiAgentModelState) (messages : List Message)
    (settings : Option ModelSettings) : Except Err GeminiRequest := do
  let sysPromptParts := messages.filterMap messageToGeminiSystemPrompt
  let contentOpts ← messages.mapM messageToGeminiContent
  let contents := contentOpts.reduceOption
  .ok { contents := contents
        systemInstruction :=
          if sysPromptParts.isEmpty then none else some { role := "user", parts := sysPromptParts }
        tools := st.tools
        toolConfig := st.toolConfig
        generationConfig := buildGeminiGenerationConfig settings }

/-- State built by `GeminiModel.__init__`. -/
structure GeminiModelState where
  modelName : String
  apiKey : String
  url : String
deriving Repr

/-- Substitute the model name into the URL template
(`url_template.format(model=model_name)`). -/
def formatUrlTemplate (template modelName : String) : String :=
  template.replace ("\x7bmodel\x7d") modelName

/-- `GeminiModel.__init__` (gemini.py): an explicit API key wins;
otherwise a truthy `GEMINI_API_KEY` environment value is used; otherwise
construction fails with a `UserError`. The environment is passed as an
explicit parameter. -/
def geminiModelInit (modelName : String) (apiKey : Option String) (envGeminiApiKey : Option String)
    (urlTemplate : String := "https://generativelanguage.googleapis.com/v1beta/models/\x7bmodel\x7d:") :
    Except Err GeminiModelState :=
  match apiKey with
  | some k => .ok { modelName := modelName, apiKey := k, url := formatUrlTemplate urlTemplate modelName }
  | none =>
    match envGeminiApiKey with
    | some e =>
      if e ≠ "" then .ok { modelName := modelName, apiKey := e, url := formatUrlTemplate urlTemplate modelName }
      else .error (.userError "API key must be provided or set in the GEMINI_API_KEY environment variable")
    | none => .error (.userError "API key must be provided or set in the GEMINI_API_KEY environment variable")

/-- Modelled from the spec: `_utils.add_optional` (_utils.py is not under
src/), per §4.5: `name` and `arguments` deltas are "string-concatenated
across chunks (never replaced)", with an absent side passing the other
through. -/
def addOptional : Option String → Option String → Option String
  | none, b => b
  | some a, none => some a
  | some a, some b => some (a ++ b)

/-- Modelled from the spec: `_utils.guard_tool_call_id` (_utils.py is not
under src/), per §3: providers requiring call identifiers "must fail fast
with a clear error if a return references a call lacking an id". -/
def guardToolCallId (toolCallId : Option String) (modelSource : String) : Except Err String :=
  match toolCallId with
  | some i => .ok i
  | none => .error (.unexpectedModelBehavior (modelSource ++ " requires tool_call_id to be set"))

/-- Integer map assignment with Python dict semantics (used for cost
details). -/
def intMapSet (k : String) (v : Int) (l : List (String × Int)) : List (String × Int) :=
  if (l.lookup k).isSome then l.map (fun kv => if kv.1 = k then (k, v) else kv)
  else l ++ [(k, v)]

/-- `dict.update` over integer maps. -/
def intMapUpdate (l other : List (String × Int)) : List (String × Int) :=
  other.foldl (fun acc kv => intMapSet kv.1 kv.2 acc) l

/-- OpenAI SDK `Function` payload of a completed tool call. -/
structure ChatCompletionFunction where
  name : String
  arguments : String
deriving Repr

/-- OpenAI SDK `ChatCompletionMessageToolCall`. -/
structure ChatCompletionMessageToolCall where
  id : String
  function : ChatCompletionFunction
deriving Repr

/-- OpenAI SDK completed assistant message: optional text content and
optional tool calls. -/
structure ChatMessage where
  content : Option String := none
  toolCalls : Option (List ChatCompletionMessageToolCall) := none
deriving Repr

/-- OpenAI SDK `Choice` of a completed response. -/
structure ChatChoice where
  message : ChatMessage
deriving Repr

/-- OpenAI SDK `CompletionUsage`: token counts plus optional nested
detail records (already flattened to key→count maps by `model_dump`). -/
structure OpenAIUsage where
  promptTokens : Int
  completionTokens : Int
  totalTokens : Int
  completionTokensDetails : Option (List (String × Int)) := none
  promptTokensDetails : Option (List (String × Int)) := none
deriving Repr

/-- OpenAI SDK `ChatCompletion` (non-streamed response). -/
structure ChatCompletion where
  created : Int
  choices : List ChatChoice
  usage : Option OpenAIUsage := none
deriving Repr

/-- `_map_cost` (openai.py): zero cost when usage is absent; nested
completion/prompt token details are flattened into `details` under their
own field names. -/
def mapCost (usage : Option OpenAIUsage) : Cost :=
  match usage with
  | none => Cost.zero
  | some u =>
    { requestTokens := u.promptTokens
      responseTokens := u.completionTokens
      totalTokens := u.totalTokens
      details := intMapUpdate (intMapUpdate [] (u.completionTokensDetails.getD [])) (u.promptTokensDetails.getD []) }

/-- `OpenAIAgentModel._process_response` (openai.py): takes the first
choice (an empty choices list is an uncaught index failure), emits a text
part when content is present and one tool-call part per completed tool
call; the response timestamp comes from `created`. -/
def openAIProcessResponse (r : ChatCompletion) : Except Err ModelResponse :=
  match r.choices with
  | [] => .error .indexError
  | choice :: _ =>
    let items :=
      (match choice.message.content with
        | some c => [ModelResponsePart.text c]
        | none => [])
      ++ (match choice.message.toolCalls with
        | some tcs => tcs.map fun c => toolCallFromJson c.function.name c.function.arguments (some c.id)
        | none => [])
    .ok { parts := items, timestamp := r.created }

/-- OpenAI SDK `ChoiceDeltaFunction`: fragment of a tool call's function
fields. -/
structure DeltaFunction where
  name : Option String := none
  arguments : Option String := none
deriving Repr

/-- OpenAI SDK `ChoiceDeltaToolCall`: a tool-call fragment keyed by
index. -/
structure ChoiceDeltaToolCall where
  index : Nat
  id : Option String := none
  function : Option DeltaFunction := none
deriving Repr

/-- OpenAI SDK `ChoiceDelta`. -/
structure ChoiceDelta where
  content : Option String := none
  toolCalls : Option (List ChoiceDeltaToolCall) := none
deriving Repr

/-- OpenAI SDK chunk `Choice`. -/
structure ChunkChoice where
  delta : ChoiceDelta := {}
  finishReason : Option String := none
deriving Repr

/-- OpenAI SDK `ChatCompletionChunk`. -/
structure ChatCompletionChunk where
  created : Int
  choices : List ChunkChoice := []
  usage : Option OpenAIUsage := none
deriving Repr

/-- Association-map lookup over indices (`dict.get`). -/
def natMapGet (m : List (Nat × ChoiceDeltaToolCall)) (k : Nat) : Option ChoiceDeltaToolCall :=
  match m with
  | [] => none
  | (k', v) :: rest => if k' = k then some v else natMapGet rest k

/-- Association-map assignment over indices with Python dict semantics. -/
def natMapSet (m : List (Nat × ChoiceDeltaToolCall)) (k : Nat) (v : ChoiceDeltaToolCall) : List (Nat × ChoiceDeltaToolCall) :=
  if (natMapGet m k).isSome then m.map (fun kv => if kv.1 = k then (k, v) else kv)
  else m ++ [(k, v)]

/-- Merge loop body of `OpenAIStreamStructuredResponse.__anext__`
(openai.py): a fragment at a fresh index is stored as-is; at an existing
index, a missing current function is replaced by the fragment's, while
present functions have `name` and `arguments` merged via `add_optional`;
the entry's `id` is never touched. -/
def applyToolCallDelta (m : List (Nat × ChoiceDeltaToolCall)) (new : ChoiceDeltaToolCall) : List (Nat × ChoiceDeltaToolCall) :=
  match natMapGet m new.index with
  | some current =>
    let current2 :=
      match current.function with
      | none => { current with function := new.function }
      | some cf =>
        match new.function with
        | none => current
        | some nf =>
          { current with function := some { name := addOptional cf.name nf.name, arguments := addOptional cf.arguments nf.arguments } }
    natMapSet m new.index current2
  | none => m ++ [(new.index, new)]

/-- Stepping outcome of an accumulator `__anext__`: continue with the new
state, or `StopAsyncIteration` (state retained — cost already added). -/
inductive StreamStep (σ : Type) where
  | cont : σ → StreamStep σ
  | stop : σ → StreamStep σ
deriving Repr

/-- State of `OpenAIStreamTextResponse`. -/
structure OpenAIStreamTextState where
  first : Option String
  timestamp : Int
  cost : Cost
  buffer : List String := []
deriving Repr

/-- `OpenAIStreamTextResponse.__anext__` (openai.py): the retained first
delta is flushed to the buffer before the stream is read; an exhausted
stream or a chunk without choices stops iteration; a chunk that has a
choice must carry content unless it is the terminal finish chunk. -/
def openAITextAdvance (st : OpenAIStreamTextState) (next : Option ChatCompletionChunk) : Except Err (StreamStep OpenAIStreamTextState) :=
  match st.first with
  | some f => .ok (.cont { st with buffer := st.buffer ++ [f], first := none })
  | none =>
    match next with
    | none => .ok (.stop st)
    | some chunk =>
      let st2 := { st with cost := st.cost.add (mapCost chunk.usage) }
      match chunk.choices with
      | [] => .ok (.stop st2)
      | choice :: _ =>
        match choice.finishReason, choice.delta.content with
        | none, none => .error (.assertionError "Expected delta with content, invalid chunk")
        | _, some c => .ok (.cont { st2 with buffer := st2.buffer ++ [c] })
        | some _, none => .ok (.cont st2)

/-- `OpenAIStreamTextResponse.get` (openai.py): yield the buffered
fragments and clear the buffer (the `final` flag is accepted and
ignored); modelled as fully consumed. -/
def openAITextGet (_final : Bool) (st : OpenAIStreamTextState) : List String × OpenAIStreamTextState :=
  (st.buffer, { st with buffer := [] })

/-- State of `OpenAIStreamStructuredResponse`. -/
structure OpenAIStreamStructuredState where
  deltaToolCalls : List (Nat × ChoiceDeltaToolCall)
  timestamp : Int
  cost : Cost
deriving Repr

/-- `OpenAIStreamStructuredResponse.__anext__` (openai.py): add the
chunk's usage, stop on an empty choices list or a finish reason, reject
content (tool-call streams never mix in text), then fold every tool-call
fragment into the index-keyed map. -/
def openAIStructuredAdvance (st : OpenAIStreamStructuredState) (next : Option ChatCompletionChunk) : Except Err (StreamStep OpenAIStreamStructuredState) :=
  match next with
  | none => .ok (.stop st)
  | some chunk =>
    let st2 := { st with cost := st.cost.add (mapCost chunk.usage) }
    match chunk.choices with
    | [] => .ok (.stop st2)
    | choice :: _ =>
      if choice.finishReason.isSome then .ok (.stop st2)
      else if choice.delta.content.isSome then
        .error (.assertionError "Expected tool calls, got content instead, invalid chunk")
      else
        .ok (.cont { st2 with deltaToolCalls := (choice.delta.toolCalls.getD []).foldl applyToolCallDelta st2.deltaToolCalls })

/-- `OpenAIStreamStructuredResponse.get` (openai.py): one
`ToolCallPart.from_json` per map entry whose function has both a name and
arguments, in insertion order. -/
def openAIStructuredGet (_final : Bool) (st : OpenAIStreamStructuredState) : ModelResponse :=
  { parts := st.deltaToolCalls.filterMap fun kv =>
      match kv.2.function with
      | some f =>
        match f.name, f.arguments with
        | some n, some a => some (toolCallFromJson n a kv.2.id)
        | _, _ => none
      | none => none
    timestamp := st.timestamp }

/-- The two streamed-response classifications for OpenAI. -/
inductive OpenAIEitherStreamed where
  | text : OpenAIStreamTextState → OpenAIEitherStreamed
  | structured : OpenAIStreamStructuredState → OpenAIEitherStreamed
deriving Repr

/-- `OpenAIAgentModel._process_streamed_response` (openai.py): consume
chunks until one carries content (text classification) or tool calls
(structured classification, seeding the index map); a stream that ends
first fails with `UnexpectedModelBehavior`. Returns the classified state
and the unconsumed chunks. -/
def openAIProcessStreamedResponse (timestampOpt : Option Int) (startCost : Cost) : List ChatCompletionChunk → Except Err (OpenAIEitherStreamed × List ChatCompletionChunk)
  | [] => .error (.unexpectedModelBehavior "Streamed response ended without content or tool calls")
  | chunk :: rest =>
    let timestamp := timestampOpt.getD chunk.created
    let cost := startCost.add (mapCost chunk.usage)
    match chunk.choices with
    | [] => openAIProcessStreamedResponse (some timestamp) cost rest
    | choice :: _ =>
      match choice.delta.content with
      | some c => .ok (.text { first := some c, timestamp := timestamp, cost := cost }, rest)
      | none =>
        match choice.delta.toolCalls with
        | some tcs =>
          .ok (.structured
            { deltaToolCalls := tcs.foldl (fun acc c => natMapSet acc c.index c) []
              timestamp := timestamp
              cost := cost }, rest)
        | none => openAIProcessStreamedResponse (some timestamp) cost rest

/-- OpenAI tool declaration payload (`ChatCompletionToolParam`, function
part). -/
structure OpenAIToolParam where
  name : String
  description : String
  parameters : JVal
deriving Repr

/-- `OpenAIModel._map_tool_definition` (openai.py): the schema passes
through unmodified. -/
def mapToolDefinition (f : ToolDefinition) : OpenAIToolParam :=
  { name := f.name, description := f.description, parameters := f.parametersJsonSchema }

/-- State of `OpenAIAgentModel`. -/
structure OpenAIAgentModelState where
  modelName : String
  allowTextResult : Bool
  tools : List OpenAIToolParam
deriving Repr

/-- `OpenAIModel.agent_model` (openai.py): function tools followed by
result tools. -/
def openAIAgentModelInit (modelName : String) (functionTools : List ToolDefinition)
    (allowTextResult : Bool) (resultTools : List ToolDefinition) : OpenAIAgentModelState :=
  { modelName := modelName
    allowTextResult := allowTextResult
    tools := (functionTools ++ resultTools).map mapToolDefinition }

/-- A completed tool-call parameter sent back to OpenAI
(`ChatCompletionMessageToolCallParam`, flattened). -/
structure OpenAIToolCallParam where
  id : String
  name : String
  arguments : String
deriving Repr

/-- `_map_tool_call` (openai.py): asserts the JSON-string args
representation, then requires a call id. -/
def mapToolCallParam (toolName : String) (args : ToolCallArgs) (toolCallId : Option String) : Except Err OpenAIToolCallParam :=
  match args with
  | .argsJson a => do
    let i ← guardToolCallId toolCallId "OpenAI"
    .ok { id := i, name := toolName, arguments := a }
  | .argsDict _ => .error (.assertionError "Expected ArgsJson")

/-- OpenAI chat message parameters (`ChatCompletionMessageParam` union). -/
inductive OpenAIChatMessage where
  | system : String → OpenAIChatMessage
  | user : String → OpenAIChatMessage
  | tool : String → String → OpenAIChatMessage
  | assistant : Option String → Option (List OpenAIToolCallParam) → OpenAIChatMessage
deriving Repr

/-- `OpenAIAgentModel._map_message` (openai.py). -/
def openAIMapMessage : Message → Except Err OpenAIChatMessage
  | .systemPrompt c => .ok (.system c)
  | .userPrompt c _ => .ok (.user c)
  | .toolReturn tn content tcid _ => do
    let _ := tn
    let i ← guardToolCallId tcid "OpenAI"
    .ok (.tool i (toolReturnModelResponseStr content))
  | .retryPrompt content tn tcid _ =>
    (match tn with
    | none => .ok (.user (retryPromptModelResponse content))
    | some _ => do
      let i ← guardToolCallId tcid "OpenAI"
      .ok (.tool i (retryPromptModelResponse content)))
  | .modelResponse m => do
    let texts := m.parts.filterMap fun p => match p with | .text c => some c | _ => none
    let toolCallParts := m.parts.filterMap fun p =>
      match p with
      | .toolCall n a i => some (n, a, i)
      | _ => none
    let toolCalls ← toolCallParts.mapM fun nai => mapToolCallParam nai.1 nai.2.1 nai.2.2
    .ok (.assistant
      (if texts.isEmpty then none else some (String.intercalate "\n\n" texts))
      (if toolCalls.isEmpty then none else some toolCalls))

/-- The OpenAI wire request assembled by `_completions_create`
(openai.py); `NOT_GIVEN` SDK parameters are `none`. -/
structure OpenAIRequest where
  model : String
  messages : List OpenAIChatMessage
  n : Nat
  parallelToolCalls : Option Bool
  tools : Option (List OpenAIToolParam)
  toolChoice : Option String
  stream : Bool
  streamOptionsIncludeUsage : Option Bool
  maxTokens : Option Int
  temperature : Option Int
  topP : Option Int
  timeout : Option Int
deriving Repr

/-- `OpenAIAgentModel._completions_create` (openai.py): `tool_choice` is
omitted without tools, `required` when free-text results are disallowed,
else `auto`; absent settings stay omitted. -/
def openAICompletionsCreate (st : OpenAIAgentModelState) (messages : List Message) (stream : Bool)
    (settings : Option ModelSettings) : Except Err OpenAIRequest := do
  let toolChoice : Option String :=
    if st.tools.isEmpty then none
    else if !st.allowTextResult then some "required"
    else some "auto"
  let msgs ← messages.mapM openAIMapMessage
  let ms := settings.getD {}
  .ok { model := st.modelName
        messages := msgs
        n := 1
        parallelToolCalls := if !st.tools.isEmpty then some true else none
        tools := if st.tools.isEmpty then none else some st.tools
        toolChoice := toolChoice
        stream := stream
        streamOptionsIncludeUsage := if stream then some true else none
        maxTokens := ms.maxTokens
        temperature := ms.temperature
        topP := ms.topP
        timeout := ms.timeout }

/-- Whether a wire part is a function response (the part kind
reconstruction rejects). -/
def isFunctionResponsePart : GeminiPart → Bool
  | .functionResponse _ _ => true
  | _ => false

/-- Canonical part corresponding to a supported wire part (text or
function call), as built by `_process_response_from_parts`. -/
def geminiPartToCanonical : GeminiPart → ModelResponsePart
  | .text s => .text s
  | .functionCall n a => toolCallFromDict n a
  | .functionResponse n r => .toolCall n (.argsDict r) none

/-- First candidate's parts of a streamed element (used to state the
combination performed by `GeminiStreamStructuredResponse.get`). -/
def geminiFirstCandidateParts (r : GeminiResponse) : List GeminiPart :=
  match r.candidates with
  | c :: _ => c.content.parts
  | [] => []

/-- The priming break condition of
`GeminiAgentModel._process_streamed_response`: the last parsed element
has a candidate with non-empty parts. -/
def geminiHasClassifiableLast (rs : List GeminiResponse) : Bool :=
  match rs.getLast? with
  | some last =>
    match last.candidates with
    | cand :: _ => !cand.content.parts.isEmpty
    | [] => false
  | none => false

mutual

/-- Deep scan: does the key occur in any object node of the value? -/
def jvalHasKeyDeep (k : String) : JVal → Bool
  | .obj kvs => objHasKey k kvs || jvalHasKeyDeepMembers k kvs
  | .arr l => jvalHasKeyDeepList k l
  | _ => false

/-- Deep key scan over array elements. -/
def jvalHasKeyDeepList (k : String) : List JVal → Bool
  | [] => false
  | v :: rest => jvalHasKeyDeep k v || jvalHasKeyDeepList k rest

/-- Deep key scan over object members. -/
def jvalHasKeyDeepMembers (k : String) : List (String × JVal) → Bool
  | [] => false
  | (_, v) :: rest => jvalHasKeyDeep k v || jvalHasKeyDeepMembers k rest

end

mutual

/-- All `$ref` targets occurring anywhere in a value, stripped of the
`#/$defs/` routing (formalising the claim's notion of which definitions a
schema references). -/
def refTargets : JVal → List String
  | .obj kvs => refTargetsMembers kvs
  | .arr l => refTargetsList l
  | _ => []

/-- Ref targets over array elements. -/
def refTargetsList : List JVal → List String
  | [] => []
  | v :: rest => refTargets v ++ refTargetsList rest

/-- Ref targets over object members (a `$ref` key with a string value
contributes its stripped target). -/
def refTargetsMembers : List (String × JVal) → List String
  | [] => []
  | (k, v) :: rest =>
    (if k = "$ref" then
      match v with
      | .str s => [stripDefsRef s]
      | _ => []
    else []) ++ refTargets v ++ refTargetsMembers rest

end

/-- One expansion step of the reference-reachability closure over the
definitions table. -/
def refReachStep (defs : List (String × JVal)) (names : List String) : List String :=
  (names ++ names.flatMap fun n =>
    match objGet n defs with
    | some body => refTargets body
    | none => []).dedup

/-- Iterated reachability closure. -/
def refReachSet (defs : List (String × JVal)) : Nat → List String → List String
  | 0, names => names
  | fuel + 1, names => refReachSet defs fuel (refReachStep defs names)

/-- Formalisation of the claim's "schema containing a `$ref` cycle (a
definition whose inlining reaches itself, e.g. A→B→A)": some definition
of the `$defs` table reaches itself through `$ref` targets. -/
def hasRefCycle (schema : JVal) : Bool :=
  match schema with
  | .obj kvs =>
    match objGet "$defs" kvs with
    | some (.obj defs) =>
      defs.any fun kv => (refReachSet defs defs.length (refTargets kv.2)).contains kv.1
    | _ => false
  | _ => false

/-- Concrete cyclic schema A→B→A used by the claims about the Schema
Simplifier. -/
def c3CycleSchema : JVal := .obj [
  ("$ref", .str "#/$defs/A"),
  ("$defs", .obj [
    ("A", .obj [("$ref", .str "#/$defs/B")]),
    ("B", .obj [("$ref", .str "#/$defs/A")])])]

/-- Concrete acyclic schema whose nested `title` sits under `properties`
of a node lacking `type: object`, a position the simplifier never
traverses. -/
def c3SneakySchema : JVal := .obj [("properties", .obj [("a", .obj [("title", .str "T")])])]

/-- A streamed Gemini element with one candidate, one text part
(`"hello"`) and usage 1/2/3. -/
def exGeminiElemJson1 : JVal := .obj [
  ("candidates", .arr [
    .obj [("content", .obj [("role", .str "model"), ("parts", .arr [.obj [("text", .str "hello")]])])]]),
  ("usageMetadata", .obj [("promptTokenCount", .num 1), ("candidatesTokenCount", .num 2), ("totalTokenCount", .num 3)])]

/-- A second streamed element with text `" world"` and usage 10/20/30. -/
def exGeminiElemJson2 : JVal := .obj [
  ("candidates", .arr [
    .obj [("content", .obj [("role", .str "model"), ("parts", .arr [.obj [("text", .str " world")]])])]]),
  ("usageMetadata", .obj [("promptTokenCount", .num 10), ("candidatesTokenCount", .num 20), ("totalTokenCount", .num 30)])]

/-- Wire buffer holding the complete two-element array. -/
def exGeminiArrayStr : String := jsonRender (.arr [exGeminiElemJson1, exGeminiElemJson2])

/-- Wire buffer holding a single-element array. -/
def exGeminiArrayOneStr : String := jsonRender (.arr [exGeminiElemJson1])

/-- Validated form of the first element. -/
def exGeminiResponse1 : GeminiResponse :=
  { candidates := [{ content := { role := "model", parts := [.text "hello"] } }]
    usageMetadata := some { promptTokenCount := some 1, candidatesTokenCount := some 2, totalTokenCount := some 3 } }

/-- Validated form of the second element. -/
def exGeminiResponse2 : GeminiResponse :=
  { candidates := [{ content := { role := "model", parts := [.text " world"] } }]
    usageMetadata := some { promptTokenCount := some 10, candidatesTokenCount := some 20, totalTokenCount := some 30 } }

/-- A complete, valid buffer whose single element has an empty candidates
list. -/
def c5ZeroCandContent : String := jsonRender (.arr [.obj [("candidates", .arr [])]])

/-- OpenAI response with two choices carrying different texts. -/
def c1TwoChoiceResponse : ChatCompletion :=
  { created := 5
    choices := [
      { message := { content := some "first" } },
      { message := { content := some "second" } }] }

/-- OpenAI response whose single choice carries neither text nor tool
calls. -/
def c2EmptyChoiceResponse : ChatCompletion :=
  { created := 3, choices := [{ message := {} }] }

/-- Gemini response whose single candidate has no parts. -/
def c2EmptyPartsGemini : GeminiResponse :=
  { candidates := [{ content := { role := "model", parts := [] } }] }

/-- First streamed tool-call fragment of the claim's merge example:
carries only the name `foo` at index 0. -/
def c4Frag1 : ChoiceDeltaToolCall := { index := 0, function := some { name := some "foo" } }

/-- Second fragment at the same index: carries only the arguments
string (an empty JSON object). -/
def c4Frag2 : ChoiceDeltaToolCall := { index := 0, function := some { arguments := some "\x7b\x7d" } }

/-- Chunk delivering the first fragment. -/
def c4Chunk1 : ChatCompletionChunk := { created := 5, choices := [{ delta := { toolCalls := some [c4Frag1] } }] }

/-- Chunk delivering the second fragment. -/
def c4Chunk2 : ChatCompletionChunk := { created := 6, choices := [{ delta := { toolCalls := some [c4Frag2] } }] }

/-- End-to-end run of the claim's merge example: prime on the first
chunk, fold the second with `__anext__`, materialise with `get`. -/
def c4Pipeline : Except Err ModelResponse := do
  let (e, rest) ← openAIProcessStreamedResponse none Cost.zero [c4Chunk1, c4Chunk2]
  match e with
  | .structured st => do
    let s2 ← openAIStructuredAdvance st rest.head?
    match s2 with
    | .cont st2 => Except.ok (openAIStructuredGet true st2)
    | .stop st2 => Except.ok (openAIStructuredGet true st2)
  | .text _ => Except.error (.assertionError "classified as text")

/-- Gemini text-stream state over the complete single-element buffer,
used by the materialisation-idempotence claim. -/
def c9St0 : GeminiStreamTextState :=
  { jsonContent := exGeminiArrayOneStr, position := 0, timestamp := 7, cost := Cost.zero }

/-- State of `c9St0` after the final get has reported the element. -/
def c9St2 : GeminiStreamTextState :=
  { jsonContent := exGeminiArrayOneStr, position := 1, timestamp := 7
    cost := { requestTokens := 1, responseTokens := 2, totalTokens := 3, details := [] } }

/-- A heap node: scalars, or containers holding addresses (plain
naturals) of their children (Python lists and dicts are mutable objects
referenced by identity); the mutable-object model verifies the
no-mutation (frame) property of the schema simplifier. -/
inductive HNode where
  | null : HNode
  | bool : Bool → HNode
  | num : Int → HNode
  | str : String → HNode
  | arr : List Nat → HNode
  | obj : List (String × Nat) → HNode
deriving Repr

/-- Child addresses of a node. -/
def nodeAddrs : HNode → List Nat
  | .arr l => l
  | .obj kvs => kvs.map (·.2)
  | _ => []

/-- A heap: an association of addresses to nodes plus the next fresh
address. -/
structure Heap where
  data : List (Nat × HNode)
  next : Nat
deriving Repr

/-- Read a node. -/
def Heap.get (h : Heap) (a : Nat) : Option HNode :=
  h.data.lookup a

/-- Overwrite the node at an (existing) address — Python in-place
mutation of a dict or list. An absent address is left untouched. -/
def Heap.set (h : Heap) (a : Nat) (n : HNode) : Heap :=
  { h with data := h.data.map fun p => if p.1 = a then (a, n) else p }

/-- Allocate a fresh node. -/
def Heap.alloc (h : Heap) (n : HNode) : Heap × Nat :=
  ({ data := h.data ++ [(h.next, n)], next := h.next + 1 }, h.next)

/-- Well-formed heap: every stored address is below the watermark, as are
all children of stored nodes. -/
def heapWF (h : Heap) : Prop :=
  ∀ p ∈ h.data, p.1 < h.next ∧ ∀ b ∈ nodeAddrs p.2, b < h.next

/-- The two heaps agree on every address below `w`. -/
def heapAgreesBelow (h2 h : Heap) (w : Nat) : Prop :=
  ∀ a, a < w → h2.get a = h.get a

/-- Every node stored at or above `w` has all children at or above `w`
(the freshly-copied region is closed: it never points back into the
original). -/
def regionClosed (h : Heap) (w : Nat) : Prop :=
  ∀ a n, w ≤ a → h.get a = some n → ∀ b ∈ nodeAddrs n, w ≤ b

mutual

/-- Read a heap value back into a JSON value (fuelled; a tree-shaped
heap needs fuel no larger than its depth). -/
def readbackH : Nat → Heap → Nat → Option JVal
  | 0, _, _ => none
  | fuel + 1, h, a =>
    match h.get a with
    | none => none
    | some .null => some .null
    | some (.bool b) => some (.bool b)
    | some (.num n) => some (.num n)
    | some (.str s) => some (.str s)
    | some (.arr l) => (readbackListH fuel h l).map .arr
    | some (.obj kvs) => (readbackMembersH fuel h kvs).map .obj

/-- Read back a list of children. -/
def readbackListH : Nat → Heap → List Nat → Option (List JVal)
  | 0, _, _ => none
  | _ + 1, _, [] => some []
  | fuel + 1, h, a :: rest => do
    let v ← readbackH fuel h a
    let vs ← readbackListH (fuel + 1) h rest
    some (v :: vs)

/-- Read back object members. -/
def readbackMembersH : Nat → Heap → List (String × Nat) → Option (List (String × JVal))
  | 0, _, _ => none
  | _ + 1, _, [] => some []
  | fuel + 1, h, (k, a) :: rest => do
    let v ← readbackH fuel h a
    let vs ← readbackMembersH (fuel + 1) h rest
    some ((k, v) :: vs)

end

mutual

/-- `copy.deepcopy` of a tree-shaped value: allocate a fresh, structurally
equal copy sharing no address with the original (Python's memoisation of
shared/cyclic references is not modelled; pydantic JSON schemas are
trees). -/
def deepcopyH : Nat → Heap → Nat → Option (Heap × Nat)
  | 0, _, _ => none
  | fuel + 1, h, a =>
    match h.get a with
    | none => none
    | some (.obj kvs) =>
      match deepcopyMembersH fuel h kvs with
      | some (h2, kvs2) => some (h2.alloc (.obj kvs2))
      | none => none
    | some (.arr l) =>
      match deepcopyListH fuel h l with
      | some (h2, l2) => some (h2.alloc (.arr l2))
      | none => none
    | some n => some (h.alloc n)

/-- Deep copy of array children. -/
def deepcopyListH : Nat → Heap → List Nat → Option (Heap × List Nat)
  | 0, _, _ => none
  | _ + 1, h, [] => some (h, [])
  | fuel + 1, h, a :: rest =>
    match deepcopyH fuel h a with
    | some (h2, b) =>
      match deepcopyListH (fuel + 1) h2 rest with
      | some (h3, bs) => some (h3, b :: bs)
      | none => none
    | none => none

/-- Deep copy of object members. -/
def deepcopyMembersH : Nat → Heap → List (String × Nat) → Option (Heap × List (String × Nat))
  | 0, _, _ => none
  | _ + 1, h, [] => some (h, [])
  | fuel + 1, h, (k, a) :: rest =>
    match deepcopyH fuel h a with
    | some (h2, b) =>
      match deepcopyMembersH (fuel + 1) h2 rest with
      | some (h3, bs) => some (h3, (k, b) :: bs)
      | none => none
    | none => none

end

/-- Association helpers over member lists of heap object nodes (same
Python dict semantics as the value-level `objGet`/`objRemove`/...). -/
def aGet (k : String) : List (String × Nat) → Option Nat
  | [] => none
  | (k', v) :: rest => if k' = k then some v else aGet k rest

/-- Member removal (`pop`). -/
def aRemove (k : String) (l : List (String × Nat)) : List (String × Nat) :=
  l.filter fun kv => kv.1 ≠ k

/-- Member assignment. -/
def aSet (k : String) (v : Nat) (l : List (String × Nat)) : List (String × Nat) :=
  if (aGet k l).isSome then l.map (fun kv => if kv.1 = k then (k, v) else kv)
  else l ++ [(k, v)]

/-- Member merge (`dict.update`) — values are shared addresses, exactly
Python's aliasing-introducing update. -/
def aUpdate (l other : List (String × Nat)) : List (String × Nat) :=
  other.foldl (fun acc kv => aSet kv.1 kv.2 acc) l

/-- Read an address as an object node (`AttributeError` on anything
else, as when Python calls dict methods on a non-dict). -/
def heapAsObj (h : Heap) (a : Nat) : Except Err (List (String × Nat)) :=
  match h.get a with
  | some (.obj kvs) => .ok kvs
  | _ => .error (.attributeError "schema node is not a dict")

/-- Python truthiness of the value stored at an address. -/
def heapTruthy (h : Heap) (a : Nat) : Bool :=
  match h.get a with
  | some .null => false
  | some (.bool b) => b
  | some (.num n) => n ≠ 0
  | some (.str s) => s ≠ ""
  | some (.arr l) => !l.isEmpty
  | some (.obj l) => !l.isEmpty
  | none => false

/-- `self.defs[key]` at heap level. -/
def defsLookupH (h : Heap) (defsA : Nat) (key : String) : Except Err Nat :=
  match h.get defsA with
  | some (.obj kvs) =>
    match aGet key kvs with
    | some v => .ok v
    | none => .error (.keyError key)
  | _ => .error (.typeError "definitions table is not subscriptable")

mutual

/-- Heap-level `_GeminiJsonSchema._simplify`, mutating nodes in place
(the definitions table needs no explicit write-back: the table entry and
the node being simplified are the same heap object, exactly as in
Python). Mirrors `simplifyAux`; on an exception the heap mutated so far
is returned alongside the error, as Python leaves objects part-mutated. -/
def simplifyAuxH : Nat → Nat → List String → Nat → Heap → Except Err Unit × Heap
  | 0, _, _, _, h => (.error .fuelExhausted, h)
  | fuel + 1, defsA, stack, a, h =>
    match heapAsObj h a with
    | .error e => (.error e, h)
    | .ok kvs0 =>
      let kvs1 := aRemove "title" kvs0
      let kvs2 := aRemove "default" kvs1
      let refOpt := aGet "$ref" kvs2
      let kvs3 := aRemove "$ref" kvs2
      let h1 := h.set a (.obj kvs3)
      match refOpt with
      | some rv =>
        if heapTruthy h1 rv then
          match h1.get rv with
          | some (.str ref) =>
            let key := stripDefsRef ref
            if stack.contains key then
              (.error (.userError "Recursive `$ref`s in JSON Schema are not supported by Gemini"), h1)
            else
              match defsLookupH h1 defsA key with
              | .error e => (.error e, h1)
              | .ok d =>
                match simplifyAuxH fuel defsA (stack ++ [key]) d h1 with
                | (.error e, h2) => (.error e, h2)
                | (.ok _, h2) =>
                  match heapAsObj h2 a, heapAsObj h2 d with
                  | .ok akvs, .ok dkvs => (.ok (), h2.set a (.obj (aUpdate akvs dkvs)))
                  | .error e, _ => (.error e, h2)
                  | _, .error e => (.error e, h2)
          | _ => (.error (.typeError "expected a string reference"), h1)
        else simplifyNoRefH fuel defsA stack a h1
      | none => simplifyNoRefH fuel defsA stack a h1

/-- Heap-level continuation after `$ref` handling: the `anyOf` loop
(in-place, so no list rebuilding), then — through Python's rebinding of
the `schema` name — the type dispatch applied to the last `anyOf` branch
when one exists, else to the node itself. -/
def simplifyNoRefH : Nat → Nat → List String → Nat → Heap → Except Err Unit × Heap
  | 0, _, _, _, h => (.error .fuelExhausted, h)
  | fuel + 1, defsA, stack, a, h =>
    match heapAsObj h a with
    | .error e => (.error e, h)
    | .ok kvs =>
      match aGet "anyOf" kvs with
      | some av =>
        if heapTruthy h av then
          match h.get av with
          | some (.arr branches) =>
            match simplifyListH fuel defsA stack branches h with
            | (.error e, h2) => (.error e, h2)
            | (.ok _, h2) =>
              match branches.getLast? with
              | some lastB => dispatchTypeH fuel defsA stack lastB h2
              | none => (.ok (), h2)
          | _ => (.error (.typeError "anyOf is not iterable"), h)
        else dispatchTypeH fuel defsA stack a h
      | none => dispatchTypeH fuel defsA stack a h

/-- Heap-level type dispatch. -/
def dispatchTypeH : Nat → Nat → List String → Nat → Heap → Except Err Unit × Heap
  | 0, _, _, _, h => (.error .fuelExhausted, h)
  | fuel + 1, defsA, stack, a, h =>
    match heapAsObj h a with
    | .error e => (.error e, h)
    | .ok kvs =>
      match aGet "type" kvs with
      | some tv =>
        match h.get tv with
        | some (.str t) =>
          if t = "object" then objectAuxH fuel defsA stack a h
          else if t = "array" then arrayAuxH fuel defsA stack a h
          else (.ok (), h)
        | _ => (.ok (), h)
      | none => (.ok (), h)

/-- Heap-level `_object`. -/
def objectAuxH : Nat → Nat → List String → Nat → Heap → Except Err Unit × Heap
  | 0, _, _, _, h => (.error .fuelExhausted, h)
  | fuel + 1, defsA, stack, a, h =>
    match heapAsObj h a with
    | .error e => (.error e, h)
    | .ok kvs =>
      let adOpt := aGet "additionalProperties" kvs
      let h1 := h.set a (.obj (aRemove "additionalProperties" kvs))
      match adOpt with
      | some ad =>
        if heapTruthy h1 ad then
          (.error (.userError "Additional properties in JSON Schema are not supported by Gemini"), h1)
        else objectPropsH fuel defsA stack a h1
      | none => objectPropsH fuel defsA stack a h1

/-- Heap-level property loop of `_object`. -/
def objectPropsH : Nat → Nat → List String → Nat → Heap → Except Err Unit × Heap
  | 0, _, _, _, h => (.error .fuelExhausted, h)
  | fuel + 1, defsA, stack, a, h =>
    match heapAsObj h a with
    | .error e => (.error e, h)
    | .ok kvs =>
      match aGet "properties" kvs with
      | some pv =>
        if heapTruthy h pv then
          match h.get pv with
          | some (.obj props) => simplifyListH fuel defsA stack (props.map (·.2)) h
          | _ => (.error (.attributeError "properties is not a dict"), h)
        else (.ok (), h)
      | none => (.ok (), h)

/-- Heap-level `_array`. -/
def arrayAuxH : Nat → Nat → List String → Nat → Heap → Except Err Unit × Heap
  | 0, _, _, _, h => (.error .fuelExhausted, h)
  | fuel + 1, defsA, stack, a, h =>
    match heapAsObj h a with
    | .error e => (.error e, h)
    | .ok kvs =>
      match aGet "prefixItems" kvs with
      | some pv =>
        if heapTruthy h pv then
          match h.get pv with
          | some (.arr items) =>
            match simplifyListH fuel defsA stack items h with
            | (.error e, h2) => (.error e, h2)
            | (.ok _, h2) => arrayItemsH fuel defsA stack a h2
          | _ => (.error (.typeError "prefixItems is not iterable"), h)
        else arrayItemsH fuel defsA stack a h
      | none => arrayItemsH fuel defsA stack a h

/-- Heap-level `items` recursion of `_array`. -/
def arrayItemsH : Nat → Nat → List String → Nat → Heap → Except Err Unit × Heap
  | 0, _, _, _, h => (.error .fuelExhausted, h)
  | fuel + 1, defsA, stack, a, h =>
    match heapAsObj h a with
    | .error e => (.error e, h)
    | .ok kvs =>
      match aGet "items" kvs with
      | some iv =>
        if heapTruthy h iv then simplifyAuxH fuel defsA stack iv h
        else (.ok (), h)
      | none => (.ok (), h)

/-- Heap-level in-place simplification of a list of schema nodes. -/
def simplifyListH : Nat → Nat → List String → List Nat → Heap → Except Err Unit × Heap
  | 0, _, _, _, h => (.error .fuelExhausted, h)
  | _ + 1, _, _, [], h => (.ok (), h)
  | fuel + 1, defsA, stack, a :: rest, h =>
    match simplifyAuxH fuel defsA stack a h with
    | (.error e, h2) => (.error e, h2)
    | (.ok _, h2) => simplifyListH fuel defsA stack rest h2

end

/-- Heap-level `_GeminiJsonSchema(schema).simplify()`: deep-copy the
caller's schema, pop `$defs` off the copy (allocating the empty default
table when absent), then run `_simplify` on the copy; the copy's address
is the returned schema. The final heap is returned in both the success
and the failure case. -/
def geminiJsonSchemaSimplifyH (h : Heap) (root : Nat) : Except Err Nat × Heap :=
  match deepcopyH (h.data.length + 1) h root with
  | none => (.error .fuelExhausted, h)
  | some (h1, copyA) =>
    match heapAsObj h1 copyA with
    | .error e => (.error e, h1)
    | .ok kvs =>
      let defsOpt := aGet "$defs" kvs
      let h2 := h1.set copyA (.obj (aRemove "$defs" kvs))
      let (h3, defsA) :=
        match defsOpt with
        | some d => (h2, d)
        | none => h2.alloc (.obj [])
      match simplifyAuxH (16 * (h3.data.length + 16) * (h3.data.length + 16)) defsA [] copyA h3 with
      | (.ok _, h4) => (.ok copyA, h4)
      | (.error e, h4) => (.error e, h4)

/-- Canonical parts assembled by the OpenAI reconstructor for one
choice (named for use in theorem statements). -/
def openAIChoiceParts (choice : ChatChoice) : List ModelResponsePart :=
  (match choice.message.content with
    | some c => [ModelResponsePart.text c]
    | none => [])
  ++ (match choice.message.toolCalls with
    | some tcs => tcs.map fun c => toolCallFromJson c.function.name c.function.arguments (some c.id)
    | none => [])

/-- Tool definition used by the request-builder witnesses. -/
def c6Tool : ToolDefinition :=
  { name := "t", description := "d"
    parametersJsonSchema := .obj [("type", .str "object"), ("properties", .obj [("a", .obj [("type", .str "string")])])] }

/-- Wire request built by the OpenAI builder for `c6Tool` with free-text
results disallowed. -/
def c6OpenAIRequestValue : OpenAIRequest :=
  { model := "gpt-4o", messages := [], n := 1, parallelToolCalls := some true
    tools := some [{ name := "t", description := "d"
                     parameters := .obj [("type", .str "object"), ("properties", .obj [("a", .obj [("type", .str "string")])])] }]
    toolChoice := some "required", stream := false, streamOptionsIncludeUsage := none
    maxTokens := none, temperature := none, topP := none, timeout := none }

/-- Agent-model state built by the Gemini constructor for `c6Tool` with
free-text results disallowed. -/
def c6GeminiStateValue : GeminiAgentModelState :=
  { modelName := "gemini-1.5-flash"
    tools := some [{ name := "t", description := "d"
                     parameters := some (.obj [("type", .str "object"), ("properties", .obj [("a", .obj [("type", .str "string")])])]) }]
    toolConfig := some { mode := "ANY", allowedFunctionNames := ["t"] }
    url := "u" }

/-- A concrete six-object heap holding the schema
`obj (title: "T", type: "object", properties: (a: obj (type: "string")))`
at address 0, used to witness the no-mutation theorem. -/
def c10Heap : Heap :=
  { data := [(0, .obj [("title", 1), ("type", 2), ("properties", 3)]),
             (1, .str "T"), (2, .str "object"), (3, .obj [("a", 4)]),
             (4, .obj [("type", 5)]), (5, .str "string")]
    next := 6 }

set_option maxRecDepth 16000

theorem objGet_objRemove_self (k : String) (l : List (String × JVal)) :
    objGet k (objRemove k l) = none := by
  induction l with
  | nil => rfl
  | cons kv rest ih =>
    by_cases hk : kv.1 = k
    · simp [objRemove, List.filter, hk] at ih ⊢
      exact ih
    · simp [objRemove, List.filter, hk] at ih ⊢
      rw [objGet]
      simp [hk, ih]

theorem objHasKey_objRemove_self (k : String) (l : List (String × JVal)) :
    objHasKey k (objRemove k l) = false := by
  simp [objHasKey, objGet_objRemove_self]

theorem objGet_objRemove_other (k k2 : String) (l : List (String × JVal)) (h : k ≠ k2) :
    objGet k (objRemove k2 l) = objGet k l := by
  induction l with
  | nil => rfl
  | cons kv rest ih =>
    by_cases hk : kv.1 = k2
    · simp [objRemove, List.filter, hk] at ih ⊢
      rw [ih, objGet]
      have : kv.1 ≠ k := by rw [hk]; exact fun hh => h hh.symm
      simp [this]
    · simp [objRemove, List.filter, hk] at ih ⊢
      rw [objGet, objGet]
      by_cases he : kv.1 = k
      · simp [he]
      · simp [he, ih]

theorem objHasKey_objRemove_other (k k2 : String) (l : List (String × JVal)) (h : k ≠ k2) :
    objHasKey k (objRemove k2 l) = objHasKey k l := by
  simp [objHasKey, objGet_objRemove_other k k2 l h]

theorem objGet_map_replace (k k2 : String) (v : JVal) (l : List (String × JVal)) (h : k ≠ k2) :
    objGet k (l.map fun kv => if kv.1 = k2 then (k2, v) else kv) = objGet k l := by
  induction l with
  | nil => rfl
  | cons kv rest ih =>
    rw [List.map]
    by_cases he : kv.1 = k2
    · rw [objGet, objGet]
      have h1 : ¬(k2 = k) := fun hh => h hh.symm
      have h2 : ¬(kv.1 = k) := by rw [he]; exact h1
      simp [he, h1, h2, ih]
    · rw [objGet, objGet]
      by_cases hke : kv.1 = k
      · simp [he, hke, h]
      · simp [he, hke, ih]

theorem objGet_append_single (k k2 : String) (v : JVal) (l : List (String × JVal)) (h : k ≠ k2) :
    objGet k (l ++ [(k2, v)]) = objGet k l := by
  induction l with
  | nil =>
    rw [List.nil_append, objGet]
    have h1 : ¬(k2 = k) := fun hh => h hh.symm
    simp [h1, objGet]
  | cons kv rest ih =>
    rw [List.cons_append, objGet, objGet]
    by_cases hke : kv.1 = k
    · simp [hke]
    · simp [hke, ih]

theorem objGet_objSet_other (k k2 : String) (v : JVal) (l : List (String × JVal)) (h : k ≠ k2) :
    objGet k (objSet k2 v l) = objGet k l := by
  unfold objSet
  by_cases hk : objHasKey k2 l
  · simp only [hk, if_true]
    exact objGet_map_replace k k2 v l h
  · simp only [hk, if_false]
    exact objGet_append_single k k2 v l h

theorem objHasKey_objSet_other (k k2 : String) (v : JVal) (l : List (String × JVal)) (h : k ≠ k2) :
    objHasKey k (objSet k2 v l) = objHasKey k l := by
  simp [objHasKey, objGet_objSet_other k k2 v l h]

theorem objGet_objUpdate_absent (k : String) (l other : List (String × JVal))
    (h : objHasKey k other = false) :
    objGet k (objUpdate l other) = objGet k l := by
  induction other generalizing l with
  | nil => rfl
  | cons kv rest ih =>
    rw [objUpdate, List.foldl]
    have hk : ¬(k = kv.1) := by
      intro he
      rw [objHasKey, objGet, he] at h
      simp at h
    have hr : objHasKey k rest = false := by
      rw [objHasKey] at h ⊢
      rw [objGet] at h
      by_cases hh : kv.1 = k
      · exact absurd hh.symm hk
      · simp [hh] at h
        simp [h]
    have := ih (objSet kv.1 kv.2 l) hr
    rw [objUpdate] at this
    rw [this]
    exact objGet_objSet_other k kv.1 kv.2 l hk

theorem objHasKey_objUpdate_absent (k : String) (l other : List (String × JVal))
    (h : objHasKey k other = false) :
    objHasKey k (objUpdate l other) = objHasKey k l := by
  simp [objHasKey, objGet_objUpdate_absent k l other h]

theorem partsToItems_no_function_response (parts : List GeminiPart) (acc : List ModelResponsePart)
    (h : parts.all (fun p => !isFunctionResponsePart p) = true) :
    partsToItems parts acc = .ok (acc ++ parts.map geminiPartToCanonical) := by
  induction parts generalizing acc with
  | nil => simp [partsToItems]
  | cons p rest ih =>
    rw [List.all_cons, Bool.and_eq_true] at h
    cases p with
    | text s =>
      rw [partsToItems]
      rw [ih _ h.2]
      simp [geminiPartToCanonical]
    | functionCall n a =>
      rw [partsToItems]
      rw [ih _ h.2]
      simp [geminiPartToCanonical]
    | functionResponse n r =>
      simp [isFunctionResponsePart] at h

/-- Claim C1 (amended): the Gemini reconstructor validates the candidate
count — any count other than one fails with `UnexpectedModelBehavior`,
and with exactly one candidate reconstruction proceeds from that
candidate's parts. The OpenAI reconstructor performs no such validation:
an empty choices list is an uncaught index error (not an
`UnexpectedModelBehavior`), and a response with extra choices is
processed identically to one truncated to its first choice — silent
truncation. -/
theorem c1_candidate_count_validation :
    (∀ (r : GeminiResponse) (now : Int), r.candidates.length ≠ 1 →
        geminiProcessResponse r now =
          .error (.unexpectedModelBehavior "Expected exactly one candidate in Gemini response")) ∧
    (∀ (r : GeminiResponse) (cand : GeminiCandidate) (rest : List GeminiCandidate) (now : Int),
        r.candidates = cand :: rest → r.candidates.length = 1 →
        geminiProcessResponse r now = processResponseFromParts cand.content.parts none now) ∧
    (∀ r : ChatCompletion, r.choices = [] → openAIProcessResponse r = .error .indexError) ∧
    (∀ (r : ChatCompletion) (choice : ChatChoice) (rest : List ChatChoice),
        r.choices = choice :: rest →
        openAIProcessResponse r = openAIProcessResponse { r with choices := [choice] }) := by
  refine ⟨?_, ?_, ?_, ?_⟩
  · intro r now h
    simp [geminiProcessResponse, h]
  · intro r cand rest now hc hlen
    rw [geminiProcessResponse]
    simp only [hlen]
    simp [hc]
  · intro r h
    simp [openAIProcessResponse, h]
  · intro r choice rest h
    simp [openAIProcessResponse, h]

/-- Witness for C1: a zero-candidate Gemini response fails with the
validation error, and the concrete two-choice OpenAI response is
processed exactly like its truncation to the first choice. -/
theorem c1_candidate_count_validation_witness :
    geminiProcessResponse { candidates := [] } 0 =
      .error (.unexpectedModelBehavior "Expected exactly one candidate in Gemini response") ∧
    openAIProcessResponse c1TwoChoiceResponse =
      openAIProcessResponse { c1TwoChoiceResponse with choices := [{ message := { content := some "first" } }] } :=
  ⟨c1_candidate_count_validation.1 { candidates := [] } 0 (by simp),
   c1_candidate_count_validation.2.2.2 c1TwoChoiceResponse { message := { content := some "first" } }
     [{ message := { content := some "second" } }] rfl⟩

/-- Claim C1 counterexample: the claim asserts multi-choice responses are
rejected, never silently truncated; but the two-choice OpenAI response is
reconstructed successfully, keeping only the first choice's text. -/
theorem c1_counterexample :
    c1TwoChoiceResponse.choices.length = 2 ∧
    openAIProcessResponse c1TwoChoiceResponse = .ok { parts := [.text "first"], timestamp := 5 } :=
  ⟨rfl, rfl⟩

/-- Claim C2 (amended): reconstruction yields exactly one canonical part
per wire text/tool-call item — so non-empty wire content yields non-empty
parts — but when the wire response carries neither text nor tool-call
content, reconstruction succeeds with an empty parts list rather than
failing. -/
theorem c2_reconstruction_parts :
    (∀ (parts : List GeminiPart) (ts : Option Int) (now : Int),
        parts.all (fun p => !isFunctionResponsePart p) = true →
        processResponseFromParts parts ts now =
          .ok { parts := parts.map geminiPartToCanonical, timestamp := ts.getD now }) ∧
    (∀ (r : ChatCompletion) (choice : ChatChoice) (rest : List ChatChoice),
        r.choices = choice :: rest →
        openAIProcessResponse r = .ok { parts := openAIChoiceParts choice, timestamp := r.created } ∧
        (openAIChoiceParts choice).length =
          (if choice.message.content.isSome then 1 else 0) + (choice.message.toolCalls.getD []).length) := by
  constructor
  · intro parts ts now h
    rw [processResponseFromParts]
    rw [partsToItems_no_function_response parts [] h]
    rfl
  · intro r choice rest h
    constructor
    · rw [openAIProcessResponse]
      simp only [h]
      rfl
    · cases hc : choice.message.content <;> cases ht : choice.message.toolCalls <;>
        simp [openAIChoiceParts, hc, ht, Nat.add_comm]

/-- Witness for C2: the Gemini conjunct at a one-text-part candidate and
the OpenAI conjunct at the concrete single-choice response. -/
theorem c2_reconstruction_parts_witness :
    processResponseFromParts [.text "hi"] none 9 = .ok { parts := [.text "hi"], timestamp := 9 } ∧
    openAIProcessResponse c2EmptyChoiceResponse =
      .ok { parts := openAIChoiceParts { message := {} }, timestamp := c2EmptyChoiceResponse.created } :=
  ⟨c2_reconstruction_parts.1 [.text "hi"] none 9 (by decide),
   (c2_reconstruction_parts.2 c2EmptyChoiceResponse { message := {} } [] rfl).1⟩

/-- Claim C2 counterexample: the claim asserts reconstruction fails when
the wire response carries neither text nor tool-call content; but both
adapters succeed, returning a `ModelResponse` with an empty parts list. -/
theorem c2_counterexample :
    openAIProcessResponse c2EmptyChoiceResponse = .ok { parts := [], timestamp := 3 } ∧
    geminiProcessResponse c2EmptyPartsGemini 4 = .ok { parts := [], timestamp := 4 } :=
  ⟨rfl, rfl⟩

theorem natMapGet_map_replace_self (m : List (Nat × ChoiceDeltaToolCall)) (k : Nat) (v : ChoiceDeltaToolCall)
    (hk : (natMapGet m k).isSome) :
    natMapGet (m.map fun kv => if kv.1 = k then (k, v) else kv) k = some v := by
  induction m with
  | nil => simp [natMapGet] at hk
  | cons kv rest ih =>
    obtain ⟨k1, v1⟩ := kv
    rw [List.map]
    by_cases he : k1 = k
    · rw [natMapGet]
      simp [he]
    · rw [natMapGet] at hk
      simp only [he, if_false] at hk
      simp only [he, if_false]
      rw [natMapGet]
      simp only [he, if_false]
      exact ih hk

theorem natMapGet_append_self (m : List (Nat × ChoiceDeltaToolCall)) (k : Nat) (v : ChoiceDeltaToolCall)
    (hk : natMapGet m k = none) :
    natMapGet (m ++ [(k, v)]) k = some v := by
  induction m with
  | nil => simp [natMapGet]
  | cons kv rest ih =>
    obtain ⟨k1, v1⟩ := kv
    rw [natMapGet] at hk
    by_cases he : k1 = k
    · simp [he] at hk
    · simp only [he, if_false] at hk
      rw [List.cons_append, natMapGet]
      simp [he]
      exact ih hk

theorem natMapGet_natMapSet_self (m : List (Nat × ChoiceDeltaToolCall)) (k : Nat) (v : ChoiceDeltaToolCall) :
    natMapGet (natMapSet m k v) k = some v := by
  unfold natMapSet
  by_cases hk : (natMapGet m k).isSome
  · simp only [hk, if_true]
    exact natMapGet_map_replace_self m k v hk
  · simp only [hk, if_false]
    refine natMapGet_append_self m k v ?_
    cases h : natMapGet m k with
    | none => rfl
    | some w => rw [h] at hk; simp at hk

/-- Claim C4: tool-call fragments at the same index merge field by field
— with both functions present the name and arguments strings are
concatenated via `add_optional` (never replaced), the entry's identifier
is never changed by a later fragment, and the concrete two-fragment run
(first only `name "foo"`, second only `arguments "{}"`, written with
escaped braces) materialises exactly one tool call `foo` with arguments
`{}`. -/
theorem c4_tool_call_fragment_merging :
    (∀ (m : List (Nat × ChoiceDeltaToolCall)) (new cur : ChoiceDeltaToolCall) (cf nf : DeltaFunction),
        natMapGet m new.index = some cur → cur.function = some cf → new.function = some nf →
        natMapGet (applyToolCallDelta m new) new.index =
          some { cur with function := some { name := addOptional cf.name nf.name,
                                             arguments := addOptional cf.arguments nf.arguments } }) ∧
    (∀ (a b : String), addOptional (some a) (some b) = some (a ++ b)) ∧
    (∀ (m : List (Nat × ChoiceDeltaToolCall)) (new cur : ChoiceDeltaToolCall),
        natMapGet m new.index = some cur →
        (natMapGet (applyToolCallDelta m new) new.index).map (·.id) = some cur.id) ∧
    c4Pipeline = .ok { parts := [toolCallFromJson "foo" "\x7b\x7d" none], timestamp := 5 } := by
  refine ⟨?_, fun a b => rfl, ?_, rfl⟩
  · intro m new cur cf nf hm hcf hnf
    simp only [applyToolCallDelta, hm, hcf, hnf]
    exact natMapGet_natMapSet_self m new.index _
  · intro m new cur hm
    simp only [applyToolCallDelta, hm]
    cases hcf : cur.function with
    | none =>
      simp only [hcf]
      rw [natMapGet_natMapSet_self m new.index _]
      rfl
    | some cf =>
      cases hnf : new.function with
      | none =>
        simp only [hcf, hnf]
        rw [natMapGet_natMapSet_self m new.index _]
        rfl
      | some nf =>
        simp only [hcf, hnf]
        rw [natMapGet_natMapSet_self m new.index _]
        rfl

/-- Witness for C4: the merge conjuncts applied to the concrete
fragments of the claim's example. -/
theorem c4_tool_call_fragment_merging_witness :
    natMapGet (applyToolCallDelta [(0, c4Frag1)] c4Frag2) c4Frag2.index =
      some { c4Frag1 with function := some { name := addOptional (some "foo") none,
                                             arguments := addOptional none (some "\x7b\x7d") } } ∧
    (natMapGet (applyToolCallDelta [(0, c4Frag1)] c4Frag2) c4Frag2.index).map (·.id) = some c4Frag1.id :=
  ⟨c4_tool_call_fragment_merging.1 [(0, c4Frag1)] c4Frag2 c4Frag1 { name := some "foo" }
      { arguments := some "\x7b\x7d" } rfl rfl rfl,
   c4_tool_call_fragment_merging.2.2.1 [(0, c4Frag1)] c4Frag2 c4Frag1 rfl⟩

theorem functionFromAbstractTool_name (td : ToolDefinition) (gf : GeminiFunction)
    (h : functionFromAbstractTool td = .ok gf) : gf.name = td.name := by
  rw [functionFromAbstractTool] at h
  cases hs : geminiJsonSchemaSimplify td.parametersJsonSchema with
  | error e => rw [hs] at h; exact absurd h (by simp [Except.bind, Bind.bind])
  | ok js =>
    rw [hs] at h
    simp only [Except.bind, Bind.bind] at h
    cases h
    rfl

theorem mapM_functionFromAbstractTool_names (tds : List ToolDefinition) (gfs : List GeminiFunction)
    (h : tds.mapM functionFromAbstractTool = .ok gfs) :
    gfs.map (·.name) = tds.map (·.name) := by
  induction tds generalizing gfs with
  | nil =>
    rw [List.mapM_nil] at h
    cases h
    rfl
  | cons td rest ih =>
    rw [List.mapM_cons] at h
    cases hf : functionFromAbstractTool td with
    | error e => rw [hf] at h; exact absurd h (by simp [Except.bind, Bind.bind])
    | ok gf =>
      rw [hf] at h
      cases hr : rest.mapM functionFromAbstractTool with
      | error e =>
        rw [hr] at h
        exact absurd h (by simp [Except.bind, Bind.bind, Pure.pure])
      | ok grest =>
        rw [hr] at h
        simp only [Except.bind, Bind.bind, Pure.pure] at h
        cases h
        rw [List.map, List.map]
        rw [functionFromAbstractTool_name td gf hf, ih grest hr]

/-- Claim C6: with a non-empty tool list, the OpenAI builder sets
`tool_choice` to `required` exactly when free-text results are disallowed
and to `auto` otherwise; the Gemini agent model sets `tool_config` to
function-calling mode `ANY` over every declared tool name exactly when
free-text results are disallowed and to no tool config otherwise, and the
built wire request carries that tool config unchanged for every message
list. -/
theorem c6_tool_choice_forcing :
    (∀ (st : OpenAIAgentModelState) (messages : List Message) (stream : Bool)
        (settings : Option ModelSettings) (r : OpenAIRequest),
        openAICompletionsCreate st messages stream settings = .ok r → st.tools ≠ [] →
        r.toolChoice = some (if st.allowTextResult then "auto" else "required")) ∧
    (∀ (modelName url : String) (ftools : List ToolDefinition) (allow : Bool)
        (rtools : List ToolDefinition) (st : GeminiAgentModelState),
        geminiAgentModelInit modelName url ftools allow rtools = .ok st →
        st.toolConfig = if allow then none
          else some { mode := "ANY", allowedFunctionNames := (ftools ++ rtools).map (·.name) }) ∧
    (∀ (st : GeminiAgentModelState) (messages : List Message) (settings : Option ModelSettings)
        (r : GeminiRequest),
        geminiMakeRequest st messages settings = .ok r → r.toolConfig = st.toolConfig) := by
  refine ⟨?_, ?_, ?_⟩
  · intro st messages stream settings r h hne
    rw [openAICompletionsCreate] at h
    cases hm : messages.mapM openAIMapMessage with
    | error e => rw [hm] at h; exact absurd h (by simp [Except.bind, Bind.bind])
    | ok msgs =>
      rw [hm] at h
      simp only [Except.bind, Bind.bind] at h
      cases h
      have he : st.tools.isEmpty = false := by
        cases hst : st.tools with
        | nil => exact absurd hst hne
        | cons a b => rfl
      simp only [he, Bool.false_eq_true, if_false]
      cases ha : st.allowTextResult <;> simp
  · intro modelName url ftools allow rtools st h
    rw [geminiAgentModelInit] at h
    cases hm : (ftools ++ rtools).mapM functionFromAbstractTool with
    | error e => rw [hm] at h; exact absurd h (by simp [Except.bind, Bind.bind])
    | ok tools =>
      rw [hm] at h
      simp only [Except.bind, Bind.bind] at h
      cases h
      cases allow with
      | true => rfl
      | false =>
        simp only [if_false]
        rw [toolConfigOf]
        rw [mapM_functionFromAbstractTool_names (ftools ++ rtools) tools hm]
  · intro st messages settings r h
    rw [geminiMakeRequest] at h
    cases hm : messages.mapM messageToGeminiContent with
    | error e => rw [hm] at h; exact absurd h (by simp [Except.bind, Bind.bind])
    | ok opts =>
      rw [hm] at h
      simp only [Except.bind, Bind.bind] at h
      cases h
      rfl

/-- Witness for C6: the OpenAI conjunct at the concrete one-tool
configuration (tool choice comes out `required`), and the Gemini conjunct
at the same configuration (tool config comes out mode `ANY` over the
declared name). -/
theorem c6_tool_choice_forcing_witness :
    c6OpenAIRequestValue.toolChoice =
      some (if (openAIAgentModelInit "gpt-4o" [c6Tool] false []).allowTextResult then "auto" else "required") ∧
    c6GeminiStateValue.toolConfig = (if false then none
      else some { mode := "ANY", allowedFunctionNames := ([c6Tool] ++ ([] : List ToolDefinition)).map (·.name) }) :=
  ⟨c6_tool_choice_forcing.1 (openAIAgentModelInit "gpt-4o" [c6Tool] false []) [] false none
      c6OpenAIRequestValue rfl (by intro hcon; exact List.noConfusion hcon),
   c6_tool_choice_forcing.2.1 "gemini-1.5-flash" "u" [c6Tool] false [] c6GeminiStateValue rfl⟩

/-- Claim C8 (amended): constructing the Gemini model with no API key
argument and no (or an empty/falsy) `GEMINI_API_KEY` environment value
fails at construction time — fatally, nothing is retried — but with a
`UserError`, the same exception class the code uses for unsupported
schema constructs; the code defines no separate ConfigurationError kind. -/
theorem c8_missing_credentials_userError :
    ∀ (modelName urlTemplate : String),
      geminiModelInit modelName none none urlTemplate =
        .error (.userError "API key must be provided or set in the GEMINI_API_KEY environment variable") ∧
      geminiModelInit modelName none (some "") urlTemplate =
        .error (.userError "API key must be provided or set in the GEMINI_API_KEY environment variable") := by
  intro modelName urlTemplate
  exact ⟨rfl, by rw [geminiModelInit]; simp⟩

/-- Claim C8 counterexample: the claim announces a distinct
ConfigurationError kind; the code raises `UserError` — the very kind §7
reserves for unsupported schema constructs, as the recursive-`$ref`
failure shows — so missing credentials are not distinguishable by kind
from schema errors. -/
theorem c8_counterexample :
    geminiModelInit "gemini-1.5-flash" none none =
      .error (.userError "API key must be provided or set in the GEMINI_API_KEY environment variable") ∧
    geminiJsonSchemaSimplify c3CycleSchema =
      .error (.userError "Recursive `$ref`s in JSON Schema are not supported by Gemini") ∧
    Err.kindOf (.userError "API key must be provided or set in the GEMINI_API_KEY environment variable") =
      Err.kindOf (.userError "Recursive `$ref`s in JSON Schema are not supported by Gemini") :=
  ⟨rfl, rfl, rfl⟩

/-- Claim C7: for both providers, a stream that ends before any
content-text or tool-call fragment arrives fails with
`UnexpectedModelBehavior` instead of producing an empty result. For
OpenAI the hypothesis says every chunk is unclassifiable (no choices, or
a first choice with neither content nor tool calls); for Gemini it says
every prefix of the chunk stream accumulates to a buffer whose
best-effort parse yields no element with a candidate carrying non-empty
parts. -/
theorem c7_empty_stream_failure :
    (∀ (tsOpt : Option Int) (cost : Cost) (chunks : List ChatCompletionChunk),
        (∀ c ∈ chunks, c.choices = [] ∨
          ∃ ch rest, c.choices = ch :: rest ∧ ch.delta.content = none ∧ ch.delta.toolCalls = none) →
        openAIProcessStreamedResponse tsOpt cost chunks =
          .error (.unexpectedModelBehavior "Streamed response ended without content or tool calls")) ∧
    (∀ (ts : Int) (acc : String) (chunks : List String),
        (∀ (pre : List String) (c : String) (post : List String), chunks = pre ++ c :: post →
            ∃ rs, geminiStreamedValidateJson true (List.foldl (· ++ ·) acc (pre ++ [c])) = .ok rs ∧
              geminiHasClassifiableLast rs = false) →
        geminiPrimeGo ts acc chunks =
          .error (.unexpectedModelBehavior "Streamed response ended without content or tool calls")) := by
  constructor
  · intro tsOpt cost chunks
    induction chunks generalizing tsOpt cost with
    | nil => intro _; rfl
    | cons c rest ih =>
      intro h
      rcases h c (List.mem_cons_self c rest) with hc | ⟨ch, crest, hc, hcontent, htc⟩
      · rw [openAIProcessStreamedResponse, hc]
        exact ih _ _ fun x hx => h x (List.mem_cons_of_mem c hx)
      · rw [openAIProcessStreamedResponse, hc]
        simp only [hcontent, htc]
        exact ih _ _ fun x hx => h x (List.mem_cons_of_mem c hx)
  · intro ts acc chunks
    induction chunks generalizing acc with
    | nil => intro _; rfl
    | cons chunk rest ih =>
      intro h
      obtain ⟨rs, hok, hclass⟩ := h [] chunk rest rfl
      have hfold : List.foldl (· ++ ·) acc ([] ++ [chunk]) = acc ++ chunk := rfl
      rw [hfold] at hok
      rw [geminiPrimeGo]
      have hrest : ∀ (pre : List String) (c : String) (post : List String), rest = pre ++ c :: post →
          ∃ rs2, geminiStreamedValidateJson true (List.foldl (· ++ ·) (acc ++ chunk) (pre ++ [c])) = .ok rs2 ∧
            geminiHasClassifiableLast rs2 = false := by
        intro pre c post hsplit
        have := h (chunk :: pre) c post (by rw [hsplit]; rfl)
        rwa [show List.foldl (· ++ ·) acc ((chunk :: pre) ++ [c]) =
          List.foldl (· ++ ·) (acc ++ chunk) (pre ++ [c]) from rfl] at this
      simp only [hok]
      rw [geminiHasClassifiableLast] at hclass
      cases hlast : rs.getLast? with
      | none =>
        simp only [hlast] at hclass ⊢
        exact ih _ hrest
      | some last =>
        simp only [hlast] at hclass ⊢
        cases hcands : last.candidates with
        | nil =>
          simp only [hcands] at hclass ⊢
          exact ih _ hrest
        | cons cand crest =>
          simp only [hcands] at hclass ⊢
          simp only [hclass, Bool.false_eq_true, if_false]
          exact ih _ hrest

/-- Witness for C7: the empty OpenAI chunk stream and the Gemini stream
delivering only the opening bracket of the array both fail with the
protocol-violation error. -/
theorem c7_empty_stream_failure_witness :
    openAIProcessStreamedResponse none Cost.zero [] =
      .error (.unexpectedModelBehavior "Streamed response ended without content or tool calls") ∧
    geminiPrimeGo 3 "" ["["] =
      .error (.unexpectedModelBehavior "Streamed response ended without content or tool calls") := by
  constructor
  · exact c7_empty_stream_failure.1 none Cost.zero [] (by intro c hc; cases hc)
  · refine c7_empty_stream_failure.2 3 "" ["["] ?_
    intro pre c post hsplit
    cases pre with
    | nil =>
      rw [List.nil_append] at hsplit
      cases hsplit
      exact ⟨[], rfl, rfl⟩
    | cons p ps =>
      rw [List.cons_append] at hsplit
      injection hsplit with h1 h2
      cases ps <;> simp at h2

theorem geminiCombine_ok (responses : List GeminiResponse) (cost : Cost) (acc : List GeminiPart)
    (h : ∀ r ∈ responses, r.candidates ≠ []) :
    geminiCombine responses cost acc =
      .ok (List.foldl (fun c r => c.add (metadataAsCost r)) cost responses,
           acc ++ responses.flatMap geminiFirstCandidateParts) := by
  induction responses generalizing cost acc with
  | nil => simp [geminiCombine]
  | cons r rest ih =>
    cases hc : r.candidates with
    | nil =>
      exact absurd hc (h r (List.mem_cons_self r rest))
    | cons cand crest =>
      simp only [geminiCombine, hc]
      rw [ih _ _ fun x hx => h x (List.mem_cons_of_mem r hx)]
      simp [geminiFirstCandidateParts, hc, List.foldl]

/-- Claim C5 (amended): with `final=True`,
`GeminiStreamStructuredResponse.get` performs a strict parse — a buffer
that is not complete valid JSON propagates the parse failure (and the
same truncated buffer still succeeds in best-effort mode, returning only
complete elements). On a complete, valid buffer whose elements each have
at least one candidate and whose first-candidate parts are all text or
function calls, it returns one `ModelResponse` concatenating every
element's first-candidate parts, with cost recomputed from zero as the
sum of every element's usage metadata; an element with zero candidates
raises an index error and a function-response part raises
`UnexpectedModelBehavior` instead. -/
theorem c5_strict_final_materialization :
    (∀ (st : GeminiStreamStructuredState) (e : Err),
        fromJsonStrict st.content = .error e → geminiStructuredGet true st = .error e) ∧
    (∀ (st : GeminiStreamStructuredState) (responses : List GeminiResponse),
        geminiStreamedValidateJson false st.content = .ok responses →
        (∀ r ∈ responses, r.candidates ≠ []) →
        (responses.flatMap geminiFirstCandidateParts).all (fun p => !isFunctionResponsePart p) = true →
        geminiStructuredGet true st =
          .ok ({ parts := (responses.flatMap geminiFirstCandidateParts).map geminiPartToCanonical,
                 timestamp := st.timestamp },
               { st with cost := List.foldl (fun c r => c.add (metadataAsCost r)) Cost.zero responses })) ∧
    geminiStructuredGet true { content := "[\x7b\"candidates\":", timestamp := 9 } =
      .error (.validationError "Incomplete JSON document") ∧
    geminiStructuredGet false { content := "[\x7b\"candidates\":", timestamp := 9 } =
      .ok ({ parts := [], timestamp := 9 }, { content := "[\x7b\"candidates\":", timestamp := 9, cost := Cost.zero }) := by
  refine ⟨?_, ?_, rfl, rfl⟩
  · intro st e h
    rw [geminiStructuredGet, geminiStreamedValidateJson]
    simp only [Bool.not_true, Bool.false_eq_true, if_false, h, Except.bind, Bind.bind]
  · intro st responses hok hcands hnfr
    rw [geminiStructuredGet]
    simp only [Bool.not_true] at *
    rw [hok]
    simp only [Except.bind, Bind.bind]
    rw [geminiCombine_ok responses Cost.zero [] hcands]
    simp only [List.nil_append]
    rw [processResponseFromParts]
    rw [partsToItems_no_function_response _ [] hnfr]
    rfl

/-- Witness for C5: the complete two-element buffer materialises to both
elements' parts merged with cost the sum of both usages (1/2/3 plus
10/20/30). -/
theorem c5_strict_final_materialization_witness :
    geminiStructuredGet true { content := exGeminiArrayStr, timestamp := 9 } =
      .ok ({ parts := ([exGeminiResponse1, exGeminiResponse2].flatMap geminiFirstCandidateParts).map geminiPartToCanonical,
             timestamp := 9 },
           { content := exGeminiArrayStr, timestamp := 9,
             cost := List.foldl (fun c r => c.add (metadataAsCost r)) Cost.zero [exGeminiResponse1, exGeminiResponse2] }) := by
  refine c5_strict_final_materialization.2.1 { content := exGeminiArrayStr, timestamp := 9 }
    [exGeminiResponse1, exGeminiResponse2] rfl ?_ rfl
  intro r hr
  fin_cases hr
  · simp [exGeminiResponse1]
  · simp [exGeminiResponse2]

/-- Claim C5 counterexample: the claim says that on a complete buffer the
final materialisation returns the merged `ModelResponse`; but this
complete, valid buffer — whose single element has an empty candidates
list, which the wire schema allows — raises an index error instead. -/
theorem c5_counterexample :
    geminiStreamedValidateJson false c5ZeroCandContent = .ok [{ candidates := [] }] ∧
    geminiStructuredGet true { content := c5ZeroCandContent, timestamp := 1 } = .error .indexError :=
  ⟨rfl, rfl⟩

theorem fromJsonPartial_of_strict (s : String) (v : JVal) (h : fromJsonStrict s = .ok v) :
    fromJsonPartial s = .ok v := by
  rw [fromJsonStrict] at h
  rw [fromJsonPartial]
  cases hws : skipWs s.data with
  | nil => rw [hws] at h; exact absurd h (by simp)
  | cons c rest =>
    rw [hws] at h
    simp only [] at h ⊢
    by_cases hc : c = '['
    · rw [if_pos hc] at h ⊢
      cases hws2 : skipWs rest with
      | nil => rw [hws2] at h; exact absurd h (by simp)
      | cons c2 rest2 =>
        rw [hws2] at h
        simp only [] at h ⊢
        by_cases hc2 : c2 = ']'
        · rw [if_pos hc2] at h ⊢
          by_cases hemp : (skipWs rest2).isEmpty
          · rw [if_pos hemp] at h ⊢; exact h
          · rw [if_neg hemp] at h; exact absurd h (by simp)
        · rw [if_neg hc2] at h ⊢
          rcases hpe : parseElemsCore (jsonFuel s - 1) (c2 :: rest2) [] with ⟨elems, ee⟩
          cases ee with
          | closed rest3 =>
            rw [hpe] at h
            simp only [] at h ⊢
            by_cases hemp : (skipWs rest3).isEmpty
            · rw [if_pos hemp] at h ⊢; exact h
            · rw [if_neg hemp] at h; exact absurd h (by simp)
          | incomplete => rw [hpe] at h; exact absurd h (by simp)
          | malformed => rw [hpe] at h; exact absurd h (by simp)
    · rw [if_neg hc] at h ⊢
      exact h

theorem pySliceFrom_length (l : List α) : pySliceFrom l (l.length : Int) = [] := by
  rw [pySliceFrom, pyNormIndex]
  have h0 : ¬((l.length : Int) < 0) := by omega
  simp only [h0, if_false]
  have h1 : (l.length : Int).toNat = l.length := by omega
  rw [h1, Nat.min_self, List.drop_length]

theorem pySlice_start_ge (l : List α) (a b : Int) (ha : (l.length : Int) ≤ a) :
    pySlice l a b = [] := by
  rw [pySlice]
  have hn : pyNormIndex l.length a = l.length := by
    rw [pyNormIndex]
    have h0 : ¬(a < 0) := by omega
    simp only [h0, if_false]
    omega
  rw [hn]
  refine List.drop_eq_nil_of_le ?_
  rw [List.length_take]
  omega

theorem pySlice_lastStart_neg_one (l : List α) :
    pySlice l ((l.length : Int) - 1) (-1) = [] := by
  rw [pySlice]
  have hb : pyNormIndex l.length (-1) = l.length - 1 := by
    rw [pyNormIndex]
    simp only [if_pos (by omega : (-1 : Int) < 0)]
    omega
  have ha : pyNormIndex l.length ((l.length : Int) - 1) = l.length - 1 := by
    rw [pyNormIndex]
    by_cases h0 : (l.length : Int) - 1 < 0
    · simp only [h0, if_true]
      omega
    · simp only [h0, if_false]
      omega
  rw [hb, ha]
  refine List.drop_eq_nil_of_le ?_
  rw [List.length_take]
  omega

theorem geminiTextGet_ok_inv (final : Bool) (st st1 : GeminiStreamTextState) (out : List String)
    (h : geminiTextGet final st = .ok (out, st1)) :
    ∃ l, (if final then fromJsonStrict st.jsonContent else fromJsonPartial st.jsonContent) = .ok (.arr l) ∧
      st1.jsonContent = st.jsonContent ∧
      st1.position = (if final then (l.length : Int) else (l.length : Int) - 1) := by
  rw [geminiTextGet] at h
  cases hp : (if final then fromJsonStrict st.jsonContent else fromJsonPartial st.jsonContent) with
  | error e => rw [hp] at h; exact absurd h (by simp [Except.bind, Bind.bind])
  | ok pv =>
    rw [hp] at h
    simp only [Except.bind, Bind.bind] at h
    cases pv with
    | arr l =>
      refine ⟨l, rfl, ?_⟩
      simp only [pure, Except.pure] at h
      cases hm : (if final then pySliceFrom l st.position else pySlice l st.position (-1)).mapM validateGeminiResponse with
      | error e =>
        rw [hm] at h
        exact absurd h (by simp)
      | ok rs =>
        rw [hm] at h
        simp only [] at h
        cases he : geminiTextEmit rs st.cost [] with
        | error e => rw [he] at h; exact absurd h (by simp)
        | ok pr =>
          rw [he] at h
          simp only [] at h
          obtain ⟨cost2, texts⟩ := pr
          simp only [Except.ok.injEq, Prod.mk.injEq] at h
          rw [← h.2]
          exact ⟨rfl, rfl⟩
    | null => exact absurd h (by simp)
    | bool b => exact absurd h (by simp)
    | num n => exact absurd h (by simp)
    | str sv => exact absurd h (by simp)
    | obj kvs => exact absurd h (by simp)

theorem geminiTextGet_of_parse_empty (final : Bool) (st : GeminiStreamTextState) (l : List JVal)
    (hp : (if final then fromJsonStrict st.jsonContent else fromJsonPartial st.jsonContent) = .ok (.arr l))
    (hsl : (if final then pySliceFrom l st.position else pySlice l st.position (-1)) = []) :
    geminiTextGet final st =
      .ok ([], { st with position := if final then (l.length : Int) else (l.length : Int) - 1 }) := by
  rw [geminiTextGet, hp]
  simp only [Except.bind, Bind.bind, pure, Except.pure]
  rw [hsl]
  rfl

/-- Claim C9 (amended): a second `get()` without an intervening
`advance()`/`__anext__` never re-emits already-reported fragments, and
yields no fragments at all — except in the Gemini text accumulator when a
non-final get is followed by a final get, where the final call emits the
trailing element(s) the partial parse had held back. The OpenAI text
accumulator's second get is unconditionally empty; the Gemini second get
is empty whenever the mode pair is not (non-final, final). -/
theorem c9_materialisation_idempotence :
    (∀ (final1 final2 : Bool) (st : OpenAIStreamTextState),
        openAITextGet final2 (openAITextGet final1 st).2 = ([], (openAITextGet final1 st).2)) ∧
    (∀ (final1 final2 : Bool) (st st1 : GeminiStreamTextState) (out : List String),
        geminiTextGet final1 st = .ok (out, st1) → (final1 = true ∨ final2 = false) →
        ∃ st2, geminiTextGet final2 st1 = .ok ([], st2)) := by
  constructor
  · intro final1 final2 st
    rfl
  · intro final1 final2 st st1 out h hmode
    obtain ⟨l, hp, hjson, hpos⟩ := geminiTextGet_ok_inv final1 st st1 out h
    have hp2 : (if final2 then fromJsonStrict st1.jsonContent else fromJsonPartial st1.jsonContent) =
        .ok (.arr l) := by
      rw [hjson]
      cases final1 <;> cases final2
      · simpa using hp
      · rcases hmode with h1 | h2
        · cases h1
        · cases h2
      · simpa using fromJsonPartial_of_strict _ _ (by simpa using hp)
      · simpa using hp
    have hsl : (if final2 then pySliceFrom l st1.position else pySlice l st1.position (-1)) = [] := by
      rw [hpos]
      cases final1 <;> cases final2
      · simpa using pySlice_lastStart_neg_one l
      · rcases hmode with h1 | h2
        · cases h1
        · cases h2
      · simpa using pySlice_start_ge l (l.length : Int) (-1) le_rfl
      · simpa using pySliceFrom_length l
    exact ⟨_, geminiTextGet_of_parse_empty final2 st1 l hp2 hsl⟩

/-- Witness for C9: both conjuncts at concrete states — the OpenAI
accumulator with a buffered fragment, and the Gemini accumulator over the
complete one-element buffer after a final get. -/
theorem c9_materialisation_idempotence_witness :
    openAITextGet true (openAITextGet true { first := none, timestamp := 2, cost := Cost.zero, buffer := ["a"] }).2 =
      ([], (openAITextGet true { first := none, timestamp := 2, cost := Cost.zero, buffer := ["a"] }).2) ∧
    ∃ st2, geminiTextGet true c9St2 = .ok ([], st2) :=
  ⟨c9_materialisation_idempotence.1 true true { first := none, timestamp := 2, cost := Cost.zero, buffer := ["a"] },
   c9_materialisation_idempotence.2 true true c9St0 c9St2 ["hello"] rfl (Or.inl rfl)⟩

/-- Claim C9 counterexample: the claim says any second `get()` without an
intervening advance yields no new fragments; but on the complete
one-element buffer a non-final get reports nothing (holding back the
trailing element) and the immediately following final get — with no
advance in between — emits the fragment `"hello"`. -/
theorem c9_counterexample :
    geminiTextGet false c9St0 = .ok ([], c9St0) ∧
    geminiTextGet true c9St0 = .ok (["hello"], c9St2) ∧
    (["hello"] : List String) ≠ [] :=
  ⟨rfl, rfl, by simp⟩

theorem objHasKey_kvs3 (k : String) (kvs0 : List (String × JVal))
    (hk : k = "title" ∨ k = "default" ∨ k = "$ref") :
    objHasKey k (objRemove "$ref" (objRemove "default" (objRemove "title" kvs0))) = false := by
  rcases hk with hk | hk | hk <;> subst hk
  · rw [objHasKey_objRemove_other _ _ _ (by decide), objHasKey_objRemove_other _ _ _ (by decide)]
    exact objHasKey_objRemove_self _ _
  · rw [objHasKey_objRemove_other _ _ _ (by decide), objHasKey_objRemove_self]
  · exact objHasKey_objRemove_self _ _

theorem arrayItems_no_key (fuel : Nat) (defs : JVal) (stack : List String) (kvs : List (String × JVal))
    (out defs2 : JVal) (k : String)
    (h : arrayItems fuel defs stack kvs = .ok (out, defs2))
    (hkk : k ≠ "items") (hk : objHasKey k kvs = false) :
    ∃ kvs2, out = .obj kvs2 ∧ objHasKey k kvs2 = false := by
  cases fuel with
  | zero => exact absurd h (by simp [arrayItems])
  | succ fuel =>
    rw [arrayItems] at h
    cases hi : objGet "items" kvs with
    | none =>
      rw [hi] at h
      simp only [Except.ok.injEq, Prod.mk.injEq] at h
      exact ⟨kvs, h.1.symm, hk⟩
    | some iv =>
      rw [hi] at h
      simp only [] at h
      by_cases ht : jTruthy iv = true
      · rw [if_pos ht] at h
        cases hs : simplifyAux fuel defs stack iv with
        | error e => rw [hs] at h; exact absurd h (by simp)
        | ok pr =>
          rw [hs] at h
          simp only [Except.ok.injEq, Prod.mk.injEq] at h
          refine ⟨objSet "items" pr.1 kvs, h.1.symm, ?_⟩
          rw [objHasKey_objSet_other _ _ _ _ hkk]
          exact hk
      · rw [if_neg ht] at h
        simp only [Except.ok.injEq, Prod.mk.injEq] at h
        exact ⟨kvs, h.1.symm, hk⟩

theorem arrayAux_no_key (fuel : Nat) (defs : JVal) (stack : List String) (kvs : List (String × JVal))
    (out defs2 : JVal) (k : String)
    (h : arrayAux fuel defs stack kvs = .ok (out, defs2))
    (hkp : k ≠ "prefixItems") (hki : k ≠ "items") (hk : objHasKey k kvs = false) :
    ∃ kvs2, out = .obj kvs2 ∧ objHasKey k kvs2 = false := by
  cases fuel with
  | zero => exact absurd h (by simp [arrayAux])
  | succ fuel =>
    rw [arrayAux] at h
    cases hp : objGet "prefixItems" kvs with
    | none =>
      rw [hp] at h
      exact arrayItems_no_key fuel defs stack kvs out defs2 k h hki hk
    | some pv =>
      rw [hp] at h
      simp only [] at h
      by_cases ht : jTruthy pv = true
      · rw [if_pos ht] at h
        cases pv with
        | arr items =>
          simp only [] at h
          cases hl : simplifyListAux fuel defs stack items [] with
          | error e => rw [hl] at h; exact absurd h (by simp)
          | ok pr =>
            rw [hl] at h
            refine arrayItems_no_key fuel pr.2 stack _ out defs2 k h hki ?_
            rw [objHasKey_objSet_other _ _ _ _ hkp]
            exact hk
        | null => exact absurd h (by simp)
        | bool b => exact absurd h (by simp)
        | num n => exact absurd h (by simp)
        | str sv => exact absurd h (by simp)
        | obj kvs4 => exact absurd h (by simp)
      · rw [if_neg ht] at h
        exact arrayItems_no_key fuel defs stack kvs out defs2 k h hki hk

theorem objectProps_no_key (fuel : Nat) (defs : JVal) (stack : List String) (kvs : List (String × JVal))
    (out defs2 : JVal) (k : String)
    (h : objectProps fuel defs stack kvs = .ok (out, defs2))
    (hkp : k ≠ "properties") (hk : objHasKey k kvs = false) :
    ∃ kvs2, out = .obj kvs2 ∧ objHasKey k kvs2 = false := by
  cases fuel with
  | zero => exact absurd h (by simp [objectProps])
  | succ fuel =>
    rw [objectProps] at h
    cases hp : objGet "properties" kvs with
    | none =>
      rw [hp] at h
      simp only [Except.ok.injEq, Prod.mk.injEq] at h
      exact ⟨kvs, h.1.symm, hk⟩
    | some pv =>
      rw [hp] at h
      simp only [] at h
      by_cases ht : jTruthy pv = true
      · rw [if_pos ht] at h
        cases pv with
        | obj props =>
          simp only [] at h
          cases hm : simplifyMembersAux fuel defs stack props [] with
          | error e => rw [hm] at h; exact absurd h (by simp)
          | ok pr =>
            rw [hm] at h
            simp only [Except.ok.injEq, Prod.mk.injEq] at h
            refine ⟨objSet "properties" (.obj pr.1) kvs, h.1.symm, ?_⟩
            rw [objHasKey_objSet_other _ _ _ _ hkp]
            exact hk
        | null => exact absurd h (by simp)
        | bool b => exact absurd h (by simp)
        | num n => exact absurd h (by simp)
        | str sv => exact absurd h (by simp)
        | arr l => exact absurd h (by simp)
      · rw [if_neg ht] at h
        simp only [Except.ok.injEq, Prod.mk.injEq] at h
        exact ⟨kvs, h.1.symm, hk⟩

theorem objectAux_no_key (fuel : Nat) (defs : JVal) (stack : List String) (kvs : List (String × JVal))
    (out defs2 : JVal) (k : String)
    (h : objectAux fuel defs stack kvs = .ok (out, defs2))
    (hka : k ≠ "additionalProperties") (hkp : k ≠ "properties") (hk : objHasKey k kvs = false) :
    ∃ kvs2, out = .obj kvs2 ∧ objHasKey k kvs2 = false := by
  cases fuel with
  | zero => exact absurd h (by simp [objectAux])
  | succ fuel =>
    rw [objectAux] at h
    simp only [objPop] at h
    have hk1 : objHasKey k (objRemove "additionalProperties" kvs) = false := by
      rw [objHasKey_objRemove_other _ _ _ hka]; exact hk
    cases ha : objGet "additionalProperties" kvs with
    | none =>
      rw [ha] at h
      exact objectProps_no_key fuel defs stack _ out defs2 k h hkp hk1
    | some ad =>
      rw [ha] at h
      simp only [] at h
      by_cases ht : jTruthy ad = true
      · rw [if_pos ht] at h; exact absurd h (by simp)
      · rw [if_neg ht] at h
        exact objectProps_no_key fuel defs stack _ out defs2 k h hkp hk1

theorem dispatchTypeNode_no_key (fuel : Nat) (defs : JVal) (stack : List String) (kvs : List (String × JVal))
    (out defs2 : JVal) (k : String)
    (h : dispatchTypeNode fuel defs stack kvs = .ok (out, defs2))
    (hk3 : k = "title" ∨ k = "default" ∨ k = "$ref") (hk : objHasKey k kvs = false) :
    ∃ kvs2, out = .obj kvs2 ∧ objHasKey k kvs2 = false := by
  have hka : k ≠ "additionalProperties" := by rcases hk3 with h3 | h3 | h3 <;> subst h3 <;> decide
  have hkp : k ≠ "properties" := by rcases hk3 with h3 | h3 | h3 <;> subst h3 <;> decide
  have hkpi : k ≠ "prefixItems" := by rcases hk3 with h3 | h3 | h3 <;> subst h3 <;> decide
  have hki : k ≠ "items" := by rcases hk3 with h3 | h3 | h3 <;> subst h3 <;> decide
  cases fuel with
  | zero => exact absurd h (by simp [dispatchTypeNode])
  | succ fuel =>
    rw [dispatchTypeNode] at h
    cases htv : objGet "type" kvs with
    | none =>
      rw [htv] at h
      simp only [Except.ok.injEq, Prod.mk.injEq] at h
      exact ⟨kvs, h.1.symm, hk⟩
    | some tv =>
      rw [htv] at h
      cases tv with
      | str t =>
        simp only [] at h
        by_cases hobj : t = "object"
        · rw [if_pos hobj] at h
          exact objectAux_no_key fuel defs stack kvs out defs2 k h hka hkp hk
        · rw [if_neg hobj] at h
          by_cases harr : t = "array"
          · rw [if_pos harr] at h
            exact arrayAux_no_key fuel defs stack kvs out defs2 k h hkpi hki hk
          · rw [if_neg harr] at h
            simp only [Except.ok.injEq, Prod.mk.injEq] at h
            exact ⟨kvs, h.1.symm, hk⟩
      | null =>
        simp only [Except.ok.injEq, Prod.mk.injEq] at h
        exact ⟨kvs, h.1.symm, hk⟩
      | bool b =>
        simp only [Except.ok.injEq, Prod.mk.injEq] at h
        exact ⟨kvs, h.1.symm, hk⟩
      | num n =>
        simp only [Except.ok.injEq, Prod.mk.injEq] at h
        exact ⟨kvs, h.1.symm, hk⟩
      | arr l =>
        simp only [Except.ok.injEq, Prod.mk.injEq] at h
        exact ⟨kvs, h.1.symm, hk⟩
      | obj kvs4 =>
        simp only [Except.ok.injEq, Prod.mk.injEq] at h
        exact ⟨kvs, h.1.symm, hk⟩

theorem simplifyNoRef_no_key (fuel : Nat) (defs : JVal) (stack : List String) (kvs : List (String × JVal))
    (out defs2 : JVal) (k : String)
    (h : simplifyNoRef fuel defs stack kvs = .ok (out, defs2))
    (hk3 : k = "title" ∨ k = "default" ∨ k = "$ref") (hk : objHasKey k kvs = false) :
    ∃ kvs2, out = .obj kvs2 ∧ objHasKey k kvs2 = false := by
  have hkany : k ≠ "anyOf" := by rcases hk3 with h3 | h3 | h3 <;> subst h3 <;> decide
  cases fuel with
  | zero => exact absurd h (by simp [simplifyNoRef])
  | succ fuel =>
    rw [simplifyNoRef] at h
    cases hao : objGet "anyOf" kvs with
    | none =>
      rw [hao] at h
      exact dispatchTypeNode_no_key fuel defs stack kvs out defs2 k h hk3 hk
    | some av =>
      rw [hao] at h
      simp only [] at h
      by_cases ht : jTruthy av = true
      · rw [if_pos ht] at h
        cases av with
        | arr branches =>
          simp only [] at h
          cases hl : simplifyListAux fuel defs stack branches [] with
          | error e => rw [hl] at h; exact absurd h (by simp)
          | ok pr =>
            rw [hl] at h
            obtain ⟨branches2, defsB⟩ := pr
            simp only [] at h
            cases hlast : branches2.getLast? with
            | none =>
              rw [hlast] at h
              simp only [Except.ok.injEq, Prod.mk.injEq] at h
              refine ⟨objSet "anyOf" (.arr branches2) kvs, h.1.symm, ?_⟩
              rw [objHasKey_objSet_other _ _ _ _ hkany]
              exact hk
            | some lastB =>
              rw [hlast] at h
              simp only [] at h
              cases hd : dispatchType fuel defsB stack lastB with
              | error e => rw [hd] at h; exact absurd h (by simp)
              | ok pr2 =>
                rw [hd] at h
                obtain ⟨lastB2, defsC⟩ := pr2
                simp only [Except.ok.injEq, Prod.mk.injEq] at h
                refine ⟨objSet "anyOf" (.arr (branches2.dropLast ++ [lastB2])) kvs, h.1.symm, ?_⟩
                rw [objHasKey_objSet_other _ _ _ _ hkany]
                exact hk
        | null => exact absurd h (by simp)
        | bool b => exact absurd h (by simp)
        | num n => exact absurd h (by simp)
        | str sv => exact absurd h (by simp)
        | obj kvs4 => exact absurd h (by simp)
      · rw [if_neg ht] at h
        exact dispatchTypeNode_no_key fuel defs stack kvs out defs2 k h hk3 hk

theorem simplifyAux_top_keys : ∀ (fuel : Nat) (defs : JVal) (stack : List String) (v out defs2 : JVal),
    simplifyAux fuel defs stack v = .ok (out, defs2) →
    ∀ k, (k = "title" ∨ k = "default" ∨ k = "$ref") →
    ∃ kvs2, out = .obj kvs2 ∧ objHasKey k kvs2 = false := by
  intro fuel
  induction fuel with
  | zero =>
    intro defs stack v out defs2 h k hk3
    exact absurd h (by simp [simplifyAux])
  | succ fuel ih =>
    intro defs stack v out defs2 h k hk3
    cases v with
    | obj kvs0 =>
      rw [simplifyAux] at h
      simp only [objPop] at h
      have hkk := objHasKey_kvs3 k kvs0 hk3
      cases hr : objGet "$ref" (objRemove "default" (objRemove "title" kvs0)) with
      | none =>
        rw [hr] at h
        simp only [] at h
        exact simplifyNoRef_no_key fuel defs stack _ out defs2 k h hk3 hkk
      | some rv =>
        rw [hr] at h
        simp only [] at h
        by_cases ht : jTruthy rv = true
        · rw [if_pos ht] at h
          cases rv with
          | str ref =>
            simp only [] at h
            by_cases hs : stack.contains (stripDefsRef ref) = true
            · rw [if_pos hs] at h; exact absurd h (by simp)
            · rw [if_neg hs] at h
              cases hdl : defsLookup defs (stripDefsRef ref) with
              | error e => rw [hdl] at h; exact absurd h (by simp)
              | ok schemaDef =>
                rw [hdl] at h
                simp only [] at h
                cases hrec : simplifyAux fuel defs (stack ++ [stripDefsRef ref]) schemaDef with
                | error e => rw [hrec] at h; exact absurd h (by simp)
                | ok pr =>
                  rw [hrec] at h
                  obtain ⟨schemaDef2, defsB⟩ := pr
                  simp only [] at h
                  obtain ⟨dkvs, hdo, hdk⟩ :=
                    ih defs (stack ++ [stripDefsRef ref]) schemaDef schemaDef2 defsB hrec k hk3
                  subst hdo
                  simp only [Except.ok.injEq, Prod.mk.injEq] at h
                  refine ⟨objUpdate (objRemove "$ref" (objRemove "default" (objRemove "title" kvs0))) dkvs,
                    h.1.symm, ?_⟩
                  rw [objHasKey_objUpdate_absent k _ dkvs hdk]
                  exact hkk
          | null => exact absurd h (by simp)
          | bool b => exact absurd h (by simp)
          | num n => exact absurd h (by simp)
          | arr l => exact absurd h (by simp)
          | obj kvs4 => exact absurd h (by simp)
        · rw [if_neg ht] at h
          exact simplifyNoRef_no_key fuel defs stack _ out defs2 k h hk3 hkk
    | null => exact absurd h (by simp [simplifyAux])
    | bool b => exact absurd h (by simp [simplifyAux])
    | num n => exact absurd h (by simp [simplifyAux])
    | str sv => exact absurd h (by simp [simplifyAux])
    | arr l => exact absurd h (by simp [simplifyAux])

/-- Claim C3 (amended): a schema whose `$ref` chain revisits a definition
during inlining — in particular the A→B→A cycle — makes `simplify` fail
with the `UserError` about recursive refs; on success the returned
top-level node carries no `$ref`, `title` or `default` key (and the
`$defs` table was removed at construction). Stripped keys can survive at
nested nodes the simplifier never traverses, such as `properties` of a
node lacking `type: "object"`. -/
theorem c3_schema_simplifier :
    geminiJsonSchemaSimplify c3CycleSchema =
      .error (.userError "Recursive `$ref`s in JSON Schema are not supported by Gemini") ∧
    hasRefCycle c3CycleSchema = true ∧
    (∀ (s out : JVal), geminiJsonSchemaSimplify s = .ok out →
        ∃ kvs, out = .obj kvs ∧ objHasKey "title" kvs = false ∧ objHasKey "default" kvs = false ∧
          objHasKey "$ref" kvs = false) := by
  refine ⟨rfl, rfl, ?_⟩
  intro s out h
  cases s with
  | obj kvs =>
    rw [geminiJsonSchemaSimplify] at h
    simp only [objPop] at h
    cases hs : simplifyAux (simplifyFuel (.obj kvs)) ((objGet "$defs" kvs).getD (.obj []))
        [] (.obj (objRemove "$defs" kvs)) with
    | error e => rw [hs] at h; exact absurd h (by simp [Except.map])
    | ok pr =>
      rw [hs] at h
      simp only [Except.map, Except.ok.injEq] at h
      obtain ⟨kvs1, ho1, hk1⟩ := simplifyAux_top_keys _ _ _ _ _ _ hs "title" (Or.inl rfl)
      obtain ⟨kvs2, ho2, hk2⟩ := simplifyAux_top_keys _ _ _ _ _ _ hs "default" (Or.inr (Or.inl rfl))
      obtain ⟨kvs3, ho3, hk3⟩ := simplifyAux_top_keys _ _ _ _ _ _ hs "$ref" (Or.inr (Or.inr rfl))
      rw [ho1] at ho2 ho3
      cases ho2
      cases ho3
      exact ⟨kvs1, by rw [← h, ho1], hk1, hk2, hk3⟩
  | null => exact absurd h (by simp [geminiJsonSchemaSimplify])
  | bool b => exact absurd h (by simp [geminiJsonSchemaSimplify])
  | num n => exact absurd h (by simp [geminiJsonSchemaSimplify])
  | str sv => exact absurd h (by simp [geminiJsonSchemaSimplify])
  | arr l => exact absurd h (by simp [geminiJsonSchemaSimplify])

/-- Witness for C3: the universal conjunct at the concrete schema whose
simplification succeeds unchanged — its top level indeed carries none of
the stripped keys. -/
theorem c3_schema_simplifier_witness :
    ∃ kvs, c3SneakySchema = JVal.obj kvs ∧ objHasKey "title" kvs = false ∧
      objHasKey "default" kvs = false ∧ objHasKey "$ref" kvs = false :=
  c3_schema_simplifier.2.2 c3SneakySchema c3SneakySchema rfl

/-- Claim C3 counterexample: the claim says every acyclic schema
simplifies with no `title` key anywhere in the output; this acyclic
schema (no `$defs`, no `$ref` at all) is returned entirely unchanged,
nested `title` included, because its `properties` sit under a node with
no `type: "object"` and are never traversed. -/
theorem c3_counterexample :
    hasRefCycle c3SneakySchema = false ∧
    geminiJsonSchemaSimplify c3SneakySchema = .ok c3SneakySchema ∧
    jvalHasKeyDeep "title" c3SneakySchema = true :=
  ⟨rfl, rfl, rfl⟩


theorem lookup_cons_nat (k : Nat) (v : HNode) (rest : List (Nat × HNode)) (a : Nat) :
    ((k, v) :: rest).lookup a = if a = k then some v else rest.lookup a := by
  rw [List.lookup]
  by_cases he : a = k
  · have hb : (a == k) = true := by simp [he]
    rw [hb, if_pos he]
  · have hb : (a == k) = false := by simp [he]
    rw [hb, if_neg he]

theorem lookup_mem_nat (l : List (Nat × HNode)) (a : Nat) (n : HNode)
    (h : l.lookup a = some n) : (a, n) ∈ l := by
  induction l with
  | nil => cases h
  | cons p rest ih =>
    obtain ⟨k, v⟩ := p
    rw [lookup_cons_nat] at h
    by_cases he : a = k
    · rw [if_pos he] at h
      cases h
      cases he
      exact List.mem_cons_self _ _
    · rw [if_neg he] at h
      exact List.mem_cons_of_mem _ (ih h)

theorem lookup_append_nat (l1 l2 : List (Nat × HNode)) (a : Nat) :
    (l1 ++ l2).lookup a =
      match l1.lookup a with
      | some v => some v
      | none => l2.lookup a := by
  induction l1 with
  | nil => simp [List.lookup]
  | cons p rest ih =>
    obtain ⟨k, v⟩ := p
    rw [List.cons_append, lookup_cons_nat, lookup_cons_nat]
    by_cases he : a = k
    · rw [if_pos he, if_pos he]
    · rw [if_neg he, if_neg he, ih]

theorem heap_next_set (h : Heap) (a : Nat) (n : HNode) : (h.set a n).next = h.next := rfl

theorem map_set_cons (f : Nat × HNode → Nat × HNode) (p : Nat × HNode)
    (rest : List (Nat × HNode)) : (p :: rest).map f = f p :: rest.map f := rfl

theorem heap_get_set_other (h : Heap) (a a' : Nat) (n : HNode) (hne : a' ≠ a) :
    (h.set a n).get a' = h.get a' := by
  show (h.data.map fun p => if p.1 = a then (a, n) else p).lookup a' = h.data.lookup a'
  induction h.data with
  | nil => rfl
  | cons p rest ih =>
    obtain ⟨k, v⟩ := p
    rw [map_set_cons]
    by_cases hk : k = a
    · have : (if ((k, v) : Nat × HNode).1 = a then (a, n) else (k, v)) = (a, n) := by
        simp [hk]
      rw [this, lookup_cons_nat, lookup_cons_nat, if_neg hne, if_neg fun hh => hne (hk ▸ hh), ih]
    · have : (if ((k, v) : Nat × HNode).1 = a then (a, n) else (k, v)) = (k, v) := by
        simp [hk]
      rw [this, lookup_cons_nat, lookup_cons_nat]
      by_cases he : a' = k
      · rw [if_pos he, if_pos he]
      · rw [if_neg he, if_neg he, ih]

theorem heap_get_set_self (h : Heap) (a : Nat) (n : HNode) :
    (h.set a n).get a = (h.get a).map fun _ => n := by
  show (h.data.map fun p => if p.1 = a then (a, n) else p).lookup a = (h.data.lookup a).map _
  induction h.data with
  | nil => rfl
  | cons p rest ih =>
    obtain ⟨k, v⟩ := p
    rw [map_set_cons]
    by_cases hk : k = a
    · have : (if ((k, v) : Nat × HNode).1 = a then (a, n) else (k, v)) = (a, n) := by
        simp [hk]
      rw [this, lookup_cons_nat, lookup_cons_nat, if_pos rfl, if_pos hk.symm]
      rfl
    · have : (if ((k, v) : Nat × HNode).1 = a then (a, n) else (k, v)) = (k, v) := by
        simp [hk]
      rw [this, lookup_cons_nat, lookup_cons_nat]
      by_cases he : a = k
      · exact absurd he.symm hk
      · rw [if_neg he, if_neg he, ih]

theorem wf_lookup_ge (h : Heap) (hwf : heapWF h) (a : Nat) (ha : h.next ≤ a) :
    h.data.lookup a = none := by
  cases hg : h.data.lookup a with
  | none => rfl
  | some n =>
    have hlt : a < h.next := (hwf _ (lookup_mem_nat _ _ _ hg)).1
    omega

theorem heap_get_alloc_lt (h : Heap) (n : HNode) (a : Nat) (ha : a < h.next) :
    (h.alloc n).1.get a = h.get a := by
  show (h.data ++ [(h.next, n)]).lookup a = h.data.lookup a
  rw [lookup_append_nat]
  have hne : ¬a = h.next := by omega
  cases hg : h.data.lookup a with
  | some v => rfl
  | none =>
    show [(h.next, n)].lookup a = none
    rw [lookup_cons_nat, if_neg hne]
    rfl

theorem heap_get_alloc_self (h : Heap) (n : HNode) (hwf : heapWF h) :
    (h.alloc n).1.get h.next = some n := by
  show (h.data ++ [(h.next, n)]).lookup h.next = some n
  rw [lookup_append_nat, wf_lookup_ge h hwf h.next (Nat.le_refl _), lookup_cons_nat, if_pos rfl]

theorem heap_get_alloc_ge (h : Heap) (n : HNode) (a : Nat) (hwf : heapWF h)
    (ha : h.next < a) : (h.alloc n).1.get a = none := by
  show (h.data ++ [(h.next, n)]).lookup a = none
  have hge : h.next ≤ a := by omega
  have hne : ¬a = h.next := by omega
  rw [lookup_append_nat, wf_lookup_ge h hwf a hge, lookup_cons_nat, if_neg hne]
  rfl

theorem wf_set (h : Heap) (a : Nat) (n : HNode) (hwf : heapWF h)
    (hch : ∀ b ∈ nodeAddrs n, b < h.next) : heapWF (h.set a n) := by
  intro p hp
  rw [Heap.set] at hp
  simp only [List.mem_map] at hp
  obtain ⟨q, hq, hqe⟩ := hp
  by_cases hqa : q.1 = a
  · rw [if_pos hqa] at hqe
    subst hqe
    exact ⟨hqa ▸ (hwf q hq).1, hch⟩
  · rw [if_neg hqa] at hqe
    subst hqe
    exact hwf q hq

theorem wf_alloc (h : Heap) (n : HNode) (hwf : heapWF h)
    (hch : ∀ b ∈ nodeAddrs n, b < h.next + 1) : heapWF (h.alloc n).1 := by
  intro p hp
  show p.1 < h.next + 1 ∧ ∀ b ∈ nodeAddrs p.2, b < h.next + 1
  rw [Heap.alloc] at hp
  simp only [List.mem_append, List.mem_singleton] at hp
  cases hp with
  | inl hp =>
    have h1 : p.1 < h.next := (hwf p hp).1
    refine ⟨by omega, fun b hb => ?_⟩
    have h2 : b < h.next := (hwf p hp).2 b hb
    omega
  | inr hp =>
    subst hp
    exact ⟨by omega, hch⟩

theorem wf_regionClosed (h : Heap) (hwf : heapWF h) : regionClosed h h.next := by
  intro a n ha hg
  have := (hwf _ (lookup_mem_nat _ _ _ hg)).1
  omega

theorem regionClosed_set (h : Heap) (W : Nat) (a : Nat) (n : HNode)
    (hrc : regionClosed h W) (ha : W ≤ a) (hch : ∀ b ∈ nodeAddrs n, W ≤ b) :
    regionClosed (h.set a n) W := by
  intro a' n' ha' hg b hb
  by_cases he : a' = a
  · subst he
    rw [heap_get_set_self] at hg
    cases ho : h.get a' with
    | none => rw [ho] at hg; cases hg
    | some m =>
      rw [ho] at hg
      cases hg
      exact hch b hb
  · rw [heap_get_set_other _ _ _ _ he] at hg
    exact hrc a' n' ha' hg b hb

theorem regionClosed_alloc (h : Heap) (W : Nat) (n : HNode) (hwf : heapWF h)
    (hrc : regionClosed h W) (hch : ∀ b ∈ nodeAddrs n, W ≤ b) :
    regionClosed (h.alloc n).1 W := by
  intro a' n' ha' hg b hb
  rcases Nat.lt_trichotomy a' h.next with hlt | heq | hgt
  · rw [heap_get_alloc_lt _ _ _ hlt] at hg
    exact hrc a' n' ha' hg b hb
  · subst heq
    rw [heap_get_alloc_self _ _ hwf] at hg
    cases hg
    exact hch b hb
  · rw [heap_get_alloc_ge _ _ _ hwf hgt] at hg
    cases hg

theorem agreesBelow_refl (h : Heap) (W : Nat) : heapAgreesBelow h h W :=
  fun _ _ => rfl

theorem agreesBelow_trans {h1 h2 h3 : Heap} {W : Nat} (a12 : heapAgreesBelow h2 h1 W)
    (a23 : heapAgreesBelow h3 h2 W) : heapAgreesBelow h3 h1 W :=
  fun a ha => (a23 a ha).trans (a12 a ha)

theorem agreesBelow_set (h : Heap) (W : Nat) (a : Nat) (n : HNode) (ha : W ≤ a) :
    heapAgreesBelow (h.set a n) h W := by
  intro a' ha'
  exact heap_get_set_other h a a' n (by omega)

theorem agreesBelow_alloc (h : Heap) (n : HNode) (W : Nat) (hW : W ≤ h.next) :
    heapAgreesBelow (h.alloc n).1 h W := by
  intro a' ha'
  exact heap_get_alloc_lt h n a' (by omega)

theorem agreesBelow_mono {h2 h : Heap} {W W' : Nat} (hle : W' ≤ W)
    (hag : heapAgreesBelow h2 h W) : heapAgreesBelow h2 h W' := by
  intro a ha
  exact hag a (by omega)

theorem aGet_mem (k : String) (l : List (String × Nat)) (v : Nat)
    (h : aGet k l = some v) : v ∈ l.map (·.2) := by
  induction l with
  | nil => cases h
  | cons p rest ih =>
    obtain ⟨k', v'⟩ := p
    rw [aGet] at h
    by_cases he : k' = k
    · rw [if_pos he] at h
      cases h
      exact List.mem_cons_self _ _
    · rw [if_neg he] at h
      exact List.mem_cons_of_mem _ (ih h)

theorem aRemove_sub (k : String) (l : List (String × Nat)) (b : Nat)
    (h : b ∈ (aRemove k l).map (·.2)) : b ∈ l.map (·.2) := by
  rw [aRemove] at h
  simp only [List.mem_map] at h ⊢
  obtain ⟨p, hp, he⟩ := h
  exact ⟨p, (List.mem_filter.mp hp).1, he⟩

theorem aSet_sub (k : String) (v : Nat) (l : List (String × Nat)) (b : Nat)
    (h : b ∈ (aSet k v l).map (·.2)) : b ∈ l.map (·.2) ∨ b = v := by
  rw [aSet] at h
  by_cases hs : (aGet k l).isSome
  · rw [if_pos hs] at h
    simp only [List.map_map, List.mem_map, Function.comp] at h
    obtain ⟨p, hp, he⟩ := h
    by_cases hk : p.1 = k
    · rw [if_pos hk] at he
      right
      exact he.symm
    · rw [if_neg hk] at he
      left
      exact List.mem_map.mpr ⟨p, hp, he⟩
  · rw [if_neg hs] at h
    simp only [List.map_append, List.mem_append, List.map_cons, List.map_nil,
      List.mem_singleton] at h
    cases h with
    | inl h => exact Or.inl h
    | inr h => exact Or.inr h

theorem aUpdate_sub (l other : List (String × Nat)) (b : Nat)
    (h : b ∈ (aUpdate l other).map (·.2)) : b ∈ l.map (·.2) ∨ b ∈ other.map (·.2) := by
  rw [aUpdate] at h
  induction other generalizing l with
  | nil => exact Or.inl h
  | cons p rest ih =>
    rw [List.foldl_cons] at h
    rcases ih (aSet p.1 p.2 l) h with hin | hin
    · rcases aSet_sub p.1 p.2 l b hin with hin' | hin'
      · exact Or.inl hin'
      · right
        rw [hin']
        exact List.mem_cons_self _ _
    · right
      exact List.mem_cons_of_mem _ hin

/-- The frame contract every heap-level simplifier step satisfies relative
to a watermark `W`: addresses below `W` are untouched, nodes at or above
`W` keep their children at or above `W`, and no allocation happens. -/
def simpFrame (W : Nat) (h h2 : Heap) : Prop :=
  heapAgreesBelow h2 h W ∧ regionClosed h2 W ∧ h2.next = h.next

theorem simpFrame_refl (h : Heap) (W : Nat) (hrc : regionClosed h W) : simpFrame W h h :=
  ⟨agreesBelow_refl h W, hrc, rfl⟩

theorem simpFrame_trans {W : Nat} {h h1 h2 : Heap} (f1 : simpFrame W h h1)
    (f2 : simpFrame W h1 h2) : simpFrame W h h2 :=
  ⟨agreesBelow_trans f1.1 f2.1, f2.2.1, f2.2.2.trans f1.2.2⟩

theorem simpFrame_set (h : Heap) (W : Nat) (a : Nat) (n : HNode)
    (hrc : regionClosed h W) (ha : W ≤ a) (hch : ∀ b ∈ nodeAddrs n, W ≤ b) :
    simpFrame W h (h.set a n) :=
  ⟨agreesBelow_set h W a n ha, regionClosed_set h W a n hrc ha hch, rfl⟩

theorem alloc_fst_next (h : Heap) (n : HNode) : (h.alloc n).1.next = h.next + 1 := rfl

theorem alloc_snd (h : Heap) (n : HNode) : (h.alloc n).2 = h.next := rfl

/-- Post-conditions of a single fresh allocation whose children lie in
the already-copied region. -/
theorem allocPost (h : Heap) (n : HNode) (hwf : heapWF h) (hrc : regionClosed h W)
    (hWn : W ≤ h.next) (hch : ∀ b ∈ nodeAddrs n, W ≤ b ∧ b < h.next) :
    heapWF (h.alloc n).1 ∧ regionClosed (h.alloc n).1 W ∧
      heapAgreesBelow (h.alloc n).1 h h.next ∧ h.next ≤ (h.alloc n).1.next ∧
      W ≤ (h.alloc n).2 ∧ (h.alloc n).2 < (h.alloc n).1.next := by
  refine ⟨wf_alloc h n hwf (fun b hb => by have := (hch b hb).2; omega),
    regionClosed_alloc h W n hwf hrc (fun b hb => (hch b hb).1),
    agreesBelow_alloc h n h.next (Nat.le_refl _),
    by rw [alloc_fst_next]; omega,
    by rw [alloc_snd]; omega,
    by rw [alloc_snd, alloc_fst_next]; omega⟩

/-- `deepcopy` frame bundle: the copy touches no existing address, all
fresh nodes keep their children fresh, the watermark only grows, and the
returned address is fresh. -/
theorem dc_bundle (W : Nat) : ∀ fuel : Nat,
    (∀ h a p, heapWF h → regionClosed h W → W ≤ h.next →
      deepcopyH fuel h a = some p →
      heapWF p.1 ∧ regionClosed p.1 W ∧ heapAgreesBelow p.1 h h.next ∧
        h.next ≤ p.1.next ∧ W ≤ p.2 ∧ p.2 < p.1.next) ∧
    (∀ h l p, heapWF h → regionClosed h W → W ≤ h.next →
      deepcopyListH fuel h l = some p →
      heapWF p.1 ∧ regionClosed p.1 W ∧ heapAgreesBelow p.1 h h.next ∧
        h.next ≤ p.1.next ∧ ∀ c ∈ p.2, W ≤ c ∧ c < p.1.next) ∧
    (∀ h kvs p, heapWF h → regionClosed h W → W ≤ h.next →
      deepcopyMembersH fuel h kvs = some p →
      heapWF p.1 ∧ regionClosed p.1 W ∧ heapAgreesBelow p.1 h h.next ∧
        h.next ≤ p.1.next ∧ ∀ c ∈ p.2.map (·.2), W ≤ c ∧ c < p.1.next) := by
  intro fuel
  induction fuel with
  | zero =>
    refine ⟨fun h a p _ _ _ hdc => absurd hdc (by simp [deepcopyH]),
      fun h l p _ _ _ hdc => absurd hdc (by simp [deepcopyListH]),
      fun h kvs p _ _ _ hdc => absurd hdc (by simp [deepcopyMembersH])⟩
  | succ fuel ih =>
    obtain ⟨ihV, ihL, ihM⟩ := ih
    have V : ∀ h a p, heapWF h → regionClosed h W → W ≤ h.next →
        deepcopyH (fuel + 1) h a = some p →
        heapWF p.1 ∧ regionClosed p.1 W ∧ heapAgreesBelow p.1 h h.next ∧
          h.next ≤ p.1.next ∧ W ≤ p.2 ∧ p.2 < p.1.next := by
      intro h a p hwf hrc hWn hdc
      rw [deepcopyH] at hdc
      cases hga : h.get a with
      | none => rw [hga] at hdc; cases hdc
      | some node =>
        rw [hga] at hdc
        cases node with
        | obj kvs =>
          simp only [] at hdc
          cases hm : deepcopyMembersH fuel h kvs with
          | none => rw [hm] at hdc; cases hdc
          | some q =>
            rw [hm] at hdc
            simp only [Option.some.injEq] at hdc
            subst hdc
            obtain ⟨wf2, rc2, ag2, nx2, ch2⟩ := ihM h kvs q hwf hrc hWn hm
            have hch : ∀ b ∈ nodeAddrs (HNode.obj q.2), W ≤ b ∧ b < q.1.next := by
              intro b hb
              exact ch2 b hb
            obtain ⟨awf, arc, aag, anx, aW, alt⟩ :=
              allocPost q.1 (HNode.obj q.2) wf2 rc2 (by omega) hch
            exact ⟨awf, arc,
              agreesBelow_trans ag2 (agreesBelow_mono nx2 aag), by omega, aW, alt⟩
        | arr l =>
          simp only [] at hdc
          cases hm : deepcopyListH fuel h l with
          | none => rw [hm] at hdc; cases hdc
          | some q =>
            rw [hm] at hdc
            simp only [Option.some.injEq] at hdc
            subst hdc
            obtain ⟨wf2, rc2, ag2, nx2, ch2⟩ := ihL h l q hwf hrc hWn hm
            have hch : ∀ b ∈ nodeAddrs (HNode.arr q.2), W ≤ b ∧ b < q.1.next := by
              intro b hb
              exact ch2 b hb
            obtain ⟨awf, arc, aag, anx, aW, alt⟩ :=
              allocPost q.1 (HNode.arr q.2) wf2 rc2 (by omega) hch
            exact ⟨awf, arc,
              agreesBelow_trans ag2 (agreesBelow_mono nx2 aag), by omega, aW, alt⟩
        | null =>
          simp only [Option.some.injEq] at hdc
          subst hdc
          exact allocPost h .null hwf hrc hWn (fun b hb => absurd hb (by simp [nodeAddrs]))
        | bool bv =>
          simp only [Option.some.injEq] at hdc
          subst hdc
          exact allocPost h (.bool bv) hwf hrc hWn (fun b hb => absurd hb (by simp [nodeAddrs]))
        | num nv =>
          simp only [Option.some.injEq] at hdc
          subst hdc
          exact allocPost h (.num nv) hwf hrc hWn (fun b hb => absurd hb (by simp [nodeAddrs]))
        | str sv =>
          simp only [Option.some.injEq] at hdc
          subst hdc
          exact allocPost h (.str sv) hwf hrc hWn (fun b hb => absurd hb (by simp [nodeAddrs]))
    have L : ∀ h l p, heapWF h → regionClosed h W → W ≤ h.next →
        deepcopyListH (fuel + 1) h l = some p →
        heapWF p.1 ∧ regionClosed p.1 W ∧ heapAgreesBelow p.1 h h.next ∧
          h.next ≤ p.1.next ∧ ∀ c ∈ p.2, W ≤ c ∧ c < p.1.next := by
      intro h l
      induction l generalizing h with
      | nil =>
        intro p hwf hrc hWn hdc
        rw [deepcopyListH] at hdc
        simp only [Option.some.injEq] at hdc
        subst hdc
        exact ⟨hwf, hrc, agreesBelow_refl _ _, Nat.le_refl _,
          fun c hc => absurd hc (by simp)⟩
      | cons a rest ihrest =>
        intro p hwf hrc hWn hdc
        rw [deepcopyListH] at hdc
        cases hm : deepcopyH fuel h a with
        | none => rw [hm] at hdc; cases hdc
        | some q =>
          rw [hm] at hdc
          simp only [] at hdc
          cases hr : deepcopyListH (fuel + 1) q.1 rest with
          | none => rw [hr] at hdc; cases hdc
          | some r =>
            rw [hr] at hdc
            simp only [Option.some.injEq] at hdc
            subst hdc
            dsimp only
            obtain ⟨wf2, rc2, ag2, nx2, hW2, hlt2⟩ := ihV h a q hwf hrc hWn hm
            obtain ⟨wf3, rc3, ag3, nx3, ch3⟩ := ihrest q.1 r wf2 rc2 (by omega) hr
            refine ⟨wf3, rc3, agreesBelow_trans ag2 (agreesBelow_mono nx2 ag3),
              by omega, ?_⟩
            intro c hc
            simp only [List.mem_cons] at hc
            cases hc with
            | inl hc => subst hc; exact ⟨hW2, by omega⟩
            | inr hc => exact ch3 c hc
    have M : ∀ h kvs p, heapWF h → regionClosed h W → W ≤ h.next →
        deepcopyMembersH (fuel + 1) h kvs = some p →
        heapWF p.1 ∧ regionClosed p.1 W ∧ heapAgreesBelow p.1 h h.next ∧
          h.next ≤ p.1.next ∧ ∀ c ∈ p.2.map (·.2), W ≤ c ∧ c < p.1.next := by
      intro h kvs
      induction kvs generalizing h with
      | nil =>
        intro p hwf hrc hWn hdc
        rw [deepcopyMembersH] at hdc
        simp only [Option.some.injEq] at hdc
        subst hdc
        exact ⟨hwf, hrc, agreesBelow_refl _ _, Nat.le_refl _,
          fun c hc => absurd hc (by simp)⟩
      | cons kv rest ihrest =>
        intro p hwf hrc hWn hdc
        obtain ⟨k, a⟩ := kv
        rw [deepcopyMembersH] at hdc
        cases hm : deepcopyH fuel h a with
        | none => rw [hm] at hdc; cases hdc
        | some q =>
          rw [hm] at hdc
          simp only [] at hdc
          cases hr : deepcopyMembersH (fuel + 1) q.1 rest with
          | none => rw [hr] at hdc; cases hdc
          | some r =>
            rw [hr] at hdc
            simp only [Option.some.injEq] at hdc
            subst hdc
            dsimp only
            obtain ⟨wf2, rc2, ag2, nx2, hW2, hlt2⟩ := ihV h a q hwf hrc hWn hm
            obtain ⟨wf3, rc3, ag3, nx3, ch3⟩ := ihrest q.1 r wf2 rc2 (by omega) hr
            refine ⟨wf3, rc3, agreesBelow_trans ag2 (agreesBelow_mono nx2 ag3),
              by omega, ?_⟩
            intro c hc
            simp only [List.map_cons, List.mem_cons] at hc
            cases hc with
            | inl hc => subst hc; exact ⟨hW2, by omega⟩
            | inr hc => exact ch3 c (List.mem_map.mpr (List.mem_map.mp hc))
    exact ⟨V, L, M⟩

theorem heapAsObj_get (h : Heap) (a : Nat) (kvs : List (String × Nat))
    (hh : heapAsObj h a = .ok kvs) : h.get a = some (.obj kvs) := by
  rw [heapAsObj] at hh
  cases hg : h.get a with
  | none => rw [hg] at hh; cases hh
  | some node =>
    rw [hg] at hh
    cases node with
    | obj kvs' =>
      simp only [Except.ok.injEq] at hh
      rw [hh]
    | null => cases hh
    | bool b => cases hh
    | num n => cases hh
    | str s => cases hh
    | arr l => cases hh

theorem rc_obj_children {h : Heap} {W a : Nat} {kvs : List (String × Nat)}
    (hrc : regionClosed h W) (ha : W ≤ a) (hg : h.get a = some (.obj kvs)) :
    ∀ b ∈ kvs.map (·.2), W ≤ b :=
  fun b hb => hrc a _ ha hg b hb

theorem rc_arr_children {h : Heap} {W a : Nat} {l : List Nat}
    (hrc : regionClosed h W) (ha : W ≤ a) (hg : h.get a = some (.arr l)) :
    ∀ b ∈ l, W ≤ b :=
  fun b hb => hrc a _ ha hg b hb

theorem defsLookupH_ge (h : Heap) (defsA : Nat) (key : String) (d : Nat) (W : Nat)
    (hrc : regionClosed h W) (hdefs : W ≤ defsA)
    (hdl : defsLookupH h defsA key = .ok d) : W ≤ d := by
  rw [defsLookupH] at hdl
  cases hg : h.get defsA with
  | none => rw [hg] at hdl; cases hdl
  | some node =>
    rw [hg] at hdl
    cases node with
    | obj kvs =>
      simp only [] at hdl
      cases hak : aGet key kvs with
      | none => rw [hak] at hdl; cases hdl
      | some v =>
        rw [hak] at hdl
        simp only [Except.ok.injEq] at hdl
        subst hdl
        exact rc_obj_children hrc hdefs hg v (aGet_mem key kvs v hak)
    | null => cases hdl
    | bool b => cases hdl
    | num n => cases hdl
    | str s => cases hdl
    | arr l => cases hdl

theorem mem_of_getLast_opt {α : Type} (l : List α) (a : α) (h : l.getLast? = some a) :
    a ∈ l := by
  induction l with
  | nil => cases h
  | cons x rest ih =>
    cases rest with
    | nil =>
      rw [List.getLast?_singleton] at h
      cases h
      exact List.mem_singleton.mpr rfl
    | cons y rest' =>
      rw [List.getLast?_cons_cons] at h
      exact List.mem_cons_of_mem _ (ih h)

/-- Frame bundle of the heap-level simplifier: every step leaves all
addresses below the watermark untouched, keeps the fresh region closed
and allocates nothing. -/
theorem simplifyH_frame (W : Nat) : ∀ fuel : Nat,
    (∀ defsA stack a h, W ≤ defsA → W ≤ a → regionClosed h W →
      simpFrame W h (simplifyAuxH fuel defsA stack a h).2) ∧
    (∀ defsA stack a h, W ≤ defsA → W ≤ a → regionClosed h W →
      simpFrame W h (simplifyNoRefH fuel defsA stack a h).2) ∧
    (∀ defsA stack a h, W ≤ defsA → W ≤ a → regionClosed h W →
      simpFrame W h (dispatchTypeH fuel defsA stack a h).2) ∧
    (∀ defsA stack a h, W ≤ defsA → W ≤ a → regionClosed h W →
      simpFrame W h (objectAuxH fuel defsA stack a h).2) ∧
    (∀ defsA stack a h, W ≤ defsA → W ≤ a → regionClosed h W →
      simpFrame W h (objectPropsH fuel defsA stack a h).2) ∧
    (∀ defsA stack a h, W ≤ defsA → W ≤ a → regionClosed h W →
      simpFrame W h (arrayAuxH fuel defsA stack a h).2) ∧
    (∀ defsA stack a h, W ≤ defsA → W ≤ a → regionClosed h W →
      simpFrame W h (arrayItemsH fuel defsA stack a h).2) ∧
    (∀ defsA stack l h, W ≤ defsA → (∀ c ∈ l, W ≤ c) → regionClosed h W →
      simpFrame W h (simplifyListH fuel defsA stack l h).2) := by
  intro fuel
  induction fuel with
  | zero =>
    refine ⟨?_, ?_, ?_, ?_, ?_, ?_, ?_, ?_⟩
    · intro defsA stack a h _ _ hrc
      rw [simplifyAuxH]
      exact simpFrame_refl h W hrc
    · intro defsA stack a h _ _ hrc
      rw [simplifyNoRefH]
      exact simpFrame_refl h W hrc
    · intro defsA stack a h _ _ hrc
      rw [dispatchTypeH]
      exact simpFrame_refl h W hrc
    · intro defsA stack a h _ _ hrc
      rw [objectAuxH]
      exact simpFrame_refl h W hrc
    · intro defsA stack a h _ _ hrc
      rw [objectPropsH]
      exact simpFrame_refl h W hrc
    · intro defsA stack a h _ _ hrc
      rw [arrayAuxH]
      exact simpFrame_refl h W hrc
    · intro defsA stack a h _ _ hrc
      rw [arrayItemsH]
      exact simpFrame_refl h W hrc
    · intro defsA stack l h _ _ hrc
      rw [simplifyListH]
      exact simpFrame_refl h W hrc
  | succ fuel ih =>
    obtain ⟨ihA, ihN, ihD, ihO, ihP, ihR, ihI, ihL⟩ := ih
    refine ⟨?_, ?_, ?_, ?_, ?_, ?_, ?_, ?_⟩
    · -- simplifyAuxH
      intro defsA stack a h hdefs ha hrc
      rw [simplifyAuxH]
      cases ho : heapAsObj h a with
      | error e => exact simpFrame_refl h W hrc
      | ok kvs0 =>
        simp only []
        have hget : h.get a = some (.obj kvs0) := heapAsObj_get h a kvs0 ho
        have hch0 : ∀ b ∈ kvs0.map (·.2), W ≤ b := rc_obj_children hrc ha hget
        have hch3 : ∀ b ∈ nodeAddrs
            (HNode.obj (aRemove "$ref" (aRemove "default" (aRemove "title" kvs0)))), W ≤ b := by
          intro b hb
          exact hch0 b (aRemove_sub _ _ _ (aRemove_sub _ _ _ (aRemove_sub _ _ _ hb)))
        have f1 : simpFrame W h
            (h.set a (HNode.obj (aRemove "$ref" (aRemove "default" (aRemove "title" kvs0))))) :=
          simpFrame_set h W a _ hrc ha hch3
        have hrc1 := f1.2.1
        cases hro : aGet "$ref" (aRemove "default" (aRemove "title" kvs0)) with
        | none =>
          simp only []
          exact simpFrame_trans f1 (ihN defsA stack a _ hdefs ha hrc1)
        | some rv =>
          simp only []
          have hrv : W ≤ rv :=
            hch0 rv (aRemove_sub _ _ _ (aRemove_sub _ _ _ (aGet_mem _ _ _ hro)))
          by_cases ht : heapTruthy
              (h.set a (HNode.obj (aRemove "$ref" (aRemove "default" (aRemove "title" kvs0))))) rv = true
          · rw [if_pos ht]
            cases hgr : (h.set a
                (HNode.obj (aRemove "$ref" (aRemove "default" (aRemove "title" kvs0))))).get rv with
            | none => exact f1
            | some node =>
              cases node with
              | str ref =>
                simp only []
                by_cases hs : stack.contains (stripDefsRef ref) = true
                · rw [if_pos hs]
                  exact f1
                · rw [if_neg hs]
                  cases hdl : defsLookupH
                      (h.set a (HNode.obj (aRemove "$ref" (aRemove "default" (aRemove "title" kvs0)))))
                      defsA (stripDefsRef ref) with
                  | error e => exact f1
                  | ok d =>
                    simp only []
                    have hd : W ≤ d := defsLookupH_ge _ defsA _ d W hrc1 hdefs hdl
                    have frec := ihA defsA (stack ++ [stripDefsRef ref]) d _ hdefs hd hrc1
                    cases hrec : simplifyAuxH fuel defsA (stack ++ [stripDefsRef ref]) d
                        (h.set a (HNode.obj (aRemove "$ref" (aRemove "default" (aRemove "title" kvs0))))) with
                    | mk res h2 =>
                      rw [hrec] at frec
                      simp only [] at frec
                      cases res with
                      | error e => exact simpFrame_trans f1 frec
                      | ok u =>
                        simp only []
                        cases hoa : heapAsObj h2 a with
                        | error e =>
                          cases hod : heapAsObj h2 d with
                          | error e2 => exact simpFrame_trans f1 frec
                          | ok dkvs => exact simpFrame_trans f1 frec
                        | ok akvs =>
                          cases hod : heapAsObj h2 d with
                          | error e => exact simpFrame_trans f1 frec
                          | ok dkvs =>
                            simp only []
                            have rc2 := frec.2.1
                            have hcha : ∀ b ∈ akvs.map (·.2), W ≤ b :=
                              rc_obj_children rc2 ha (heapAsObj_get h2 a akvs hoa)
                            have hchd : ∀ b ∈ dkvs.map (·.2), W ≤ b :=
                              rc_obj_children rc2 hd (heapAsObj_get h2 d dkvs hod)
                            have hchu : ∀ b ∈ nodeAddrs (HNode.obj (aUpdate akvs dkvs)), W ≤ b := by
                              intro b hb
                              rcases aUpdate_sub akvs dkvs b hb with hb' | hb'
                              · exact hcha b hb'
                              · exact hchd b hb'
                            exact simpFrame_trans (simpFrame_trans f1 frec)
                              (simpFrame_set h2 W a _ rc2 ha hchu)
              | null => exact f1
              | bool b => exact f1
              | num n => exact f1
              | arr l => exact f1
              | obj kvs' => exact f1
          · rw [if_neg ht]
            exact simpFrame_trans f1 (ihN defsA stack a _ hdefs ha hrc1)
    · -- simplifyNoRefH
      intro defsA stack a h hdefs ha hrc
      rw [simplifyNoRefH]
      cases ho : heapAsObj h a with
      | error e => exact simpFrame_refl h W hrc
      | ok kvs =>
        simp only []
        have hget : h.get a = some (.obj kvs) := heapAsObj_get h a kvs ho
        have hch : ∀ b ∈ kvs.map (·.2), W ≤ b := rc_obj_children hrc ha hget
        cases hao : aGet "anyOf" kvs with
        | none =>
          simp only []
          exact ihD defsA stack a h hdefs ha hrc
        | some av =>
          simp only []
          have hav : W ≤ av := hch av (aGet_mem _ _ _ hao)
          by_cases ht : heapTruthy h av = true
          · rw [if_pos ht]
            cases hgv : h.get av with
            | none => exact simpFrame_refl h W hrc
            | some node =>
              cases node with
              | arr branches =>
                simp only []
                have hbr : ∀ c ∈ branches, W ≤ c := rc_arr_children hrc hav hgv
                have fl := ihL defsA stack branches h hdefs hbr hrc
                cases hl : simplifyListH fuel defsA stack branches h with
                | mk res h2 =>
                  rw [hl] at fl
                  simp only [] at fl
                  cases res with
                  | error e => exact fl
                  | ok u =>
                    simp only []
                    cases hlast : branches.getLast? with
                    | none => exact fl
                    | some lastB =>
                      have hlb : W ≤ lastB := hbr lastB (mem_of_getLast_opt _ _ hlast)
                      exact simpFrame_trans fl (ihD defsA stack lastB h2 hdefs hlb fl.2.1)
              | null => exact simpFrame_refl h W hrc
              | bool b => exact simpFrame_refl h W hrc
              | num n => exact simpFrame_refl h W hrc
              | str s => exact simpFrame_refl h W hrc
              | obj kvs' => exact simpFrame_refl h W hrc
          · rw [if_neg ht]
            exact ihD defsA stack a h hdefs ha hrc
    · -- dispatchTypeH
      intro defsA stack a h hdefs ha hrc
      rw [dispatchTypeH]
      cases ho : heapAsObj h a with
      | error e => exact simpFrame_refl h W hrc
      | ok kvs =>
        simp only []
        cases hty : aGet "type" kvs with
        | none => exact simpFrame_refl h W hrc
        | some tv =>
          simp only []
          cases hgt : h.get tv with
          | none => exact simpFrame_refl h W hrc
          | some node =>
            cases node with
            | str t =>
              simp only []
              by_cases hob : t = "object"
              · rw [if_pos hob]
                exact ihO defsA stack a h hdefs ha hrc
              · rw [if_neg hob]
                by_cases har : t = "array"
                · rw [if_pos har]
                  exact ihR defsA stack a h hdefs ha hrc
                · rw [if_neg har]
                  exact simpFrame_refl h W hrc
            | null => exact simpFrame_refl h W hrc
            | bool b => exact simpFrame_refl h W hrc
            | num n => exact simpFrame_refl h W hrc
            | arr l => exact simpFrame_refl h W hrc
            | obj kvs' => exact simpFrame_refl h W hrc
    · -- objectAuxH
      intro defsA stack a h hdefs ha hrc
      rw [objectAuxH]
      cases ho : heapAsObj h a with
      | error e => exact simpFrame_refl h W hrc
      | ok kvs =>
        simp only []
        have hget : h.get a = some (.obj kvs) := heapAsObj_get h a kvs ho
        have hch : ∀ b ∈ kvs.map (·.2), W ≤ b := rc_obj_children hrc ha hget
        have hch1 : ∀ b ∈ nodeAddrs (HNode.obj (aRemove "additionalProperties" kvs)), W ≤ b := by
          intro b hb
          exact hch b (aRemove_sub _ _ _ hb)
        have f1 : simpFrame W h (h.set a (HNode.obj (aRemove "additionalProperties" kvs))) :=
          simpFrame_set h W a _ hrc ha hch1
        cases had : aGet "additionalProperties" kvs with
        | none =>
          simp only []
          exact simpFrame_trans f1 (ihP defsA stack a _ hdefs ha f1.2.1)
        | some ad =>
          simp only []
          by_cases ht : heapTruthy (h.set a (HNode.obj (aRemove "additionalProperties" kvs))) ad = true
          · rw [if_pos ht]
            exact f1
          · rw [if_neg ht]
            exact simpFrame_trans f1 (ihP defsA stack a _ hdefs ha f1.2.1)
    · -- objectPropsH
      intro defsA stack a h hdefs ha hrc
      rw [objectPropsH]
      cases ho : heapAsObj h a with
      | error e => exact simpFrame_refl h W hrc
      | ok kvs =>
        simp only []
        have hget : h.get a = some (.obj kvs) := heapAsObj_get h a kvs ho
        have hch : ∀ b ∈ kvs.map (·.2), W ≤ b := rc_obj_children hrc ha hget
        cases hpp : aGet "properties" kvs with
        | none => exact simpFrame_refl h W hrc
        | some pv =>
          simp only []
          have hpv : W ≤ pv := hch pv (aGet_mem _ _ _ hpp)
          by_cases ht : heapTruthy h pv = true
          · rw [if_pos ht]
            cases hgp : h.get pv with
            | none => exact simpFrame_refl h W hrc
            | some node =>
              cases node with
              | obj props =>
                simp only []
                have hpr : ∀ c ∈ props.map (·.2), W ≤ c := rc_obj_children hrc hpv hgp
                exact ihL defsA stack (props.map (·.2)) h hdefs hpr hrc
              | null => exact simpFrame_refl h W hrc
              | bool b => exact simpFrame_refl h W hrc
              | num n => exact simpFrame_refl h W hrc
              | str s => exact simpFrame_refl h W hrc
              | arr l => exact simpFrame_refl h W hrc
          · rw [if_neg ht]
            exact simpFrame_refl h W hrc
    · -- arrayAuxH
      intro defsA stack a h hdefs ha hrc
      rw [arrayAuxH]
      cases ho : heapAsObj h a with
      | error e => exact simpFrame_refl h W hrc
      | ok kvs =>
        simp only []
        have hget : h.get a = some (.obj kvs) := heapAsObj_get h a kvs ho
        have hch : ∀ b ∈ kvs.map (·.2), W ≤ b := rc_obj_children hrc ha hget
        cases hpi : aGet "prefixItems" kvs with
        | none =>
          simp only []
          exact ihI defsA stack a h hdefs ha hrc
        | some pv =>
          simp only []
          have hpv : W ≤ pv := hch pv (aGet_mem _ _ _ hpi)
          by_cases ht : heapTruthy h pv = true
          · rw [if_pos ht]
            cases hgp : h.get pv with
            | none => exact simpFrame_refl h W hrc
            | some node =>
              cases node with
              | arr items =>
                simp only []
                have hit : ∀ c ∈ items, W ≤ c := rc_arr_children hrc hpv hgp
                have fl := ihL defsA stack items h hdefs hit hrc
                cases hl : simplifyListH fuel defsA stack items h with
                | mk res h2 =>
                  rw [hl] at fl
                  simp only [] at fl
                  cases res with
                  | error e => exact fl
                  | ok u =>
                    simp only []
                    exact simpFrame_trans fl (ihI defsA stack a h2 hdefs ha fl.2.1)
              | null => exact simpFrame_refl h W hrc
              | bool b => exact simpFrame_refl h W hrc
              | num n => exact simpFrame_refl h W hrc
              | str s => exact simpFrame_refl h W hrc
              | obj kvs' => exact simpFrame_refl h W hrc
          · rw [if_neg ht]
            exact ihI defsA stack a h hdefs ha hrc
    · -- arrayItemsH
      intro defsA stack a h hdefs ha hrc
      rw [arrayItemsH]
      cases ho : heapAsObj h a with
      | error e => exact simpFrame_refl h W hrc
      | ok kvs =>
        simp only []
        have hget : h.get a = some (.obj kvs) := heapAsObj_get h a kvs ho
        have hch : ∀ b ∈ kvs.map (·.2), W ≤ b := rc_obj_children hrc ha hget
        cases hiv : aGet "items" kvs with
        | none => exact simpFrame_refl h W hrc
        | some iv =>
          simp only []
          have hivW : W ≤ iv := hch iv (aGet_mem _ _ _ hiv)
          by_cases ht : heapTruthy h iv = true
          · rw [if_pos ht]
            exact ihA defsA stack iv h hdefs hivW hrc
          · rw [if_neg ht]
            exact simpFrame_refl h W hrc
    · -- simplifyListH
      intro defsA stack l h hdefs hl hrc
      cases l with
      | nil =>
        rw [simplifyListH]
        exact simpFrame_refl h W hrc
      | cons a rest =>
        rw [simplifyListH]
        have haW : W ≤ a := hl a (List.mem_cons_self _ _)
        have fa := ihA defsA stack a h hdefs haW hrc
        cases hsa : simplifyAuxH fuel defsA stack a h with
        | mk res h2 =>
          rw [hsa] at fa
          simp only [] at fa
          cases res with
          | error e => exact fa
          | ok u =>
            simp only []
            exact simpFrame_trans fa
              (ihL defsA stack rest h2 hdefs (fun c hc => hl c (List.mem_cons_of_mem _ hc)) fa.2.1)

/-- Reading back any tree rooted below the watermark is insensitive to
changes at or above it. -/
theorem rb_agree (h2 h : Heap) (hwf : heapWF h) (hag : heapAgreesBelow h2 h h.next) :
    ∀ fuel : Nat,
      (∀ a, a < h.next → readbackH fuel h2 a = readbackH fuel h a) ∧
      (∀ l, (∀ c ∈ l, c < h.next) → readbackListH fuel h2 l = readbackListH fuel h l) ∧
      (∀ kvs, (∀ c ∈ kvs.map (·.2), c < h.next) →
        readbackMembersH fuel h2 kvs = readbackMembersH fuel h kvs) := by
  intro fuel
  induction fuel with
  | zero =>
    refine ⟨fun a _ => by rw [readbackH, readbackH],
      fun l _ => by rw [readbackListH, readbackListH],
      fun kvs _ => by rw [readbackMembersH, readbackMembersH]⟩
  | succ fuel ih =>
    obtain ⟨ihV, ihL, ihM⟩ := ih
    have V : ∀ a, a < h.next → readbackH (fuel + 1) h2 a = readbackH (fuel + 1) h a := by
      intro a ha
      rw [readbackH, readbackH, hag a ha]
      cases hg : h.get a with
      | none => rfl
      | some node =>
        cases node with
        | arr l =>
          simp only []
          have hc : ∀ c ∈ l, c < h.next :=
            fun c hc => (hwf _ (lookup_mem_nat _ _ _ hg)).2 c hc
          rw [ihL l hc]
        | obj kvs =>
          simp only []
          have hc : ∀ c ∈ kvs.map (·.2), c < h.next :=
            fun c hc => (hwf _ (lookup_mem_nat _ _ _ hg)).2 c hc
          rw [ihM kvs hc]
        | null => rfl
        | bool b => rfl
        | num n => rfl
        | str s => rfl
    have L : ∀ l, (∀ c ∈ l, c < h.next) →
        readbackListH (fuel + 1) h2 l = readbackListH (fuel + 1) h l := by
      intro l
      induction l with
      | nil => intro _; rw [readbackListH, readbackListH]
      | cons a rest ihr =>
        intro hc
        rw [readbackListH, readbackListH]
        rw [ihV a (hc a (List.mem_cons_self _ _))]
        have hrest := ihr fun c hcc => hc c (List.mem_cons_of_mem _ hcc)
        simp only [hrest]
    have M : ∀ kvs, (∀ c ∈ kvs.map (·.2), c < h.next) →
        readbackMembersH (fuel + 1) h2 kvs = readbackMembersH (fuel + 1) h kvs := by
      intro kvs
      induction kvs with
      | nil => intro _; rw [readbackMembersH, readbackMembersH]
      | cons kv rest ihr =>
        intro hc
        obtain ⟨k, a⟩ := kv
        rw [readbackMembersH, readbackMembersH]
        rw [ihV a (hc a (by simp))]
        have hrest := ihr fun c hcc => hc c (by simp at hcc ⊢; exact Or.inr hcc)
        simp only [hrest]
    exact ⟨V, L, M⟩

theorem deepcopy_succeeds_get (fuel : Nat) (h : Heap) (a : Nat) (p : Heap × Nat)
    (hdc : deepcopyH fuel h a = some p) : ∃ n, h.get a = some n := by
  cases fuel with
  | zero => rw [deepcopyH] at hdc; cases hdc
  | succ fuel =>
    rw [deepcopyH] at hdc
    cases hg : h.get a with
    | none => rw [hg] at hdc; cases hdc
    | some n => exact ⟨n, rfl⟩

theorem wf_set_of_get (h : Heap) (a : Nat) (kvs kvs2 : List (String × Nat))
    (hwf : heapWF h) (hg : h.get a = some (.obj kvs))
    (hsub : ∀ b ∈ kvs2.map (·.2), b ∈ kvs.map (·.2)) :
    heapWF (h.set a (.obj kvs2)) := by
  refine wf_set h a _ hwf ?_
  intro b hb
  exact (hwf _ (lookup_mem_nat _ _ _ hg)).2 b (hsub b hb)

/-- Claim C10: `_GeminiJsonSchema.simplify` never mutates the caller's
input. The constructor deep-copies the schema (including its `$defs`
table) and all subsequent pops, key deletions and in-place updates hit
only the copy, so on any well-formed heap the value read back at the
caller's root address is identical before and after `simplify`, whether
simplification succeeds or fails. -/
theorem c10_simplify_preserves_caller_schema (h : Heap) (root : Nat) (hwf : heapWF h) :
    ∀ fuel : Nat,
      readbackH fuel (geminiJsonSchemaSimplifyH h root).2 root = readbackH fuel h root := by
  intro fuel
  rw [geminiJsonSchemaSimplifyH]
  cases hdc : deepcopyH (h.data.length + 1) h root with
  | none => rfl
  | some p =>
    obtain ⟨h1, copyA⟩ := p
    dsimp only
    have hrc0 : regionClosed h h.next := wf_regionClosed h hwf
    obtain ⟨wf1, rc1, ag1, nx1, hWc, hclt⟩ :=
      (dc_bundle h.next (h.data.length + 1)).1 h root (h1, copyA) hwf hrc0 (Nat.le_refl _) hdc
    dsimp only at wf1 rc1 ag1 nx1 hWc hclt
    obtain ⟨n0, hg0⟩ := deepcopy_succeeds_get _ h root _ hdc
    have hroot : root < h.next := (hwf _ (lookup_mem_nat _ _ _ hg0)).1
    cases hob : heapAsObj h1 copyA with
    | error e =>
      exact (rb_agree h1 h hwf ag1 fuel).1 root hroot
    | ok kvs =>
      dsimp only
      have hg1 : h1.get copyA = some (.obj kvs) := heapAsObj_get h1 copyA kvs hob
      have hch : ∀ b ∈ kvs.map (·.2), h.next ≤ b := rc_obj_children rc1 hWc hg1
      have hch2 : ∀ b ∈ nodeAddrs (HNode.obj (aRemove "$defs" kvs)), h.next ≤ b :=
        fun b hb => hch b (aRemove_sub _ _ _ hb)
      have f2 : simpFrame h.next h1 (h1.set copyA (HNode.obj (aRemove "$defs" kvs))) :=
        simpFrame_set h1 h.next copyA _ rc1 hWc hch2
      have wf2 : heapWF (h1.set copyA (HNode.obj (aRemove "$defs" kvs))) :=
        wf_set_of_get h1 copyA kvs _ wf1 hg1 (fun b hb => aRemove_sub _ _ _ hb)
      have hx2 : (h1.set copyA (HNode.obj (aRemove "$defs" kvs))).next = h1.next :=
        heap_next_set h1 copyA _
      cases hdo : aGet "$defs" kvs with
      | some d =>
        dsimp only
        have hdW : h.next ≤ d := hch d (aGet_mem _ _ _ hdo)
        have fr := (simplifyH_frame h.next
            (16 * ((h1.set copyA (HNode.obj (aRemove "$defs" kvs))).data.length + 16) *
              ((h1.set copyA (HNode.obj (aRemove "$defs" kvs))).data.length + 16))).1
            d [] copyA (h1.set copyA (HNode.obj (aRemove "$defs" kvs))) hdW hWc f2.2.1
        cases hs : simplifyAuxH
            (16 * ((h1.set copyA (HNode.obj (aRemove "$defs" kvs))).data.length + 16) *
              ((h1.set copyA (HNode.obj (aRemove "$defs" kvs))).data.length + 16))
            d [] copyA (h1.set copyA (HNode.obj (aRemove "$defs" kvs))) with
        | mk res h4 =>
          rw [hs] at fr
          dsimp only at fr
          have hagg : heapAgreesBelow h4 h h.next :=
            agreesBelow_trans ag1 (agreesBelow_trans f2.1 fr.1)
          cases res with
          | error e => exact (rb_agree h4 h hwf hagg fuel).1 root hroot
          | ok u => exact (rb_agree h4 h hwf hagg fuel).1 root hroot
      | none =>
        dsimp only
        cases hga : (h1.set copyA (HNode.obj (aRemove "$defs" kvs))).alloc (HNode.obj []) with
        | mk h3 defsA =>
          dsimp only
          have h3eq : h3 = ((h1.set copyA (HNode.obj (aRemove "$defs" kvs))).alloc (HNode.obj [])).1 := by
            rw [hga]
          have dAeq : defsA = (h1.set copyA (HNode.obj (aRemove "$defs" kvs))).next := by
            have hpr : ((h1.set copyA (HNode.obj (aRemove "$defs" kvs))).alloc (HNode.obj [])).2 = defsA := by
              rw [hga]
            rw [← hpr, alloc_snd]
          have ag3 : heapAgreesBelow h3 (h1.set copyA (HNode.obj (aRemove "$defs" kvs))) h.next := by
            rw [h3eq]
            exact agreesBelow_alloc _ _ h.next (by rw [hx2]; omega)
          have rc3 : regionClosed h3 h.next := by
            rw [h3eq]
            exact regionClosed_alloc _ h.next _ wf2 f2.2.1
              (fun b hb => absurd hb (by simp [nodeAddrs]))
          have hdW : h.next ≤ defsA := by
            rw [dAeq, hx2]; omega
          have fr := (simplifyH_frame h.next
              (16 * (h3.data.length + 16) * (h3.data.length + 16))).1
              defsA [] copyA h3 hdW hWc rc3
          cases hs : simplifyAuxH (16 * (h3.data.length + 16) * (h3.data.length + 16))
              defsA [] copyA h3 with
          | mk res h4 =>
            rw [hs] at fr
            dsimp only at fr
            have hagg : heapAgreesBelow h4 h h.next :=
              agreesBelow_trans ag1 (agreesBelow_trans f2.1 (agreesBelow_trans ag3 fr.1))
            cases res with
            | error e => exact (rb_agree h4 h hwf hagg fuel).1 root hroot
            | ok u => exact (rb_agree h4 h hwf hagg fuel).1 root hroot

/-- Witness for C10: applies the no-mutation theorem to the concrete
six-object heap and fuel 5, with the well-formedness hypothesis checked
by evaluation. -/
theorem c10_simplify_preserves_caller_schema_witness :
    heapWF c10Heap ∧
      readbackH 5 (geminiJsonSchemaSimplifyH c10Heap 0).2 0 = readbackH 5 c10Heap 0 :=
  ⟨by unfold heapWF; decide, c10_simplify_preserves_caller_schema c10Heap 0 (by unfold heapWF; decide) 5⟩
